import Mathlib

/-!
# Pairing Bot: command parser and subscription dispatcher

A shallow embedding of `parse_cmd.go` and `dispatch.go` (the newer variant, namespace
`Bot`) and of `parseCmd` and `dispatch` of `pairing-bot.go` (the older variant, namespace
`Legacy`), with the statements about them that the specification makes.

Conventions of the embedding.
* A Go `string` is a Lean `String`; the request text reaches the code through the JSON
  decoder, which only hands over valid UTF-8.
* A Go `error` is `Option GoError`, `none` being `nil`.
* A Go `map[string]V` is an association list without repeated keys (`GoMap V`).
* A run-time panic (index or slice out of range, failed type assertion) is the `error`
  side of `Except Panic`.
* The store is an external collaborator: its answers are arguments of `dispatch`, and the
  call `dispatch` issues to it is part of the result (`Effect`).
-/

namespace Go

/-! ## Library functions used by the sources -/

/-- A Go `error` value, by its dynamic type: `errors.New` (`errorString`), the
`parsingErr` of `parse_cmd.go`, a gRPC status error of the store client (with its
code), or any other error of the store adapter. -/
inductive GoError where
  | errorString (s : String)
  | parsingErr (msg : String)
  | grpc (code : Nat) (msg : String)
  | other (msg : String)
  deriving DecidableEq, Repr

/-- A run-time panic of the Go program. -/
inductive Panic where
  | indexOutOfRange
  | sliceBounds
  | typeAssertion
  deriving DecidableEq, Repr

/-- The character class `\s` of Go's `regexp` package: `[\t\n\f\r ]`. -/
def isReSpace (c : Char) : Bool :=
  c == '\t' || c == '\n' || c == '\x0c' || c == '\r' || c == ' '

/-- The function `unicode.IsSpace`: the Unicode White_Space property. -/
def isSpace (c : Char) : Bool :=
  c == '\t' || c == '\n' || c == '\x0b' || c == '\x0c' || c == '\r' || c == ' '
    || c.toNat == 0x85 || c.toNat == 0xA0 || c.toNat == 0x1680
    || (0x2000 ≤ c.toNat && c.toNat ≤ 0x200A)
    || c.toNat == 0x2028 || c.toNat == 0x2029 || c.toNat == 0x202F
    || c.toNat == 0x205F || c.toNat == 0x3000

/-- The loop of `ReplaceAllString` for the pattern `\s+` and the replacement `" "`:
every maximal run of `\s` characters becomes one space. `inRun` tells that the
previous character belonged to a run that has already been replaced. -/
def replaceAllSpaceAux (inRun : Bool) : List Char → List Char
  | [] => []
  | c :: cs =>
    if isReSpace c then
      if inRun then replaceAllSpaceAux true cs else ' ' :: replaceAllSpaceAux true cs
    else c :: replaceAllSpaceAux false cs

/-- The call `regexp.MustCompile("\\s+").ReplaceAllString(s, " ")`. -/
def replaceAllSpace (s : List Char) : List Char := replaceAllSpaceAux false s

/-- The function `strings.TrimSpace`. -/
def trimSpace (s : List Char) : List Char :=
  ((s.dropWhile isSpace).reverse.dropWhile isSpace).reverse

/-- The function `unicode.ToLower` on one rune. ASCII is computed as Go does; the
simple lower-case mapping of the Unicode tables for the other runes is the
argument `tbl`. -/
def toLowerRune (tbl : Char → Char) (c : Char) : Char :=
  if c.toNat < 128 then
    if 'A'.toNat ≤ c.toNat ∧ c.toNat ≤ 'Z'.toNat then Char.ofNat (c.toNat + 32) else c
  else tbl c

/-- The function `strings.ToLower` on the runes of a string. -/
def toLower (tbl : Char → Char) (s : List Char) : List Char := s.map (toLowerRune tbl)

/-- The call `strings.Split(s, " ")`: the pieces between the spaces; always at least
one piece, the empty string giving one empty piece. -/
def splitSpace : List Char → List (List Char)
  | [] => [[]]
  | c :: cs =>
    if c = ' ' then [] :: splitSpace cs
    else
      match splitSpace cs with
      | [] => [[c]]
      | w :: ws => (c :: w) :: ws

/-- What the digit loop of `strconv.ParseUint` ends with: the value read, or the
error met first. -/
inductive Digits where
  | value (n : Nat)
  | syntaxErr
  | rangeErr
  deriving DecidableEq, Repr

/-- The digit loop of `strconv.ParseUint` in base 10 for 64 bits, read left to right
with the accumulator `acc`: a character that is not a digit ends it with a syntax
error, a digit that takes the value past `2^64 - 1` ends it with a range error. The
loop of `strconv.Atoi` for short tokens gives the same on them, as they cannot reach
the bound. -/
def digitsValue (acc : Nat) : List Char → Digits
  | [] => .value acc
  | c :: cs =>
    if '0'.toNat ≤ c.toNat ∧ c.toNat ≤ '9'.toNat then
      if 2 ^ 64 - 1 < acc * 10 + (c.toNat - '0'.toNat) then .rangeErr
      else digitsValue (acc * 10 + (c.toNat - '0'.toNat)) cs
    else .syntaxErr

/-- The width of Go's `int` on the 64-bit platforms the bot runs on. -/
def intSize : Nat := 64

/-- The function `strconv.Atoi`: an optional sign followed by decimal digits. A
syntax error gives the value 0, a value outside `int` gives the nearest bound, both
with a non-nil error; of the two, the one that the scan from the left meets first. -/
def Atoi (s : String) : Int × Option GoError :=
  let syntaxErr : Int × Option GoError := (0, some (.other "strconv.Atoi: invalid syntax"))
  let signed (neg : Bool) (ds : List Char) : Int × Option GoError :=
    match ds with
    | [] => syntaxErr
    | _ :: _ =>
      match digitsValue 0 ds with
      | .syntaxErr => syntaxErr
      | .rangeErr =>
        (if neg then - (2 : Int) ^ (intSize - 1) else (2 : Int) ^ (intSize - 1) - 1,
          some (.other "strconv.Atoi: value out of range"))
      | .value n =>
        let v : Int := if neg then - (n : Int) else (n : Int)
        if v < - (2 : Int) ^ (intSize - 1) then
          (- (2 : Int) ^ (intSize - 1), some (.other "strconv.Atoi: value out of range"))
        else if (2 : Int) ^ (intSize - 1) - 1 < v then
          ((2 : Int) ^ (intSize - 1) - 1, some (.other "strconv.Atoi: value out of range"))
        else (v, none)
  match s.data with
  | [] => syntaxErr
  | c :: cs =>
    if c = '-' then signed true cs
    else if c = '+' then signed false cs
    else signed false (c :: cs)

/-- A Go map with string keys: an association list without repeated keys. -/
abbrev GoMap (V : Type) := List (String × V)

namespace GoMap

/-- The read `m[k]` with the comma-ok result. -/
def get? {V : Type} (m : GoMap V) (k : String) : Option V :=
  match m with
  | [] => none
  | (k1, v) :: rest => if k1 = k then some v else get? rest k

/-- The assignment `m[k] = v`: replaces the value of an existing key, adds a new key. -/
def set {V : Type} (m : GoMap V) (k : String) (v : V) : GoMap V :=
  match m with
  | [] => [(k, v)]
  | (k1, v1) :: rest => if k1 = k then (k1, v) :: rest else (k1, v1) :: set rest k v

/-- The keys of the map. -/
def keys {V : Type} (m : GoMap V) : List String := m.map Prod.fst

end GoMap

end Go

open Go

namespace Bot

/-! ## parse_cmd.go -/

/-- The function `contains` of `parse_cmd.go`. -/
def contains (list : List String) (cmd : String) : Bool :=
  match list with
  | [] => false
  | v :: rest => if v = cmd then true else contains rest cmd

/-- The list `cmdList` of `parseCmd`. -/
def cmdList : List String :=
  ["subscribe", "unsubscribe", "help", "schedule", "streams", "skip", "unskip", "status"]

/-- The list `daysList` of `parseCmd`. -/
def daysList : List String :=
  ["monday", "tuesday", "wednesday", "thursday", "friday", "saturday", "sunday"]

/-- Lines 45 to 49 of `parseCmd`: collapse the runs of `\s`, trim, lower-case, split
on the space. -/
def tokens (tbl : Char → Char) (cmdStr : String) : List String :=
  (splitSpace (toLower tbl (trimSpace (replaceAllSpace cmdStr.data)))).map String.mk

/-- The result type of `parseCmd`: the verb, the args and the error. -/
abbrev Parsed := String × List String × Option GoError

/-- The failure return `return "help", nil, err` of `parseCmd`. -/
def failWith (e : GoError) : Parsed := ("help", [], some e)

/-- The loop of the `streams` case, `for i := 1; i < len(cmd); i += 2`, over the
suffix `cmd[i:]`: `some e` when a count `cmd[i+1]` fails `strconv.Atoi`, a panic
when `cmd[i+1]` is out of range. -/
def countsLoop : List String → Except Panic (Option GoError)
  | [] => .ok none
  | [_] => .error .indexOutOfRange
  | _ :: count :: more =>
    match (Atoi count).2 with
    | some _ => .ok (some (.parsingErr "the user issued STREAMS with malformed arguments"))
    | none => countsLoop more

/-- The final `default` case of the inner switch: `return cmd[0], cmd[1:], err`. -/
def defaultCase (cmd : List String) : Except Panic Parsed :=
  match cmd with
  | [] => .error .indexOutOfRange
  | c0 :: args => .ok (c0, args, none)

/-- The body of `case cmd[0] == "streams"`, which ends in `fallthrough`. -/
def streamsCase (cmd : List String) : Except Panic Parsed :=
  if cmd.length = 1 ∨ (cmd.length - 1) % 2 = 1 then
    .ok (failWith (.parsingErr "the user issued STREAMS with malformed arguments"))
  else
    match countsLoop (cmd.drop 1) with
    | .error p => .error p
    | .ok (some e) => .ok (failWith e)
    | .ok none => defaultCase cmd

/-- The body of `case cmd[0] == "schedule"`, which ends in `fallthrough` and so
continues with the body of the `streams` case. -/
def scheduleCase (cmd : List String) : Except Panic Parsed :=
  if (cmd.drop 1).any (fun v => !contains daysList v) then
    .ok (failWith (.parsingErr "the user issued SCHEDULE with malformed arguments"))
  else streamsCase cmd

/-- The validation switch of `parseCmd` on the token list `cmd`. -/
def parseTokens (cmd : List String) : Except Panic Parsed :=
  match cmd with
  | [] => .ok (failWith (.errorString "the user-issued command was blank"))
  | c0 :: rest =>
    if contains cmdList c0 ∧ cmd.length = 1 then
      if c0 = "schedule" ∨ c0 = "streams" ∨ c0 = "skip" ∨ c0 = "unskip" then
        .ok (failWith
          (.parsingErr "the user issued a command without args, but it reqired args"))
      else .ok (c0, [], none)
    else if contains cmdList c0 ∧ cmd.length > 1 then
      if c0 = "subscribe" ∨ c0 = "unsubscribe" ∨ c0 = "help" ∨ c0 = "status" then
        .ok (failWith
          (.parsingErr "the user issued a command with args, but it disallowed args"))
      else if c0 = "skip" ∧ (cmd.length ≠ 2 ∨ rest.head? ≠ some "tomorrow") then
        .ok (failWith (.parsingErr "the user issued SKIP with malformed arguments"))
      else if c0 = "unskip" ∧ (cmd.length ≠ 2 ∨ rest.head? ≠ some "tomorrow") then
        .ok (failWith (.parsingErr "the user issued UNSKIP with malformed arguments"))
      else if c0 = "schedule" then scheduleCase cmd
      else if c0 = "streams" then streamsCase cmd
      else defaultCase cmd
    else .ok (failWith (.parsingErr "the user-issued command wasn't valid"))

/-- The function `parseCmd` of `parse_cmd.go`. -/
def parseCmd (tbl : Char → Char) (cmdStr : String) : Except Panic Parsed :=
  parseTokens (tokens tbl cmdStr)

/-! ## dispatch.go -/

/-- The constant `helpMessage` of `dispatch.go`. -/
def helpMessage : String := "**How to use Pairing Bot:**\n* `subscribe` to start getting matched with other Pairing Bot users for pair programming\n* `schedule monday wednesday friday` to set your weekly pairing schedule\n  * In this example, I've been set to find pairing partners for you on every Monday, Wednesday, and Friday\n  * You can schedule pairing for any combination of days in the week\n* `streams` to select streams/topics of the match and to select the number of pairings per keyword\n  * For example, `streams any 2 pairing 1 math 1` would schedule per day 2 pairings with anyone, 1 pairing with someone interesting in pair programming, and 1 pairing with someone who'd like to talk about math. Of course, they would need to be available on a given day.\n  * At the moment, there's no strict rules for words as topics here except that they have to be one word. I suggest using the stream name without the spaces!\n* `skip tomorrow` to skip pairing tomorrow\n  * This is valid until matches go out at 04:00 UTC\n* `unskip tomorrow` to undo skipping tomorrow\n* `status` to show your current schedule, skip status, and name\n* `unsubscribe` to stop getting matched entirely\n\nIf you've found a bug, please [submit an issue on github](https://github.com/thwidge/pairing-bot/issues)!"

/-- The constant `subscribeMessage` of `dispatch.go`. -/
def subscribeMessage : String := "Yay! You're now subscribed to Pairing Bot!\nCurrently, I'm set to find pair programming partners for you on **Mondays**, **Tuesdays**, **Wednesdays**, **Thursdays**, and **Fridays**.\nYou can customize your schedule any time with `schedule` :)"

/-- The constant `unsubscribeMessage` of `dispatch.go`. -/
def unsubscribeMessage : String := "You're unsubscribed!\nI won't find pairing partners for you unless you `subscribe`.\n\nBe well :)"

/-- The constant `notSubscribedMessage` of `dispatch.go`. -/
def notSubscribedMessage : String := "You're not subscribed to Pairing Bot <3"

/-- The variable `writeErrorMessage` of `dispatch.go`; the constant `owner` it formats
is declared outside the sources at hand and is an argument. -/
def writeErrorMessage (owner : String) : String :=
  "Something went sideways while writing to the database. You should probably ping " ++ owner

/-- The variable `readErrorMessage` of `dispatch.go`, with `owner` as an argument. -/
def readErrorMessage (owner : String) : String :=
  "Something went sideways while reading from the database. You should probably ping " ++ owner

/-- A value of type `interface{}` held in a schedule map. -/
inductive Iface where
  | nil
  | bool (b : Bool)
  | str (s : String)
  | int (n : Int)
  deriving DecidableEq, Repr

/-- Modelled from the spec: the struct `Recurser`, whose declaration is outside the
sources at hand. The fields are those of the SubscriptionRecord of the data model
(id, name, isSkippingTomorrow, schedule, streams) and the flag `isSubscribed` that
`dispatch` reads; the types of `schedule` and `streams` are those `dispatch` assigns. -/
structure Recurser where
  id : String
  name : String
  isSkippingTomorrow : Bool
  schedule : GoMap Iface
  streams : GoMap Int
  isSubscribed : Bool
  deriving DecidableEq, Repr

/-- The interface value `pl.rdb`, by the answers it gives to the three calls that
`dispatch` makes: `GetByUserID(ctx, userID, userEmail, userName)`,
`Set(ctx, userID, rec)` and `Delete(ctx, userID)`. -/
structure RecurserDB where
  GetByUserID : String → String → String → Except GoError Recurser
  Set : String → Recurser → Option GoError
  Delete : String → Option GoError

/-- The mutating call that one run of `dispatch` issues to the store, if any. -/
inductive StoreCall where
  | none
  | set (userID : String) (rec : Recurser)
  | delete (userID : String)
  deriving DecidableEq, Repr

/-- What one run of `dispatch` returns (`response` and `err`) and does (`call`). -/
structure Reply where
  response : String
  err : Option GoError
  call : StoreCall
  deriving DecidableEq, Repr

/-- The case of `switch cmd` that a verb selects. -/
inductive Case where
  | schedule | streams | subscribe | unsubscribe | skip | unskip | status | help | default
  deriving DecidableEq, Repr

/-- The case selection of `switch cmd` in `dispatch`. -/
def switchCase (cmd : String) : Case :=
  if cmd = "schedule" then .schedule
  else if cmd = "streams" then .streams
  else if cmd = "subscribe" then .subscribe
  else if cmd = "unsubscribe" then .unsubscribe
  else if cmd = "skip" then .skip
  else if cmd = "unskip" then .unskip
  else if cmd = "status" then .status
  else if cmd = "help" then .help
  else .default

/-- The map literal `newSchedule` of the `schedule` case: all seven days false. -/
def blankSchedule : GoMap Iface :=
  [("monday", .bool false), ("tuesday", .bool false), ("wednesday", .bool false),
   ("thursday", .bool false), ("friday", .bool false), ("saturday", .bool false),
   ("sunday", .bool false)]

/-- The loop `for _, day := range cmdArgs { newSchedule[day] = true }`. -/
def populateSchedule (newSchedule : GoMap Iface) : List String → GoMap Iface
  | [] => newSchedule
  | day :: rest => populateSchedule (newSchedule.set day (.bool true)) rest

/-- The loop `for i := 0; i < len(cmdArgs); i += 2` of the `streams` case, over the
suffix `cmdArgs[i:]`: it stores `newStreams[cmdArgs[i]] = count` with the value of
`strconv.Atoi(cmdArgs[i+1])`, whose error is dropped; reading `cmdArgs[i+1]` past
the end panics. -/
def populateStreams (newStreams : GoMap Int) : List String → Except Panic (GoMap Int)
  | [] => .ok newStreams
  | [_] => .error .indexOutOfRange
  | topic :: count :: more => populateStreams (newStreams.set topic (Atoi count).1) more

/-- The list `daysList` of the `status` case. -/
def statusDaysList : List String :=
  ["Monday", "Tuesday", "Wednesday", "Thursday", "Friday", "Saturday", "Sunday"]

/-- The function `strings.ToLower` on a string. -/
def ToLower (tbl : Char → Char) (s : String) : String := String.mk (toLower tbl s.data)

/-- The loop that collects the active days: for each `day` of the list, in order,
the type assertion `schedule[strings.ToLower(day)].(bool)`, which panics when the
entry is missing or not a bool, and the `append` when it is true. -/
def activeDays (tbl : Char → Char) (schedule : GoMap Iface) : List String → Except Panic (List String)
  | [] => .ok []
  | day :: rest =>
    match schedule.get? (ToLower tbl day) with
    | some (.bool b) =>
      match activeDays tbl schedule rest with
      | .error p => .error p
      | .ok days => .ok (if b then day :: days else days)
    | _ => .error .typeAssertion

/-- The loop `for i := range schedule[:len(schedule)-1] { scheduleStr += schedule[i] + "s, " }`
on the already sliced list. -/
def scheduleStrLoop (scheduleStr : String) : List String → String
  | [] => scheduleStr
  | day :: rest => scheduleStrLoop (scheduleStr ++ day ++ "s, ") rest

/-- The schedule phrase of the `status` case. The slice `schedule[:len(schedule)-1]`
panics for the empty list. -/
def scheduleStr (schedule : List String) : Except Panic String :=
  if schedule.length = 0 then .error .sliceBounds
  else
    let s := scheduleStrLoop "" (schedule.take (schedule.length - 1))
    if schedule.length > 1 then
      .ok (s ++ "and " ++ schedule.getD (schedule.length - 1) "" ++ "s")
    else .ok (s ++ schedule.getD 0 "" ++ "s")

/-- The verb `%v` of `fmt.Sprintf` on an `int`. -/
def fmtInt (n : Int) : String := toString n

/-- The read `rec.streams[stream]` of a `map[string]int`: zero for a missing key. -/
def streamCount (streams : GoMap Int) (stream : String) : Int := (streams.get? stream).getD 0

/-- The list `streams` of the `status` case: `"any"` first when its count is
positive, then the other keys in the order `keyOrder` in which `range rec.streams`
enumerates them. -/
def streamsList (streams : GoMap Int) (keyOrder : List String) : List String :=
  (if streamCount streams "any" > 0 then ["any"] else []) ++ keyOrder.filter (fun s => s ≠ "any")

/-- The loop `for i, stream := range streams` that builds `streamsStr`; `n` is
`len(streams)` and `i` the index of the head of the list. -/
def streamsStrLoop (recStreams : GoMap Int) (n : Nat) : Nat → List String → String → String
  | _, [], streamsStr => streamsStr
  | i, stream :: rest, streamsStr =>
    if stream = "any" then
      streamsStrLoop recStreams n (i + 1) rest
        (streamsStr ++ fmtInt (streamCount recStreams stream) ++ " pairings with any recurser")
    else
      let s1 := if streamsStr ≠ "" then streamsStr ++ ", " else streamsStr
      let s2 := if (i : Int) = (n : Int) - 1 then s1 ++ "and " else s1
      streamsStrLoop recStreams n (i + 1) rest
        (s2 ++ fmtInt (streamCount recStreams stream)
          ++ " pairings with a recurser from stream " ++ stream)

/-- The streams phrase of the `status` case. -/
def streamsStr (recStreams : GoMap Int) (keyOrder : List String) : String :=
  let streams := streamsList recStreams keyOrder
  streamsStrLoop recStreams streams.length 0 streams ""

/-- The body of the `status` case for a subscribed record. -/
def statusResponse (tbl : Char → Char) (keyOrder : List String) (rec : Recurser) :
    Except Panic String :=
  let whoami := rec.name
  let skipStr := if rec.isSkippingTomorrow then " " else " not "
  match activeDays tbl rec.schedule statusDaysList with
  | .error p => .error p
  | .ok schedule =>
    match scheduleStr schedule with
    | .error p => .error p
    | .ok schedStr =>
      .ok ("* You're " ++ whoami ++ "\n* You're scheduled for pairing on **" ++ schedStr
        ++ "**\n We'll try and find you " ++ streamsStr rec.streams keyOrder
        ++ " \n **You're" ++ skipStr ++ "set to skip** pairing tomorrow")

/-- The function `dispatch` of `dispatch.go`. The arguments `tbl` (the Unicode
lower-case table), `owner` (a constant declared outside the sources at hand),
`iter` (the order in which the run time enumerates the keys of a map in `range`)
and `rdb` (the answers of the store) stand for the environment. -/
def dispatch (tbl : Char → Char) (owner : String) (iter : GoMap Int → List String)
    (rdb : RecurserDB) (cmd : String) (cmdArgs : List String)
    (userID userEmail userName : String) : Except Panic Reply :=
  match rdb.GetByUserID userID userEmail userName with
  | .error e => .ok { response := readErrorMessage owner, err := some e, call := .none }
  | .ok rec =>
    let isSubscribed := rec.isSubscribed
    let notSubscribed : Except Panic Reply :=
      .ok { response := notSubscribedMessage, err := none, call := .none }
    match switchCase cmd with
    | .schedule =>
      if !isSubscribed then notSubscribed
      else
        let newSchedule := populateSchedule blankSchedule cmdArgs
        let rec1 := { rec with schedule := newSchedule }
        match rdb.Set userID rec1 with
        | some e =>
          .ok { response := writeErrorMessage owner, err := some e, call := .set userID rec1 }
        | none =>
          .ok { response := "Awesome, your new schedule's been set! You can check it with `status`.",
                err := none, call := .set userID rec1 }
    | .streams =>
      if !isSubscribed then notSubscribed
      else
        match populateStreams [] cmdArgs with
        | .error p => .error p
        | .ok newStreams =>
          let rec1 := { rec with streams := newStreams }
          match rdb.Set userID rec1 with
          | some e =>
            .ok { response := writeErrorMessage owner, err := some e, call := .set userID rec1 }
          | none =>
            .ok { response := "Awesome, your topic's been set! You can check it with `status`.",
                  err := none, call := .set userID rec1 }
    | .subscribe =>
      if isSubscribed then
        .ok { response := "You're already subscribed! Use `schedule` to set your schedule.",
              err := none, call := .none }
      else
        match rdb.Set userID rec with
        | some e =>
          .ok { response := writeErrorMessage owner, err := some e, call := .set userID rec }
        | none => .ok { response := subscribeMessage, err := none, call := .set userID rec }
    | .unsubscribe =>
      if !isSubscribed then notSubscribed
      else
        -- `if err := pl.rdb.Delete(...)` declares a new `err`; the one returned stays nil
        match rdb.Delete userID with
        | some _ =>
          .ok { response := writeErrorMessage owner, err := none, call := .delete userID }
        | none => .ok { response := unsubscribeMessage, err := none, call := .delete userID }
    | .skip =>
      if !isSubscribed then notSubscribed
      else
        let rec1 := { rec with isSkippingTomorrow := true }
        -- `if err := pl.rdb.Set(...)` declares a new `err`; the one returned stays nil
        match rdb.Set userID rec1 with
        | some _ =>
          .ok { response := writeErrorMessage owner, err := none, call := .set userID rec1 }
        | none =>
          .ok { response := "Tomorrow: cancelled. I feel you. **I will not match you** for pairing tomorrow <3",
                err := none, call := .set userID rec1 }
    | .unskip =>
      if !isSubscribed then notSubscribed
      else
        let rec1 := { rec with isSkippingTomorrow := false }
        -- `if err := pl.rdb.Set(...)` declares a new `err`; the one returned stays nil
        match rdb.Set userID rec1 with
        | some _ =>
          .ok { response := writeErrorMessage owner, err := none, call := .set userID rec1 }
        | none =>
          .ok { response := "Tomorrow: uncancelled! Heckin *yes*! **I will match you** for pairing tomorrow :)",
                err := none, call := .set userID rec1 }
    | .status =>
      if !isSubscribed then notSubscribed
      else
        match statusResponse tbl (iter rec.streams) rec with
        | .error p => .error p
        | .ok response => .ok { response := response, err := none, call := .none }
    | .help => .ok { response := helpMessage, err := none, call := .none }
    | .default => .ok { response := "", err := none, call := .none }

end Bot



namespace Legacy

/-! ## pairing-bot.go: the older parser and dispatcher -/

/-- The constant `maren` of `pairing-bot.go`. -/
def maren : String := "@_**Maren Beam (SP2'19)**"

/-- The constant `helpMessage` of `pairing-bot.go`. -/
def helpMessage : String := "**How to use Pairing Bot:**\n* `subscribe` to start getting matched with other Pairing Bot users for pair programming\n* `schedule monday wednesday friday` to set your weekly pairing schedule\n  * In this example, I've been set to find pairing partners for you on every Monday, Wednesday, and Friday\n  * You can schedule pairing for any combination of days in the week\n* `skip tomorrow` to skip pairing tomorrow\n  * This is valid until matches go out at 6am\n  * If you issue **skip tomorrow** at 4am on Tuesday, you will not be matched for pairing on Tuesday, but you will be matched for pairing on Wednesday (if Wednesday is in your schedule)\n* `unskip tomorrow` to undo skipping tomorrow\n* `status` to show your current schedule, skip status, and name\n* `unsubscribe` to stop getting matched entirely\n  * FWIW, this also removes you from my database"

/-- The constant `subscribeMessage` of `pairing-bot.go`. -/
def subscribeMessage : String := "Yay! You're now subscribed to Pairing Bot!\nCurrently, I'm set to find pair programming partners for you on **Mondays**, **Tuesdays**, **Wednesdays**, and **Thursdays**.\nYou can customize your schedule any time with `schedule`.\n\nThanks for signing up :)"

/-- The constant `unsubscribeMessage` of `pairing-bot.go`. -/
def unsubscribeMessage : String := "You're unsubscribed!\nI won't find pairing partners for you unless you `subscribe`.\n\nBe well :)"

/-- The constant `notSubscribedMessage` of `pairing-bot.go`. -/
def notSubscribedMessage : String := "You're not subscribed to Pairing Bot <3"

/-- The variable `writeErrorMessage` of `pairing-bot.go`. -/
def writeErrorMessage : String :=
  "Something went sideways while writing to the database. You should probably ping " ++ maren

/-- The variable `readErrorMessage` of `pairing-bot.go`. -/
def readErrorMessage : String :=
  "Something went sideways while reading from the database. You should probably ping " ++ maren

/-- The function `contains` of `pairing-bot.go`. -/
def contains (list : List String) (cmd : String) : Bool :=
  match list with
  | [] => false
  | v :: rest => if v = cmd then true else contains rest cmd

/-- The list `cmdList` of the older `parseCmd`: no `streams`. -/
def cmdList : List String :=
  ["subscribe", "unsubscribe", "help", "schedule", "skip", "unskip", "status"]

/-- The list `daysList` of the older `parseCmd`. -/
def daysList : List String :=
  ["monday", "tuesday", "wednesday", "thursday", "friday", "saturday", "sunday"]

/-- The failure return `return "help", nil, err` of the older `parseCmd`. -/
def failWith (msg : String) : Bot.Parsed := ("help", [], some (.errorString msg))

/-- The validation switch of the older `parseCmd` on the token list `cmd`. -/
def parseTokens (cmd : List String) : Except Panic Bot.Parsed :=
  match cmd with
  | [] => .ok (failWith "the user-issued command was blank")
  | c0 :: rest =>
    if contains cmdList c0 ∧ cmd.length = 1 then
      if c0 = "schedule" ∨ c0 = "skip" ∨ c0 = "unskip" then
        .ok (failWith "the user issued a command without args, but it required args")
      else .ok (c0, [], none)
    else if contains cmdList c0 ∧ cmd.length > 1 then
      if c0 = "subscribe" ∨ c0 = "unsubscribe" ∨ c0 = "help" ∨ c0 = "status" then
        .ok (failWith "the user issued a command with args, but it disallowed args")
      else if c0 = "skip" ∧ cmd.length ≠ 2 ∧ rest.head? ≠ some "tomorrow" then
        .ok (failWith "the user issued SKIP with malformed arguments")
      else if c0 = "unskip" ∧ cmd.length ≠ 2 ∧ rest.head? ≠ some "tomorrow" then
        .ok (failWith "the user issued UNSKIP with malformed arguments")
      else if c0 = "schedule" then
        if rest.any (fun v => contains daysList v == false) then
          .ok (failWith "the user issued SCHEDULE with malformed arguments")
        else .ok (c0, rest, none)
      else .ok (c0, rest, none)
    else .ok (failWith "the user-issued command wasn't valid")

/-- The function `parseCmd` of `pairing-bot.go`. -/
def parseCmd (tbl : Char → Char) (cmdStr : String) : Except Panic Bot.Parsed :=
  parseTokens (Bot.tokens tbl cmdStr)

/-- A value of type `interface{}` held in a record of the older variant: a plain
value or a nested `map[string]interface{}`. -/
inductive Field where
  | val (v : Bot.Iface)
  | map (m : GoMap Bot.Iface)
  deriving DecidableEq, Repr

/-- The record of the older variant, a `map[string]interface{}`. -/
abbrev Doc := GoMap Field

/-- The pair `(doc, err)` that `Get` returns: `data` is `some` exactly when
`doc.Exists()`, and is then `doc.Data()`. -/
structure GetAnswer where
  data : Option Doc
  err : Option GoError
  deriving DecidableEq, Repr

/-- The Firestore client, by the answers it gives to the calls that `dispatch`
makes on the document of a user: `Get`, `Set` with and without
`firestore.MergeAll`, and `Delete`. -/
structure Client where
  Get : String → GetAnswer
  Set : String → Doc → Option GoError
  SetMergeAll : String → Doc → Option GoError
  Delete : String → Option GoError

/-- The mutating call that one run of the older `dispatch` issues, if any. -/
inductive StoreCall where
  | none
  | set (userID : String) (data : Doc)
  | setMergeAll (userID : String) (data : Doc)
  | delete (userID : String)
  deriving DecidableEq, Repr

/-- What one run of the older `dispatch` returns and does. -/
structure Reply where
  response : String
  err : Option GoError
  call : StoreCall
  deriving DecidableEq, Repr

/-- The code `codes.NotFound` of gRPC. -/
def codesNotFound : Nat := 5

/-- The function `grpc.Code`: the code of a status error, `codes.Unknown` for any
other non-nil error. -/
def grpcCode : GoError → Nat
  | .grpc code _ => code
  | _ => 2

/-- The case selection of `switch cmd` in the older `dispatch`: no `streams` case. -/
def switchCase (cmd : String) : Bot.Case :=
  if cmd = "schedule" then .schedule
  else if cmd = "subscribe" then .subscribe
  else if cmd = "unsubscribe" then .unsubscribe
  else if cmd = "skip" then .skip
  else if cmd = "unskip" then .unskip
  else if cmd = "status" then .status
  else if cmd = "help" then .help
  else .default

/-- The map literal with which `recurser` is declared. -/
def initialRecurser : Doc :=
  [("id", .val (.str "string")), ("name", .val (.str "string")),
   ("isSkippingTomorrow", .val (.bool false)), ("schedule", .map Bot.blankSchedule)]

/-- The map literal that the `subscribe` case stores. -/
def newRecurser (userID userName : String) : Doc :=
  [("id", .val (.str userID)), ("name", .val (.str userName)),
   ("isSkippingTomorrow", .val (.bool false)),
   ("schedule", .map
     [("monday", .bool true), ("tuesday", .bool true), ("wednesday", .bool true),
      ("thursday", .bool true), ("friday", .bool false), ("saturday", .bool false),
      ("sunday", .bool false)])]

/-- The verb `%v` of `fmt.Sprintf` on a plain `interface{}` value. -/
def fmtIface : Bot.Iface → String
  | .nil => "<nil>"
  | .bool b => if b then "true" else "false"
  | .str s => s
  | .int n => Bot.fmtInt n

/-- The verb `%v` of `fmt.Sprintf` on `recurser["name"]`; a map is printed with its
keys in increasing order. -/
def fmtField : Option Field → String
  | none => "<nil>"
  | some (.val v) => fmtIface v
  | some (.map m) =>
    "map[" ++ " ".intercalate
      ((m.insertionSort (fun a b => ¬ (b.1 < a.1))).map (fun kv => kv.1 ++ ":" ++ fmtIface kv.2))
      ++ "]"

/-- The loop that collects the active days in the older `status` case, with the
type assertion `recurser["schedule"].(map[string]interface{})` made at each turn. -/
def activeDays (tbl : Char → Char) (recurser : Doc) : List String → Except Panic (List String)
  | [] => .ok []
  | day :: rest =>
    match recurser.get? "schedule" with
    | some (.map schedule) =>
      match schedule.get? (Bot.ToLower tbl day) with
      | some (.bool b) =>
        match activeDays tbl recurser rest with
        | .error p => .error p
        | .ok days => .ok (if b then day :: days else days)
      | _ => .error .typeAssertion
    | _ => .error .typeAssertion

/-- The body of the older `status` case for a subscribed record. -/
def statusResponse (tbl : Char → Char) (recurser : Doc) : Except Panic String :=
  let whoami := recurser.get? "name"
  match recurser.get? "isSkippingTomorrow" with
  | some (.val (.bool skipping)) =>
    let skipStr := if skipping then "are" else "are not"
    match activeDays tbl recurser Bot.statusDaysList with
    | .error p => .error p
    | .ok schedule =>
      match Bot.scheduleStr schedule with
      | .error p => .error p
      | .ok schedStr =>
        .ok ("You are " ++ fmtField whoami ++ ".\nYou are scheduled for pairing on " ++ schedStr
          ++ ".\nYou " ++ skipStr ++ " set to skip pairing tomorrow.")
  | _ => .error .typeAssertion

/-- The part of the older `dispatch` after the read has been accepted: `ans` is the
pair `(doc, err)` of the read, and `err` stays the returned error unless a case
assigns it. -/
def dispatchBody (tbl : Char → Char) (client : Client) (ans : GetAnswer) (cmd : String)
    (cmdArgs : List String) (userID userName : String) : Except Panic Reply :=
  let err := ans.err
  let isSubscribed := ans.data.isSome
  let recurser : Doc :=
    match ans.data with
    | some data => data.set "name" (.val (.str userName))
    | none => initialRecurser
  let notSubscribed : Except Panic Reply :=
    .ok { response := notSubscribedMessage, err := err, call := .none }
  match switchCase cmd with
  | .schedule =>
    if isSubscribed == false then notSubscribed
    else
      let newSchedule := Bot.populateSchedule Bot.blankSchedule cmdArgs
      let recurser1 := recurser.set "schedule" (.map newSchedule)
      match client.SetMergeAll userID recurser1 with
      | some e =>
        .ok { response := writeErrorMessage, err := some e, call := .setMergeAll userID recurser1 }
      | none =>
        .ok { response := "Awesome, your new schedule's been set! You can check it with `status`.",
              err := none, call := .setMergeAll userID recurser1 }
  | .subscribe =>
    if isSubscribed then
      .ok { response := "You're already subscribed! Use `schedule` to set your schedule.",
            err := err, call := .none }
    else
      let recurser1 := newRecurser userID userName
      match client.Set userID recurser1 with
      | some e => .ok { response := writeErrorMessage, err := some e, call := .set userID recurser1 }
      | none => .ok { response := subscribeMessage, err := none, call := .set userID recurser1 }
  | .unsubscribe =>
    if isSubscribed == false then notSubscribed
    else
      match client.Delete userID with
      | some e => .ok { response := writeErrorMessage, err := some e, call := .delete userID }
      | none => .ok { response := unsubscribeMessage, err := none, call := .delete userID }
  | .skip =>
    if isSubscribed == false then notSubscribed
    else
      let recurser1 := recurser.set "isSkippingTomorrow" (.val (.bool true))
      match client.SetMergeAll userID recurser1 with
      | some e =>
        .ok { response := writeErrorMessage, err := some e, call := .setMergeAll userID recurser1 }
      | none =>
        .ok { response := "Tomorrow: cancelled. I feel you. **I will not match you** for pairing tomorrow <3",
              err := none, call := .setMergeAll userID recurser1 }
  | .unskip =>
    if isSubscribed == false then notSubscribed
    else
      let recurser1 := recurser.set "isSkippingTomorrow" (.val (.bool false))
      match client.SetMergeAll userID recurser1 with
      | some e =>
        .ok { response := writeErrorMessage, err := some e, call := .setMergeAll userID recurser1 }
      | none =>
        .ok { response := "Tomorrow: uncancelled! Heckin *yes*! **I will match you** for pairing tomorrow :)",
              err := none, call := .setMergeAll userID recurser1 }
  | .status =>
    if isSubscribed == false then notSubscribed
    else
      match statusResponse tbl recurser with
      | .error p => .error p
      | .ok response => .ok { response := response, err := err, call := .none }
  | .help => .ok { response := helpMessage, err := err, call := .none }
  | .streams => .ok { response := "", err := err, call := .none }
  | .default => .ok { response := "", err := err, call := .none }

/-- The function `dispatch` of `pairing-bot.go`: a read error other than not-found
ends it at once. -/
def dispatch (tbl : Char → Char) (client : Client) (cmd : String) (cmdArgs : List String)
    (userID userName : String) : Except Panic Reply :=
  let ans := client.Get userID
  match ans.err with
  | some e =>
    if grpcCode e ≠ codesNotFound then
      .ok { response := readErrorMessage, err := some e, call := .none }
    else dispatchBody tbl client ans cmd cmdArgs userID userName
  | none => dispatchBody tbl client ans cmd cmdArgs userID userName

end Legacy

namespace Bot

/-! ## Statements of the specification, in terms of the embedding -/

/-- The count tokens of an args list parse: every token at an odd position (the
second of each pair) is accepted by `strconv.Atoi`. -/
def countTokensParse (args : List String) : Prop :=
  ∀ i, i < args.length → i % 2 = 1 → (Atoi (args.getD i "")).2 = none

instance (args : List String) : Decidable (countTokensParse args) :=
  inferInstanceAs (Decidable (∀ i, i < args.length → i % 2 = 1 → (Atoi (args.getD i "")).2 = none))

/-- The args of a well-formed `streams` command: a positive, even number of tokens
whose count tokens parse. -/
def streamsArgsOk (args : List String) : Prop :=
  0 < args.length ∧ args.length % 2 = 0 ∧ countTokensParse args

instance (args : List String) : Decidable (streamsArgsOk args) :=
  inferInstanceAs (Decidable (0 < args.length ∧ args.length % 2 = 0 ∧ countTokensParse args))

/-- The shape of `(verb, args)` that `dispatch` assumes. -/
def wellShaped (verb : String) (args : List String) : Prop :=
  verb ∈ cmdList
  ∧ (verb = "subscribe" ∨ verb = "unsubscribe" ∨ verb = "help" ∨ verb = "status" → args = [])
  ∧ (verb = "skip" ∨ verb = "unskip" → args = ["tomorrow"])
  ∧ (verb = "schedule" → args ≠ [] ∧ ∀ a ∈ args, a ∈ daysList)
  ∧ (verb = "streams" → streamsArgsOk args)

instance (verb : String) (args : List String) : Decidable (wellShaped verb args) :=
  inferInstanceAs (Decidable (verb ∈ cmdList
    ∧ (verb = "subscribe" ∨ verb = "unsubscribe" ∨ verb = "help" ∨ verb = "status" → args = [])
    ∧ (verb = "skip" ∨ verb = "unskip" → args = ["tomorrow"])
    ∧ (verb = "schedule" → args ≠ [] ∧ ∀ a ∈ args, a ∈ daysList)
    ∧ (verb = "streams" → streamsArgsOk args)))

/-- The record that a run of `dispatch` hands to `Set`, if it calls `Set`. -/
def storedRecord : Except Panic Reply → Option Recurser
  | .ok { call := .set _ rec, .. } => some rec
  | _ => none

/-- The topics of an args list of (topic, count) pairs: the first token of each pair. -/
def topics : List String → List String
  | topic :: _ :: more => topic :: topics more
  | _ => []

/-- The count token of the last pair of an args list whose topic is `topic`. -/
def lastCount : List String → String → Option String
  | t :: count :: more, topic =>
    match lastCount more topic with
    | some later => some later
    | none => if t = topic then some count else none
  | _, _ => none

/-- A store whose read answers `rec` and whose `Set` and `Delete` answer `answer`. -/
def constStore (rec : Recurser) (answer : Option GoError) : RecurserDB :=
  { GetByUserID := fun _ _ _ => .ok rec, Set := fun _ _ => answer, Delete := fun _ => answer }

/-- A subscribed record with the given schedule and streams, for the examples. -/
def sampleRecurser (schedule : GoMap Iface) (streams : GoMap Int) : Recurser :=
  { id := "7", name := "Al", isSkippingTomorrow := false, schedule := schedule,
    streams := streams, isSubscribed := true }

/-- Modelled from the spec: the method `GetByUserID` of the store adapter, which is
outside the sources at hand. A record exists exactly for a subscribed user; its name
is refreshed from the request on every interaction; for a user without a record the
answer is the record that `subscribe` will create: the configured default schedule
(`defaultSchedule`), empty streams and isSkippingTomorrow false. The read succeeds. -/
def getByUserID (defaultSchedule : GoMap Iface) (stored : Option Recurser)
    (userID _userEmail userName : String) : Except GoError Recurser :=
  match stored with
  | some rec => .ok { rec with name := userName, isSubscribed := true }
  | none =>
    .ok { id := userID, name := userName, isSkippingTomorrow := false,
          schedule := defaultSchedule, streams := [], isSubscribed := false }

end Bot

namespace Legacy

/-- The pair `(doc, err)` of a successful Firestore `Get` on the document of a user:
for an existing document its data and no error, for a missing one a snapshot that
does not exist together with an error of code `codes.NotFound`. -/
def firestoreGet (doc : Option Doc) : GetAnswer :=
  match doc with
  | some data => { data := some data, err := none }
  | none => { data := none, err := some (.grpc codesNotFound "document not found") }

end Legacy

namespace Bot

/-! ## Statements about the status text and the stored record -/

/-- The seven weekdays in calendar order: the key of each in a schedule map and the
name under which the `status` case prints it. -/
def calendar : List (String × String) :=
  [("monday", "Monday"), ("tuesday", "Tuesday"), ("wednesday", "Wednesday"),
   ("thursday", "Thursday"), ("friday", "Friday"), ("saturday", "Saturday"),
   ("sunday", "Sunday")]

/-- The weekdays that a schedule flags true, in calendar order, by their printed
names. -/
def trueDays (schedule : GoMap Iface) : List String :=
  (calendar.filter (fun day => decide (GoMap.get? schedule day.1 = some (.bool true)))).map
    Prod.snd

/-- Every one of the seven weekday keys of a schedule holds a bool. -/
def scheduleTyped (schedule : GoMap Iface) : Prop :=
  ∀ d ∈ daysList, ∃ b, GoMap.get? schedule d = some (.bool b)

instance (schedule : GoMap Iface) : Decidable (scheduleTyped schedule) :=
  inferInstanceAs (Decidable (∀ d ∈ daysList, ∃ b, GoMap.get? schedule d = some (.bool b)))

/-- The plural of a day name: the name suffixed with `s`. -/
def plural (day : String) : String := day ++ "s"

/-- The items of a list joined by a comma and a space. -/
def commaJoin : List String → String
  | [] => ""
  | [x] => x
  | x :: y :: rest => x ++ ", " ++ commaJoin (y :: rest)

/-- The text that `fmt.Sprintf` makes of the template of the `status` case. -/
def statusText (whoami schedStr streamsS skipStr : String) : String :=
  "* You're " ++ whoami ++ "\n* You're scheduled for pairing on **" ++ schedStr
    ++ "**\n We'll try and find you " ++ streamsS
    ++ " \n **You're" ++ skipStr ++ "set to skip** pairing tomorrow"

/-- The skip fragment of the `status` case. -/
def skipFragment (isSkippingTomorrow : Bool) : String :=
  if isSkippingTomorrow then " " else " not "

/-- The value of `cmdStr` in `parseCmd` after its three clean-up statements (the
replacement of the runs of `\s`, `strings.TrimSpace`, `strings.ToLower`), before the
split into tokens. -/
def cleanCmdStr (tbl : Char → Char) (s : String) : String :=
  String.mk (toLower tbl (trimSpace (replaceAllSpace s.data)))

/-- Specification side, "collapse any run of whitespace to a single space", with
whitespace as `unicode.IsSpace` has it: a whitespace rune followed by another one is
dropped, the last rune of a run becomes one space. -/
def collapseWhitespace : List Char → List Char
  | [] => []
  | [c] => if isSpace c then [' '] else [c]
  | c :: d :: rest =>
    if isSpace c then
      if isSpace d then collapseWhitespace (d :: rest)
      else ' ' :: collapseWhitespace (d :: rest)
    else c :: collapseWhitespace (d :: rest)

/-- Specification side, "trim leading/trailing whitespace", with whitespace as
`unicode.IsSpace` has it. -/
def stripWhitespace (s : List Char) : List Char :=
  List.rdropWhile isSpace (s.dropWhile isSpace)

/-- The normal form of an input in the words of the specification: every run of
whitespace collapsed to a single space, leading and trailing whitespace removed, and
every letter lower-cased. -/
def specNormalForm (tbl : Char → Char) (s : String) : String :=
  String.mk ((stripWhitespace (collapseWhitespace s.data)).map (toLowerRune tbl))

/-- A string without two adjacent spaces. -/
def noDoubleSpace : List Char → Prop
  | [] => True
  | a :: rest => (a = ' ' → rest.head? ≠ some ' ') ∧ noDoubleSpace rest

/-- The call to the store made by a run of `dispatch`; a run that panics has made
none, since the only case that can panic, `status`, makes no call. -/
def callOf : Except Panic Reply → StoreCall
  | .ok reply => reply.call
  | .error _ => .none

end Bot

namespace Legacy

/-- A client whose `Get` answers the document `doc` (or its absence) and whose writes
answer `answer`. -/
def constClient (doc : Option Doc) (answer : Option GoError) : Client :=
  { Get := fun _ => firestoreGet doc, Set := fun _ _ => answer,
    SetMergeAll := fun _ _ => answer, Delete := fun _ => answer }

/-- A document of a subscribed user with the given schedule and skip flag, for the
examples. -/
def sampleDoc (schedule : GoMap Bot.Iface) (skipping : Bool) : Doc :=
  [("id", .val (.str "7")), ("name", .val (.str "Al")),
   ("isSkippingTomorrow", .val (.bool skipping)), ("schedule", .map schedule)]

/-- The query of `cron` on one document:
`Where("isSkippingTomorrow", "==", false).Where("schedule."+today, "==", true)`. -/
def matchQuery (today : String) (doc : Doc) : Bool :=
  decide (GoMap.get? doc "isSkippingTomorrow" = some (.val (.bool false)))
    && (match GoMap.get? doc "schedule" with
        | some (.map schedule) => decide (GoMap.get? schedule today = some (.bool true))
        | _ => false)

/-- The function `cron` of `pairing-bot.go` when the client and the query succeed
(their failures end in `log.Panic`): `none` when the request does not carry the
header `X-Appengine-Cron: true`, otherwise the documents of the collection that the
query selects for `weekday`, the value of `time.Now().Weekday().String()`. The
function prints them and makes no write. -/
def cron (tbl : Char → Char) (xAppengineCron weekday : String) (recursers : List Doc) :
    Option (List Doc) :=
  if xAppengineCron ≠ "true" then none
  else
    let today := Bot.ToLower tbl weekday
    some (recursers.filter (matchQuery today))

/-- The merge of the fields of a nested map under `firestore.MergeAll`: every field
of the new map is written, the other fields stay. -/
def mergeFields (old new : GoMap Bot.Iface) : GoMap Bot.Iface :=
  new.foldl (fun m kv => GoMap.set m kv.1 kv.2) old

/-- The document after `Set(ctx, data, firestore.MergeAll)`: every field path of
`data` is overwritten, a nested map field by field, and the rest of the stored
document stays. -/
def mergeAll (old data : Doc) : Doc :=
  data.foldl
    (fun m kv =>
      match kv.2, GoMap.get? m kv.1 with
      | .map newMap, some (.map oldMap) => GoMap.set m kv.1 (.map (mergeFields oldMap newMap))
      | field, _ => GoMap.set m kv.1 field)
    old

/-- The document of the user after a successful call to the store. -/
def applyCall (call : StoreCall) (stored : Option Doc) : Option Doc :=
  match call with
  | .none => stored
  | .set _ data => some data
  | .setMergeAll _ data =>
    match stored with
    | some old => some (mergeAll old data)
    | none => some data
  | .delete _ => none

/-- The call to the store made by a run of the older `dispatch`; a run that panics
has made none. -/
def callOf : Except Panic Reply → StoreCall
  | .ok reply => reply.call
  | .error _ => .none

/-- The value that a field of the data takes under `firestore.MergeAll`, given what the
stored document holds under the same key: a nested map is merged into a stored nested
map, any other value replaces what is stored. -/
def mergeField (field : Field) (stored : Option Field) : Field :=
  match field, stored with
  | .map newMap, some (.map oldMap) => .map (mergeFields oldMap newMap)
  | field, _ => field

/-- The document of a user after one request, a raw text with the display name of the
sender: `parseCmd`, then `dispatch` with the client answering from the stored
document and every write succeeding, then the effect of the call on the store. -/
def step (tbl : Char → Char) (userID : String) (stored : Option Doc)
    (request : String × String) : Option Doc :=
  match parseCmd tbl request.1 with
  | .error _ => stored
  | .ok (verb, args, _) =>
    applyCall (callOf (dispatch tbl (constClient stored none) verb args userID request.2))
      stored

/-- The document of a user after a finite sequence of requests. -/
def run (tbl : Char → Char) (userID : String) (stored : Option Doc) :
    List (String × String) → Option Doc
  | [] => stored
  | request :: rest => run tbl userID (step tbl userID stored request) rest

/-- A schedule with at least one weekday set true. -/
def someDayTrue (schedule : GoMap Bot.Iface) : Prop :=
  ∃ d ∈ Bot.daysList, GoMap.get? schedule d = some (.bool true)

/-- The invariant of the documents that the older variant writes: no repeated key, a
skip flag that is a bool, and a schedule with exactly the seven weekday keys, each a
bool, at least one of them true. -/
def docOk (doc : Doc) : Prop :=
  (GoMap.keys doc).Nodup
  ∧ ∃ schedule skipping,
      GoMap.get? doc "schedule" = some (.map schedule)
      ∧ GoMap.get? doc "isSkippingTomorrow" = some (.val (.bool skipping))
      ∧ GoMap.keys schedule = Bot.daysList
      ∧ Bot.scheduleTyped schedule
      ∧ someDayTrue schedule

/-- The skip fragment of the older `status` case. -/
def skipFragment (skipping : Bool) : String := if skipping then "are" else "are not"

/-- The text that `fmt.Sprintf` makes of the template of the older `status` case. -/
def statusText (whoami schedStr skipStr : String) : String :=
  "You are " ++ whoami ++ ".\nYou are scheduled for pairing on " ++ schedStr
    ++ ".\nYou " ++ skipStr ++ " set to skip pairing tomorrow."

end Legacy

namespace Bot

/-! ## The parser -/

theorem contains_iff (list : List String) (cmd : String) : contains list cmd = true ↔ cmd ∈ list := by
  induction list with
  | nil => simp [contains]
  | cons v rest ih =>
    unfold contains
    by_cases h : v = cmd
    · simp [h]
    · simp [h, ih, Ne.symm h]

theorem countTokensParse_nil : countTokensParse [] := by
  intro i hi _
  simp at hi

theorem countTokensParse_cons2 (a b : String) (more : List String) :
    countTokensParse (a :: b :: more) ↔ (Atoi b).2 = none ∧ countTokensParse more := by
  constructor
  · intro h
    refine ⟨by simpa using h 1 (by simp) (by norm_num), ?_⟩
    intro i hi hodd
    have := h (i + 2) (by simp; omega) (by omega)
    simpa using this
  · rintro ⟨hb, hmore⟩ i hi hodd
    match i, hi, hodd with
    | 0, _, hodd => simp at hodd
    | 1, _, _ => simpa using hb
    | i + 2, hi, hodd =>
      have := hmore i (by simp at hi; omega) (by omega)
      simpa using this

/-- On a list of even length the loop of the `streams` case never indexes out of
range, and it passes exactly when the count tokens parse. -/
theorem countsLoop_even : ∀ (n : Nat) (l : List String), l.length = 2 * n →
    (countTokensParse l → countsLoop l = .ok none)
    ∧ (¬ countTokensParse l → countsLoop l =
        .ok (some (.parsingErr "the user issued STREAMS with malformed arguments")))
  | 0, l, h => by
    have hl : l = [] := List.length_eq_zero.mp (by omega)
    subst hl
    exact ⟨fun _ => rfl, fun hn => absurd countTokensParse_nil hn⟩
  | n + 1, l, h => by
    match l, h with
    | a :: b :: more, h =>
      have hmore : more.length = 2 * n := by simp at h; omega
      have ih := countsLoop_even n more hmore
      rw [countTokensParse_cons2]
      cases hb : (Atoi b).2 with
      | none =>
        simp only [countsLoop, hb, true_and]
        exact ih
      | some e =>
        simp [countsLoop, hb]

theorem streamsCase_spec (c0 : String) (args : List String) :
    (streamsArgsOk args → streamsCase (c0 :: args) = .ok (c0, args, none))
    ∧ (¬ streamsArgsOk args → streamsCase (c0 :: args) =
        .ok (failWith (.parsingErr "the user issued STREAMS with malformed arguments"))) := by
  unfold streamsCase streamsArgsOk
  by_cases hlen : (c0 :: args).length = 1 ∨ ((c0 :: args).length - 1) % 2 = 1
  · rw [if_pos hlen]
    simp only [List.length_cons, Nat.add_sub_cancel] at hlen
    refine ⟨fun h => ?_, fun _ => rfl⟩
    omega
  · rw [if_neg hlen]
    simp only [List.length_cons, Nat.add_sub_cancel] at hlen
    have hpos : 0 < args.length := by omega
    have hev : args.length % 2 = 0 := by omega
    obtain ⟨hyes, hno⟩ := countsLoop_even (args.length / 2) args (by omega)
    simp only [List.drop_succ_cons, List.drop_zero]
    constructor
    · rintro ⟨_, _, hp⟩
      rw [hyes hp]
      rfl
    · intro hn
      have hp : ¬ countTokensParse args := fun hp => hn ⟨hpos, hev, hp⟩
      rw [hno hp]

/-- A token that is a weekday name is not accepted by `strconv.Atoi`. -/
theorem Atoi_day (d : String) (h : d ∈ daysList) : (Atoi d).2 ≠ none := by
  simp only [daysList, List.mem_cons, List.mem_singleton, List.not_mem_nil, or_false] at h
  rcases h with h | h | h | h | h | h | h <;> subst h <;> decide

/-- Args that are all weekday names are never well-formed `streams` args. -/
theorem not_streamsArgsOk_of_days (args : List String) (h : ∀ a ∈ args, a ∈ daysList) :
    ¬ streamsArgsOk args := by
  rintro ⟨hpos, hev, hp⟩
  match args, hpos, hev, h with
  | [_], _, hev, _ => simp at hev
  | a :: b :: more, _, _, h =>
    have hb : (Atoi b).2 = none := ((countTokensParse_cons2 a b more).mp hp).1
    exact Atoi_day b (h b (by simp)) hb

/-- The switch of `parseCmd` on a non-empty token list. -/
theorem parseTokens_cons (c0 : String) (rest : List String) :
    parseTokens (c0 :: rest) =
      if contains cmdList c0 ∧ (c0 :: rest).length = 1 then
        if c0 = "schedule" ∨ c0 = "streams" ∨ c0 = "skip" ∨ c0 = "unskip" then
          .ok (failWith
            (.parsingErr "the user issued a command without args, but it reqired args"))
        else .ok (c0, [], none)
      else if contains cmdList c0 ∧ (c0 :: rest).length > 1 then
        if c0 = "subscribe" ∨ c0 = "unsubscribe" ∨ c0 = "help" ∨ c0 = "status" then
          .ok (failWith
            (.parsingErr "the user issued a command with args, but it disallowed args"))
        else if c0 = "skip" ∧ ((c0 :: rest).length ≠ 2 ∨ rest.head? ≠ some "tomorrow") then
          .ok (failWith (.parsingErr "the user issued SKIP with malformed arguments"))
        else if c0 = "unskip" ∧ ((c0 :: rest).length ≠ 2 ∨ rest.head? ≠ some "tomorrow") then
          .ok (failWith (.parsingErr "the user issued UNSKIP with malformed arguments"))
        else if c0 = "schedule" then scheduleCase (c0 :: rest)
        else if c0 = "streams" then streamsCase (c0 :: rest)
        else defaultCase (c0 :: rest)
      else .ok (failWith (.parsingErr "the user-issued command wasn't valid")) := rfl

/-- Every command whose first token is `schedule` is rejected: the `schedule` case
falls through into the checks of the `streams` case, which weekday names never pass. -/
theorem parseTokens_schedule (args : List String) :
    ∃ e, parseTokens ("schedule" :: args) = .ok ("help", [], some e) := by
  rw [parseTokens_cons]
  by_cases hlen : ("schedule" :: args).length = 1
  · rw [if_pos ⟨by decide, hlen⟩]
    exact ⟨_, rfl⟩
  · have hgt : ("schedule" :: args).length > 1 := by simp at hlen ⊢; exact List.length_pos.mpr hlen
    rw [if_neg (fun h => hlen h.2), if_pos ⟨by decide, hgt⟩]
    simp only [String.reduceEq, false_or, or_self, ↓reduceIte, false_and]
    unfold scheduleCase
    by_cases hd : (List.drop 1 ("schedule" :: args)).any (fun v => !contains daysList v) = true
    · rw [if_pos hd]
      exact ⟨_, rfl⟩
    · rw [if_neg hd]
      have hdays : ∀ a ∈ args, a ∈ daysList := by
        intro a ha
        by_contra hna
        apply hd
        simp only [List.drop_succ_cons, List.drop_zero, List.any_eq_true, Bool.not_eq_true']
        refine ⟨a, ha, ?_⟩
        cases hc : contains daysList a with
        | false => rfl
        | true => exact absurd ((contains_iff _ _).mp hc) hna
      rw [(streamsCase_spec "schedule" args).2 (not_streamsArgsOk_of_days args hdays)]
      exact ⟨_, rfl⟩

theorem parseTokens_streams (args : List String) :
    (streamsArgsOk args → parseTokens ("streams" :: args) = .ok ("streams", args, none))
    ∧ (¬ streamsArgsOk args → ∃ e, parseTokens ("streams" :: args) = .ok ("help", [], some e)) := by
  rw [parseTokens_cons]
  by_cases hlen : ("streams" :: args).length = 1
  · rw [if_pos ⟨by decide, hlen⟩]
    have hnil : args = [] := by simpa using hlen
    subst hnil
    exact ⟨fun h => absurd h.1 (by simp), fun _ => ⟨_, rfl⟩⟩
  · have hgt : ("streams" :: args).length > 1 := by simp at hlen ⊢; exact List.length_pos.mpr hlen
    rw [if_neg (fun h => hlen h.2), if_pos ⟨by decide, hgt⟩]
    simp only [String.reduceEq, false_or, or_self, ↓reduceIte, false_and]
    refine ⟨fun h => (streamsCase_spec "streams" args).1 h, fun h => ?_⟩
    rw [(streamsCase_spec "streams" args).2 h]
    exact ⟨_, rfl⟩

theorem parseTokens_skip (verb : String) (hv : verb = "skip" ∨ verb = "unskip")
    (args : List String) :
    (args = ["tomorrow"] → parseTokens (verb :: args) = .ok (verb, ["tomorrow"], none))
    ∧ (args ≠ ["tomorrow"] → ∃ e, parseTokens (verb :: args) = .ok ("help", [], some e)) := by
  constructor
  · intro h
    subst h
    rcases hv with hv | hv <;> subst hv <;> rfl
  · intro h
    rw [parseTokens_cons]
    have hc : contains cmdList verb = true := by rcases hv with hv | hv <;> subst hv <;> decide
    by_cases hlen : (verb :: args).length = 1
    · rw [if_pos ⟨hc, hlen⟩, if_pos (by tauto)]
      exact ⟨_, rfl⟩
    · have hgt : (verb :: args).length > 1 := by simp at hlen ⊢; exact List.length_pos.mpr hlen
      rw [if_neg (fun h => hlen h.2), if_pos ⟨hc, hgt⟩]
      have hbad : (verb :: args).length ≠ 2 ∨ args.head? ≠ some "tomorrow" := by
        by_contra hcon
        push_neg at hcon
        obtain ⟨h2, hh⟩ := hcon
        apply h
        match args, h2, hh with
        | [a], _, hh => simpa using hh
      rcases hv with hv | hv <;> subst hv
      · rw [if_neg (by decide), if_pos ⟨rfl, hbad⟩]
        exact ⟨_, rfl⟩
      · rw [if_neg (by decide), if_neg (fun hc => absurd hc.1 (by decide)), if_pos ⟨rfl, hbad⟩]
        exact ⟨_, rfl⟩

theorem parseTokens_noargs (verb : String)
    (hv : verb = "subscribe" ∨ verb = "unsubscribe" ∨ verb = "help" ∨ verb = "status")
    (args : List String) :
    (args = [] → parseTokens (verb :: args) = .ok (verb, [], none))
    ∧ (args ≠ [] → ∃ e, parseTokens (verb :: args) = .ok ("help", [], some e)) := by
  have hc : contains cmdList verb = true := by
    rcases hv with hv | hv | hv | hv <;> subst hv <;> decide
  constructor
  · intro h
    subst h
    rcases hv with hv | hv | hv | hv <;> subst hv <;> rfl
  · intro h
    have hlen : (verb :: args).length ≠ 1 := by simpa using h
    have hgt : (verb :: args).length > 1 := by simp; exact List.length_pos.mpr h
    rw [parseTokens_cons, if_neg (fun hh => hlen hh.2), if_pos ⟨hc, hgt⟩, if_pos hv]
    exact ⟨_, rfl⟩

theorem wellShaped_help : wellShaped "help" [] := by
  refine ⟨by decide, fun _ => rfl, fun h => ?_, fun h => ?_, fun h => ?_⟩
  · exact absurd h (by decide)
  · exact absurd h (by decide)
  · exact absurd h (by decide)

/-- What `parseCmd` returns on any token list: a well-shaped command without error,
or the verb `help` without args and with an error. It never panics. -/
theorem parseTokens_result (cmd : List String) :
    (∃ verb1 args1, parseTokens cmd = .ok (verb1, args1, none) ∧ wellShaped verb1 args1)
    ∨ (∃ e, parseTokens cmd = .ok ("help", [], some e)) := by
  match cmd with
  | [] => exact Or.inr ⟨_, rfl⟩
  | c0 :: args =>
    by_cases hc : contains cmdList c0 = true
    · have hmem := (contains_iff _ _).mp hc
      simp only [cmdList, List.mem_cons, List.mem_singleton, List.not_mem_nil, or_false] at hmem
      have hno : ∀ v, v = "subscribe" ∨ v = "unsubscribe" ∨ v = "help" ∨ v = "status" →
          (∃ verb1 args1, parseTokens (v :: args) = .ok (verb1, args1, none) ∧ wellShaped verb1 args1)
          ∨ (∃ e, parseTokens (v :: args) = .ok ("help", [], some e)) := by
        intro v hv
        by_cases ha : args = []
        · subst ha
          refine Or.inl ⟨v, [], (parseTokens_noargs v hv []).1 rfl, ?_⟩
          refine ⟨?_, fun _ => rfl, fun h => ?_, fun h => ?_, fun h => ?_⟩
          · rcases hv with hv | hv | hv | hv <;> subst hv <;> decide
          · rcases hv with hv | hv | hv | hv <;> subst hv <;> exact absurd h (by decide)
          · rcases hv with hv | hv | hv | hv <;> subst hv <;> exact absurd h (by decide)
          · rcases hv with hv | hv | hv | hv <;> subst hv <;> exact absurd h (by decide)
        · exact Or.inr ((parseTokens_noargs v hv args).2 ha)
      have hsk : ∀ v, v = "skip" ∨ v = "unskip" →
          (∃ verb1 args1, parseTokens (v :: args) = .ok (verb1, args1, none) ∧ wellShaped verb1 args1)
          ∨ (∃ e, parseTokens (v :: args) = .ok ("help", [], some e)) := by
        intro v hv
        by_cases ha : args = ["tomorrow"]
        · subst ha
          refine Or.inl ⟨v, ["tomorrow"], (parseTokens_skip v hv ["tomorrow"]).1 rfl, ?_⟩
          refine ⟨?_, fun h => ?_, fun _ => rfl, fun h => ?_, fun h => ?_⟩
          · rcases hv with hv | hv <;> subst hv <;> decide
          · rcases hv with hv | hv <;> subst hv <;> exact absurd h (by decide)
          · rcases hv with hv | hv <;> subst hv <;> exact absurd h (by decide)
          · rcases hv with hv | hv <;> subst hv <;> exact absurd h (by decide)
        · exact Or.inr ((parseTokens_skip v hv args).2 ha)
      rcases hmem with h | h | h | h | h | h | h | h
      · exact hno c0 (Or.inl h)
      · exact hno c0 (Or.inr (Or.inl h))
      · exact hno c0 (Or.inr (Or.inr (Or.inl h)))
      · subst h
        exact Or.inr (parseTokens_schedule args)
      · subst h
        by_cases ha : streamsArgsOk args
        · refine Or.inl ⟨"streams", args, (parseTokens_streams args).1 ha, ?_⟩
          refine ⟨by decide, fun h => ?_, fun h => ?_, fun h => ?_, fun _ => ha⟩
          · exact absurd h (by decide)
          · exact absurd h (by decide)
          · exact absurd h (by decide)
        · exact Or.inr ((parseTokens_streams args).2 ha)
      · exact hsk c0 (Or.inl h)
      · exact hsk c0 (Or.inr h)
      · exact hno c0 (Or.inr (Or.inr (Or.inr h)))
    · refine Or.inr ?_
      rw [parseTokens_cons, if_neg (fun h => hc h.1), if_neg (fun h => hc h.1)]
      exact ⟨_, rfl⟩

theorem switchCase_ne_default (verb : String) (h : verb ∈ cmdList) :
    switchCase verb ≠ .default := by
  simp only [cmdList, List.mem_cons, List.mem_singleton, List.not_mem_nil, or_false] at h
  rcases h with h | h | h | h | h | h | h | h <;> subst h <;> decide

/-! ## The dispatcher -/

theorem populateStreams_even : ∀ (n : Nat) (l : List String) (m : GoMap Int),
    l.length = 2 * n → ∃ m1, populateStreams m l = .ok m1
  | 0, l, m, h => by
    have hl : l = [] := List.length_eq_zero.mp (by omega)
    subst hl
    exact ⟨m, rfl⟩
  | n + 1, l, m, h => by
    match l, h with
    | a :: b :: more, h =>
      have hmore : more.length = 2 * n := by simp at h; omega
      simpa [populateStreams] using populateStreams_even n more _ hmore

theorem populateStreams_error (l : List String) : ∀ (m : GoMap Int) (p : Panic),
    populateStreams m l = .error p → l.length % 2 = 1 := by
  intro m p h
  by_contra hodd
  obtain ⟨m1, hm1⟩ := populateStreams_even (l.length / 2) l m (by omega)
  rw [hm1] at h
  cases h

theorem activeDays_error (tbl : Char → Char) (schedule : GoMap Iface) (p : Panic) :
    ∀ days : List String, activeDays tbl schedule days = .error p → p = .typeAssertion := by
  intro days
  induction days with
  | nil => intro h; cases h
  | cons day rest ih =>
    intro h
    unfold activeDays at h
    split at h
    · split at h
      · rename_i heq
        injection h with h
        exact ih (heq.trans (congrArg _ h))
      · cases h
    · injection h with h
      exact h.symm

theorem scheduleStr_error (schedule : List String) (p : Panic)
    (h : scheduleStr schedule = .error p) : p = .sliceBounds := by
  unfold scheduleStr at h
  split at h
  · injection h with h
    exact h.symm
  · simp only at h
    split at h <;> cases h

theorem statusResponse_error (tbl : Char → Char) (keyOrder : List String) (rec : Recurser)
    (p : Panic) (h : statusResponse tbl keyOrder rec = .error p) :
    p = .typeAssertion ∨ p = .sliceBounds := by
  unfold statusResponse at h
  simp only at h
  split at h
  · rename_i q hq
    injection h with h
    subst h
    exact Or.inl (activeDays_error tbl _ _ _ hq)
  · split at h
    · rename_i q hq
      injection h with h
      subst h
      exact Or.inr (scheduleStr_error _ _ hq)
    · cases h

/-- The only index that `dispatch` can read out of range is `cmdArgs[i+1]` in the loop
of the `streams` case, and only for an odd number of args. -/
theorem dispatch_indexOutOfRange (tbl : Char → Char) (owner : String)
    (iter : GoMap Int → List String) (rdb : RecurserDB) (cmd : String) (cmdArgs : List String)
    (userID userEmail userName : String)
    (h : dispatch tbl owner iter rdb cmd cmdArgs userID userEmail userName
      = .error .indexOutOfRange) :
    switchCase cmd = .streams ∧ cmdArgs.length % 2 = 1 := by
  unfold dispatch at h
  split at h
  · cases h
  · simp only at h
    split at h
    · split at h
      · cases h
      · split at h <;> cases h
    · rename_i hcase
      split at h
      · cases h
      · split at h
        · rename_i p hp
          exact ⟨hcase, populateStreams_error _ _ _ hp⟩
        · split at h <;> cases h
    · split at h
      · cases h
      · split at h <;> cases h
    · split at h
      · cases h
      · split at h <;> cases h
    · split at h
      · cases h
      · split at h <;> cases h
    · split at h
      · cases h
      · split at h <;> cases h
    · split at h
      · cases h
      · split at h
        · rename_i p hp
          injection h with h
          subst h
          rcases statusResponse_error _ _ _ _ hp with h1 | h1 <;> cases h1
        · cases h
    · cases h
    · cases h

end Bot

/-! ## The claims about the parser -/

/-- C1, the code as it is: the command `schedule monday wednesday friday`, which the
help text gives as the example of a valid command, is rejected by `parseCmd` of
`parse_cmd.go`: it returns the verb `help`, no args and the error of the `streams`
case, into which the `schedule` case falls through. -/
theorem C1_schedule_command_rejected (tbl : Char → Char) :
    Bot.parseCmd tbl "schedule monday wednesday friday"
      = .ok ("help", [],
          some (.parsingErr "the user issued STREAMS with malformed arguments")) := by
  have ht : Bot.tokens tbl "schedule monday wednesday friday"
      = ["schedule", "monday", "wednesday", "friday"] := rfl
  unfold Bot.parseCmd
  rw [ht]
  rfl

/-- C2: for every input string `parseCmd` returns, and when the error it returns is
not nil the verb is `help` and the args are empty. -/
theorem C2_error_returns_help (tbl : Char → Char) (s : String) :
    (∃ r, Bot.parseCmd tbl s = .ok r)
    ∧ ∀ verb args e, Bot.parseCmd tbl s = .ok (verb, args, some e) → verb = "help" ∧ args = [] := by
  unfold Bot.parseCmd
  rcases Bot.parseTokens_result (Bot.tokens tbl s) with ⟨v, a, h, _⟩ | ⟨e, h⟩
  · refine ⟨⟨_, h⟩, fun verb args e he => ?_⟩
    rw [h] at he
    cases he
  · refine ⟨⟨_, h⟩, fun verb args e1 he => ?_⟩
    rw [h] at he
    cases he
    exact ⟨rfl, rfl⟩

/-- C2 at the input `skip now`, which is rejected. -/
theorem C2_error_returns_help_witness :
    Bot.parseCmd (fun c => c) "skip now"
        = .ok ("help", [], some (.parsingErr "the user issued SKIP with malformed arguments"))
    ∧ ("help" = "help" ∧ ([] : List String) = []) :=
  ⟨rfl, (C2_error_returns_help (fun c => c) "skip now").2 "help" [] _ rfl⟩

/-- C3: for every input whose first token is `streams`, `parseCmd` returns the verb
`streams`, the remaining tokens as args and no error exactly when the number of args
is positive and even and every second arg is accepted by `strconv.Atoi`; otherwise it
returns the verb `help`, no args and an error. -/
theorem C3_streams_accepted_iff (tbl : Char → Char) (s : String) (args : List String)
    (h : Bot.tokens tbl s = "streams" :: args) :
    (Bot.parseCmd tbl s = .ok ("streams", args, none) ↔ Bot.streamsArgsOk args)
    ∧ (¬ Bot.streamsArgsOk args → ∃ e, Bot.parseCmd tbl s = .ok ("help", [], some e)) := by
  unfold Bot.parseCmd
  rw [h]
  refine ⟨⟨fun hp => ?_, (Bot.parseTokens_streams args).1⟩, (Bot.parseTokens_streams args).2⟩
  by_contra hn
  obtain ⟨e, he⟩ := (Bot.parseTokens_streams args).2 hn
  rw [he] at hp
  simp at hp

/-- C3 at the input `streams any 2 pairing 1`. -/
theorem C3_streams_accepted_iff_witness :
    Bot.tokens (fun c => c) "streams any 2 pairing 1" = ["streams", "any", "2", "pairing", "1"]
    ∧ Bot.parseCmd (fun c => c) "streams any 2 pairing 1"
        = .ok ("streams", ["any", "2", "pairing", "1"], none) :=
  ⟨rfl, (C3_streams_accepted_iff (fun c => c) "streams any 2 pairing 1"
      ["any", "2", "pairing", "1"] rfl).1.2 (by decide)⟩

/-- C4: for every input whose first token is `skip` or `unskip`, `parseCmd` returns
that verb with its args and no error exactly when the args are the one token
`tomorrow`; in every other case it returns the verb `help`, no args and an error. -/
theorem C4_skip_accepted_iff (tbl : Char → Char) (s verb : String) (args : List String)
    (hv : verb = "skip" ∨ verb = "unskip") (h : Bot.tokens tbl s = verb :: args) :
    (Bot.parseCmd tbl s = .ok (verb, args, none) ↔ args = ["tomorrow"])
    ∧ (args ≠ ["tomorrow"] → ∃ e, Bot.parseCmd tbl s = .ok ("help", [], some e)) := by
  unfold Bot.parseCmd
  rw [h]
  refine ⟨⟨fun hp => ?_, fun ha => ?_⟩, (Bot.parseTokens_skip verb hv args).2⟩
  · by_contra hn
    obtain ⟨e, he⟩ := (Bot.parseTokens_skip verb hv args).2 hn
    rw [he] at hp
    cases hp
  · rw [(Bot.parseTokens_skip verb hv args).1 ha, ha]

/-- C4 at the inputs `skip tomorrow`, which is accepted, and `unskip now`, which is
rejected. -/
theorem C4_skip_accepted_iff_witness :
    Bot.parseCmd (fun c => c) "skip tomorrow" = .ok ("skip", ["tomorrow"], none)
    ∧ ∃ e, Bot.parseCmd (fun c => c) "unskip now" = .ok ("help", [], some e) :=
  ⟨(C4_skip_accepted_iff (fun c => c) "skip tomorrow" "skip" ["tomorrow"] (Or.inl rfl) rfl).1.2 rfl,
   (C4_skip_accepted_iff (fun c => c) "unskip now" "unskip" ["now"] (Or.inr rfl) rfl).2
     (by decide)⟩

/-- C5: for every input string, `parseCmd` returns a verb and args of the shape that
`dispatch` assumes (`wellShaped`): one of the eight verbs; no args for `subscribe`,
`unsubscribe`, `help` and `status`; the one arg `tomorrow` for `skip` and `unskip`;
non-empty weekday names for `schedule`; a positive even number of args with parsable
counts for `streams`. On them `dispatch` does not select its `default` case and never
reads `cmdArgs[i+1]` out of range, whatever the store answers. -/
theorem C5_parse_output_well_shaped (tbl : Char → Char) (s : String) :
    ∃ verb args err, Bot.parseCmd tbl s = .ok (verb, args, err)
      ∧ Bot.wellShaped verb args
      ∧ Bot.switchCase verb ≠ .default
      ∧ ∀ (owner : String) (iter : GoMap Int → List String) (rdb : Bot.RecurserDB)
          (userID userEmail userName : String),
          Bot.dispatch tbl owner iter rdb verb args userID userEmail userName
            ≠ .error .indexOutOfRange := by
  have key : ∀ verb args, Bot.wellShaped verb args →
      Bot.switchCase verb ≠ .default
      ∧ ∀ (owner : String) (iter : GoMap Int → List String) (rdb : Bot.RecurserDB)
          (userID userEmail userName : String),
          Bot.dispatch tbl owner iter rdb verb args userID userEmail userName
            ≠ .error .indexOutOfRange := by
    intro verb args hw
    refine ⟨Bot.switchCase_ne_default verb hw.1, ?_⟩
    intro owner iter rdb userID userEmail userName hd
    obtain ⟨hcase, hodd⟩ := Bot.dispatch_indexOutOfRange _ _ _ _ _ _ _ _ _ hd
    have hv : verb = "streams" := by
      have hmem := hw.1
      simp only [Bot.cmdList, List.mem_cons, List.mem_singleton, List.not_mem_nil, or_false]
        at hmem
      rcases hmem with h | h | h | h | h | h | h | h <;> subst h <;>
        first | rfl | exact absurd hcase (by decide)
    have hev := (hw.2.2.2.2 hv).2.1
    omega
  unfold Bot.parseCmd
  rcases Bot.parseTokens_result (Bot.tokens tbl s) with ⟨v, a, h, hw⟩ | ⟨e, h⟩
  · exact ⟨v, a, none, h, hw, key v a hw⟩
  · exact ⟨"help", [], some e, h, Bot.wellShaped_help, key _ _ Bot.wellShaped_help⟩

/-! ## Maps -/

namespace Go.GoMap

theorem get?_set_self {V : Type} (m : GoMap V) (k : String) (v : V) :
    GoMap.get? (GoMap.set m k v) k = some v := by
  induction m with
  | nil => simp [GoMap.set, GoMap.get?]
  | cons kv rest ih =>
    obtain ⟨k1, v1⟩ := kv
    by_cases h : k1 = k
    · simp [GoMap.set, GoMap.get?, h]
    · simp [GoMap.set, GoMap.get?, h, ih]

theorem get?_set_ne {V : Type} (m : GoMap V) (k k2 : String) (v : V) (hne : k ≠ k2) :
    GoMap.get? (GoMap.set m k v) k2 = GoMap.get? m k2 := by
  induction m with
  | nil => simp [GoMap.set, GoMap.get?, hne]
  | cons kv rest ih =>
    obtain ⟨k1, v1⟩ := kv
    by_cases h : k1 = k
    · subst h
      simp [GoMap.set, GoMap.get?, hne]
    · by_cases h2 : k1 = k2
      · subst h2
        simp [GoMap.set, GoMap.get?, h]
      · simp [GoMap.set, GoMap.get?, h, h2, ih]

theorem mem_keys_iff {V : Type} (m : GoMap V) (k : String) :
    k ∈ GoMap.keys m ↔ GoMap.get? m k ≠ none := by
  induction m with
  | nil => simp [GoMap.keys, GoMap.get?]
  | cons kv rest ih =>
    obtain ⟨k1, v1⟩ := kv
    by_cases h : k1 = k
    · simp [GoMap.keys, GoMap.get?, h]
    · have ih1 : k ∈ List.map Prod.fst rest ↔ GoMap.get? rest k ≠ none := ih
      simp [GoMap.keys, GoMap.get?, h, ih1, Ne.symm h]

theorem keys_set_of_mem {V : Type} (m : GoMap V) (k : String) (v : V)
    (h : k ∈ GoMap.keys m) : GoMap.keys (GoMap.set m k v) = GoMap.keys m := by
  induction m with
  | nil => simp [GoMap.keys] at h
  | cons kv rest ih =>
    obtain ⟨k1, v1⟩ := kv
    by_cases h1 : k1 = k
    · simp [GoMap.set, GoMap.keys, h1]
    · have hrest : k ∈ GoMap.keys rest := by
        simp only [GoMap.keys, List.map_cons, List.mem_cons] at h
        rcases h with h | h
        · exact absurd h.symm h1
        · exact h
      have := ih hrest
      simp only [GoMap.keys] at this
      simp [GoMap.set, GoMap.keys, h1, this]

theorem mem_keys_set {V : Type} (m : GoMap V) (k k2 : String) (v : V) :
    k2 ∈ GoMap.keys (GoMap.set m k v) ↔ k2 = k ∨ k2 ∈ GoMap.keys m := by
  rw [mem_keys_iff, mem_keys_iff]
  by_cases h : k = k2
  · subst h
    simp [get?_set_self]
  · rw [get?_set_ne m k k2 v h]
    simp [Ne.symm h]

theorem keys_set_nodup {V : Type} (m : GoMap V) (k : String) (v : V)
    (h : (GoMap.keys m).Nodup) : (GoMap.keys (GoMap.set m k v)).Nodup := by
  induction m with
  | nil => simp [GoMap.set, GoMap.keys]
  | cons kv rest ih =>
    obtain ⟨k1, v1⟩ := kv
    have hcons : k1 ∉ GoMap.keys rest ∧ (GoMap.keys rest).Nodup := by
      simpa [GoMap.keys] using h
    by_cases h1 : k1 = k
    · simpa [GoMap.set, GoMap.keys, h1] using h
    · have hnot : k1 ∉ GoMap.keys (GoMap.set rest k v) := by
        rw [mem_keys_set]
        rintro (h2 | h2)
        · exact h1 h2
        · exact hcons.1 h2
      have hnd := ih hcons.2
      simp only [GoMap.keys] at hnot hnd
      simp [GoMap.set, GoMap.keys, h1, hnot, hnd]

end Go.GoMap

namespace Bot

/-! ## The schedule and streams that `dispatch` builds -/

theorem populateSchedule_get? (days : List String) : ∀ (m : GoMap Iface) (d : String),
    GoMap.get? (populateSchedule m days) d
      = if d ∈ days then some (.bool true) else GoMap.get? m d := by
  induction days with
  | nil => intro m d; simp [populateSchedule]
  | cons day rest ih =>
    intro m d
    rw [populateSchedule, ih]
    by_cases hr : d ∈ rest
    · simp [hr]
    · by_cases hd : day = d
      · subst hd
        simp [hr, GoMap.get?_set_self]
      · simp [hr, GoMap.get?_set_ne _ _ _ _ hd, Ne.symm hd]

theorem populateSchedule_keys (days : List String) : ∀ (m : GoMap Iface),
    (∀ d ∈ days, d ∈ GoMap.keys m) → GoMap.keys (populateSchedule m days) = GoMap.keys m := by
  induction days with
  | nil => intro m _; rfl
  | cons day rest ih =>
    intro m h
    have hday : day ∈ GoMap.keys m := h day (by simp)
    have hk := GoMap.keys_set_of_mem m day (.bool true) hday
    rw [populateSchedule, ih, hk]
    intro d hd
    rw [hk]
    exact h d (by simp [hd])

theorem blankSchedule_get? (d : String) (h : d ∈ daysList) :
    GoMap.get? blankSchedule d = some (.bool false) := by
  simp only [daysList, List.mem_cons, List.mem_singleton, List.not_mem_nil, or_false] at h
  rcases h with h | h | h | h | h | h | h <;> subst h <;> rfl

/-- The schedule built by the `schedule` case from weekday names has exactly the
seven weekday keys, each true exactly when the day is among the args. -/
theorem newSchedule_spec (days : List String) :
    (∀ d ∈ daysList, GoMap.get? (populateSchedule blankSchedule days) d
        = some (.bool (decide (d ∈ days))))
    ∧ ((∀ d ∈ days, d ∈ daysList) →
        GoMap.keys (populateSchedule blankSchedule days) = daysList) := by
  constructor
  · intro d hd
    rw [populateSchedule_get?, blankSchedule_get? d hd]
    by_cases h : d ∈ days <;> simp [h]
  · intro h
    rw [populateSchedule_keys days blankSchedule (fun d hd => h d hd)]
    rfl

theorem lastCount_cons2 (a b : String) (more : List String) (t : String) :
    lastCount (a :: b :: more) t
      = match lastCount more t with
        | some later => some later
        | none => if a = t then some b else none := rfl

/-- The loop of the `streams` case on an even number of args: it ends without a
panic, in a map that gives each topic of the args the value of the count of its last
pair and leaves the other keys as they were. -/
theorem populateStreams_spec : ∀ (n : Nat) (l : List String) (m : GoMap Int),
    l.length = 2 * n →
    ∃ m1, populateStreams m l = .ok m1
      ∧ (∀ t, GoMap.get? m1 t
          = match lastCount l t with
            | some count => some (Atoi count).1
            | none => GoMap.get? m t)
      ∧ ((GoMap.keys m).Nodup → (GoMap.keys m1).Nodup)
  | 0, l, m, h => by
    have hl : l = [] := List.length_eq_zero.mp (by omega)
    subst hl
    exact ⟨m, rfl, fun t => rfl, fun h => h⟩
  | n + 1, l, m, h => by
    match l, h with
    | a :: b :: more, h =>
      have hmore : more.length = 2 * n := by simp at h; omega
      obtain ⟨m1, hm1, hget, hnd⟩ :=
        populateStreams_spec n more (GoMap.set m a (Atoi b).1) hmore
      refine ⟨m1, by rw [populateStreams, hm1], fun t => ?_,
        fun h0 => hnd (GoMap.keys_set_nodup m a _ h0)⟩
      rw [hget t, lastCount_cons2]
      cases hl : lastCount more t with
      | some later => rfl
      | none =>
        by_cases hat : a = t
        · subst hat
          simp [GoMap.get?_set_self]
        · simp [hat, GoMap.get?_set_ne _ _ _ _ hat]

theorem mem_topics_iff : ∀ (n : Nat) (l : List String) (t : String), l.length = 2 * n →
    (t ∈ topics l ↔ lastCount l t ≠ none)
  | 0, l, t, h => by
    have hl : l = [] := List.length_eq_zero.mp (by omega)
    subst hl
    simp [topics, lastCount]
  | n + 1, l, t, h => by
    match l, h with
    | a :: b :: more, h =>
      have hmore : more.length = 2 * n := by simp at h; omega
      have ih := mem_topics_iff n more t hmore
      rw [lastCount_cons2, topics, List.mem_cons, ih]
      cases hl : lastCount more t with
      | some later => simp
      | none =>
        by_cases hat : a = t
        · simp [hat]
        · simp [hat, Ne.symm hat]

theorem lastCount_parses : ∀ (n : Nat) (l : List String) (t count : String),
    l.length = 2 * n → countTokensParse l → lastCount l t = some count → (Atoi count).2 = none
  | 0, l, t, count, h, _, hc => by
    have hl : l = [] := List.length_eq_zero.mp (by omega)
    subst hl
    simp [lastCount] at hc
  | n + 1, l, t, count, h, hp, hc => by
    match l, h, hp, hc with
    | a :: b :: more, h, hp, hc =>
      have hmore : more.length = 2 * n := by simp at h; omega
      obtain ⟨hb, hpm⟩ := (countTokensParse_cons2 a b more).mp hp
      rw [lastCount_cons2] at hc
      cases hl : lastCount more t with
      | some later =>
        rw [hl] at hc
        simp only [Option.some.injEq] at hc
        subst hc
        exact lastCount_parses n more t later hmore hpm hl
      | none =>
        rw [hl] at hc
        by_cases hat : a = t
        · simp only [hat, ↓reduceIte, Option.some.injEq] at hc
          subst hc
          exact hb
        · simp [hat] at hc

/-- The `streams` case on a subscribed record when the write succeeds. -/
theorem dispatch_streams (tbl : Char → Char) (owner : String) (iter : GoMap Int → List String)
    (rdb : RecurserDB) (rec : Recurser) (args : List String) (newStreams : GoMap Int)
    (userID userEmail userName : String)
    (hget : rdb.GetByUserID userID userEmail userName = .ok rec)
    (hsub : rec.isSubscribed = true) (hset : ∀ r, rdb.Set userID r = none)
    (hloop : populateStreams [] args = .ok newStreams) :
    dispatch tbl owner iter rdb "streams" args userID userEmail userName
      = .ok { response := "Awesome, your topic's been set! You can check it with `status`.",
              err := none,
              call := .set userID { rec with streams := newStreams } } := by
  unfold dispatch
  rw [hget]
  have hc : switchCase "streams" = .streams := rfl
  simp only [hc, hsub, hset, hloop]
  rfl

/-- The `schedule` case on a subscribed record when the write succeeds. -/
theorem dispatch_schedule (tbl : Char → Char) (owner : String) (iter : GoMap Int → List String)
    (rdb : RecurserDB) (rec : Recurser) (args : List String) (userID userEmail userName : String)
    (hget : rdb.GetByUserID userID userEmail userName = .ok rec)
    (hsub : rec.isSubscribed = true) (hset : ∀ r, rdb.Set userID r = none) :
    dispatch tbl owner iter rdb "schedule" args userID userEmail userName
      = .ok { response := "Awesome, your new schedule's been set! You can check it with `status`.",
              err := none,
              call := .set userID { rec with schedule := populateSchedule blankSchedule args } } := by
  unfold dispatch
  rw [hget]
  have hc : switchCase "schedule" = .schedule := rfl
  simp only [hc, hsub, hset]
  rfl

/-- The cases that check the subscription first answer a user without a record with
the not-subscribed message, no error and no call to the store. -/
theorem dispatch_not_subscribed (tbl : Char → Char) (owner : String)
    (iter : GoMap Int → List String) (rdb : RecurserDB) (rec : Recurser) (cmd : String)
    (args : List String) (userID userEmail userName : String)
    (hcmd : cmd ∈ ["unsubscribe", "schedule", "streams", "skip", "unskip", "status"])
    (hget : rdb.GetByUserID userID userEmail userName = .ok rec)
    (hsub : rec.isSubscribed = false) :
    dispatch tbl owner iter rdb cmd args userID userEmail userName
      = .ok { response := notSubscribedMessage, err := none, call := .none } := by
  unfold dispatch
  rw [hget]
  simp only [List.mem_cons, List.mem_singleton, List.not_mem_nil, or_false] at hcmd
  rcases hcmd with h | h | h | h | h | h <;> subst h
  · have hc : switchCase "unsubscribe" = .unsubscribe := rfl
    simp [hc, hsub]
  · have hc : switchCase "schedule" = .schedule := rfl
    simp [hc, hsub]
  · have hc : switchCase "streams" = .streams := rfl
    simp [hc, hsub]
  · have hc : switchCase "skip" = .skip := rfl
    simp [hc, hsub]
  · have hc : switchCase "unskip" = .unskip := rfl
    simp [hc, hsub]
  · have hc : switchCase "status" = .status := rfl
    simp [hc, hsub]

/-- The `subscribe` case: for a user without a record it hands to `Set` the record
that the read returned; for a subscribed user it makes no call. -/
theorem dispatch_subscribe (tbl : Char → Char) (owner : String)
    (iter : GoMap Int → List String) (rdb : RecurserDB) (rec : Recurser)
    (args : List String) (userID userEmail userName : String)
    (hget : rdb.GetByUserID userID userEmail userName = .ok rec)
    (hset : ∀ r, rdb.Set userID r = none) :
    dispatch tbl owner iter rdb "subscribe" args userID userEmail userName
      = if rec.isSubscribed then
          .ok { response := "You're already subscribed! Use `schedule` to set your schedule.",
                err := none, call := .none }
        else .ok { response := subscribeMessage, err := none, call := .set userID rec } := by
  unfold dispatch
  rw [hget]
  have hc : switchCase "subscribe" = .subscribe := rfl
  simp only [hc, hset]

/-- The three cases that assign the outer `err` return the error of a failed write
together with the write-failure message. -/
theorem dispatch_write_error_returned (tbl : Char → Char) (owner : String)
    (iter : GoMap Int → List String) (rdb : RecurserDB) (rec : Recurser) (e : GoError)
    (args : List String) (userID userEmail userName : String)
    (hget : rdb.GetByUserID userID userEmail userName = .ok rec)
    (hset : ∀ r, rdb.Set userID r = some e) :
    (rec.isSubscribed = true →
      ∃ c, dispatch tbl owner iter rdb "schedule" args userID userEmail userName
        = .ok { response := writeErrorMessage owner, err := some e, call := c })
    ∧ (rec.isSubscribed = true → args.length % 2 = 0 →
      ∃ c, dispatch tbl owner iter rdb "streams" args userID userEmail userName
        = .ok { response := writeErrorMessage owner, err := some e, call := c })
    ∧ (rec.isSubscribed = false →
      ∃ c, dispatch tbl owner iter rdb "subscribe" args userID userEmail userName
        = .ok { response := writeErrorMessage owner, err := some e, call := c }) := by
  refine ⟨fun hsub => ?_, fun hsub hev => ?_, fun hsub => ?_⟩
  · unfold dispatch
    rw [hget]
    have hc : switchCase "schedule" = .schedule := rfl
    simp only [hc, hsub, hset]
    exact ⟨_, rfl⟩
  · obtain ⟨m1, hm1⟩ := populateStreams_even (args.length / 2) args [] (by omega)
    unfold dispatch
    rw [hget]
    have hc : switchCase "streams" = .streams := rfl
    simp only [hc, hsub, hset, hm1]
    exact ⟨_, rfl⟩
  · unfold dispatch
    rw [hget]
    have hc : switchCase "subscribe" = .subscribe := rfl
    simp only [hc, hsub, hset]
    exact ⟨_, rfl⟩

end Bot

namespace Legacy

/-- The older `dispatch` answers a user without a document with the same message and
no call to the store; the error it returns is the not-found error of the read, which
no case has assigned since. -/
theorem legacy_dispatch_not_subscribed (tbl : Char → Char) (client : Client) (cmd : String)
    (args : List String) (userID userName : String)
    (hcmd : cmd ∈ ["unsubscribe", "schedule", "skip", "unskip", "status"])
    (hget : client.Get userID = firestoreGet none) :
    dispatch tbl client cmd args userID userName
      = .ok { response := notSubscribedMessage, err := (firestoreGet none).err,
              call := .none } := by
  unfold dispatch
  rw [hget]
  simp only [List.mem_cons, List.mem_singleton, List.not_mem_nil, or_false] at hcmd
  rcases hcmd with h | h | h | h | h <;> subst h <;> rfl

/-- The `subscribe` case of the older `dispatch`. -/
theorem legacy_dispatch_subscribe (tbl : Char → Char) (client : Client) (doc : Option Doc)
    (args : List String) (userID userName : String)
    (hget : client.Get userID = firestoreGet doc)
    (hset : ∀ d, client.Set userID d = none) :
    dispatch tbl client "subscribe" args userID userName
      = if doc.isSome then
          .ok { response := "You're already subscribed! Use `schedule` to set your schedule.",
                err := none, call := .none }
        else
          .ok { response := subscribeMessage, err := none,
                call := .set userID (newRecurser userID userName) } := by
  unfold dispatch
  rw [hget]
  have hc : switchCase "subscribe" = .subscribe := rfl
  cases doc with
  | none =>
    have hnf : grpcCode (.grpc codesNotFound "document not found") = codesNotFound := rfl
    simp only [firestoreGet, hnf, ne_eq, not_true_eq_false, ↓reduceIte, dispatchBody, hc,
      Option.isSome_none, hset]
    rfl
  | some data =>
    simp only [firestoreGet, dispatchBody, hc, Option.isSome_some, ↓reduceIte]

end Legacy

/-! ## The claims about the dispatcher -/

/-- C6: for every subscribed record and every list `B` of weekday names, when the
write succeeds `dispatch` with the verb `schedule` hands to the store the record with
a new schedule that has exactly the seven weekday keys, each true exactly when the day
occurs in `B`, whatever the schedule was before. Hence, when the read of a second
command returns what `schedule A` stored, `schedule B` stores the same record as
`schedule B` alone; with `A = B` this is idempotence. -/
theorem C6_schedule_rebuilt_from_args (tbl : Char → Char) (owner : String)
    (iter : GoMap Int → List String) (rdb rdbA : Bot.RecurserDB) (rec : Bot.Recurser)
    (A B : List String) (userID userEmail userName : String)
    (hget : rdb.GetByUserID userID userEmail userName = .ok rec)
    (hsub : rec.isSubscribed = true)
    (hset : ∀ r, rdb.Set userID r = none)
    (hB : ∀ d ∈ B, d ∈ Bot.daysList)
    (hgetA : ∀ recA,
      Bot.storedRecord (Bot.dispatch tbl owner iter rdb "schedule" A userID userEmail userName)
        = some recA → rdbA.GetByUserID userID userEmail userName = .ok recA)
    (hsetA : ∀ r, rdbA.Set userID r = none) :
    ∃ newSchedule,
      Bot.dispatch tbl owner iter rdb "schedule" B userID userEmail userName
        = .ok { response := "Awesome, your new schedule's been set! You can check it with `status`.",
                err := none,
                call := .set userID { rec with schedule := newSchedule } }
      ∧ GoMap.keys newSchedule = Bot.daysList
      ∧ (∀ d ∈ Bot.daysList, GoMap.get? newSchedule d = some (.bool (decide (d ∈ B))))
      ∧ Bot.dispatch tbl owner iter rdbA "schedule" B userID userEmail userName
        = Bot.dispatch tbl owner iter rdb "schedule" B userID userEmail userName := by
  have hB1 := Bot.dispatch_schedule tbl owner iter rdb rec B userID userEmail userName
    hget hsub hset
  have hA1 := Bot.dispatch_schedule tbl owner iter rdb rec A userID userEmail userName
    hget hsub hset
  have hreadA := hgetA _ (by rw [hA1]; rfl)
  have hB2 := Bot.dispatch_schedule tbl owner iter rdbA _ B userID userEmail userName
    hreadA hsub hsetA
  refine ⟨Bot.populateSchedule Bot.blankSchedule B, hB1, (Bot.newSchedule_spec B).2 hB,
    (Bot.newSchedule_spec B).1, ?_⟩
  rw [hB1, hB2]

/-- C6 at the record left by `schedule tuesday`, for `schedule monday` after
`schedule monday`: the hypotheses hold and the conclusion follows. -/
theorem C6_schedule_rebuilt_from_args_witness :
    ∃ newSchedule,
      Bot.dispatch (fun c => c) "the owner" GoMap.keys
          (Bot.constStore (Bot.sampleRecurser (Bot.populateSchedule Bot.blankSchedule ["tuesday"]) [])
            none)
          "schedule" ["monday"] "7" "al@example.org" "Al"
        = .ok { response := "Awesome, your new schedule's been set! You can check it with `status`.",
                err := none,
                call := .set "7"
                  { Bot.sampleRecurser (Bot.populateSchedule Bot.blankSchedule ["tuesday"]) [] with
                    schedule := newSchedule } }
      ∧ GoMap.keys newSchedule = Bot.daysList
      ∧ (∀ d ∈ Bot.daysList, GoMap.get? newSchedule d = some (.bool (decide (d ∈ ["monday"]))))
      ∧ Bot.dispatch (fun c => c) "the owner" GoMap.keys
          (Bot.constStore (Bot.sampleRecurser (Bot.populateSchedule Bot.blankSchedule ["monday"]) [])
            none)
          "schedule" ["monday"] "7" "al@example.org" "Al"
        = Bot.dispatch (fun c => c) "the owner" GoMap.keys
          (Bot.constStore (Bot.sampleRecurser (Bot.populateSchedule Bot.blankSchedule ["tuesday"]) [])
            none)
          "schedule" ["monday"] "7" "al@example.org" "Al" :=
  C6_schedule_rebuilt_from_args (fun c => c) "the owner" GoMap.keys
    (Bot.constStore (Bot.sampleRecurser (Bot.populateSchedule Bot.blankSchedule ["tuesday"]) []) none)
    (Bot.constStore (Bot.sampleRecurser (Bot.populateSchedule Bot.blankSchedule ["monday"]) []) none)
    (Bot.sampleRecurser (Bot.populateSchedule Bot.blankSchedule ["tuesday"]) [])
    ["monday"] ["monday"] "7" "al@example.org" "Al" rfl rfl (fun _ => rfl) (by decide)
    (by intro recA h; cases h; rfl) (fun _ => rfl)

/-- C7: for every subscribed record and every args list of (topic, count) pairs whose
counts are accepted by `strconv.Atoi`, when the write succeeds `dispatch` with the
verb `streams` hands to the store the record with a new streams map, whatever the
streams were before: its keys are exactly the topics named in the args, without
repetition, and each topic has the integer value of the count of its last pair. -/
theorem C7_streams_rebuilt_from_args (tbl : Char → Char) (owner : String)
    (iter : GoMap Int → List String) (rdb : Bot.RecurserDB) (rec : Bot.Recurser)
    (args : List String) (userID userEmail userName : String)
    (hget : rdb.GetByUserID userID userEmail userName = .ok rec)
    (hsub : rec.isSubscribed = true)
    (hset : ∀ r, rdb.Set userID r = none)
    (hpairs : args.length % 2 = 0)
    (hparse : Bot.countTokensParse args) :
    ∃ newStreams,
      Bot.dispatch tbl owner iter rdb "streams" args userID userEmail userName
        = .ok { response := "Awesome, your topic's been set! You can check it with `status`.",
                err := none,
                call := .set userID { rec with streams := newStreams } }
      ∧ (GoMap.keys newStreams).Nodup
      ∧ (∀ topic, topic ∈ GoMap.keys newStreams ↔ topic ∈ Bot.topics args)
      ∧ (∀ topic, GoMap.get? newStreams topic
          = (Bot.lastCount args topic).map (fun count => (Atoi count).1))
      ∧ (∀ topic count, Bot.lastCount args topic = some count → (Atoi count).2 = none) := by
  have hlen : args.length = 2 * (args.length / 2) := by omega
  obtain ⟨newStreams, hloop, hget1, hnd⟩ := Bot.populateStreams_spec _ args [] hlen
  have hval : ∀ topic, GoMap.get? newStreams topic
      = (Bot.lastCount args topic).map (fun count => (Atoi count).1) := by
    intro topic
    rw [hget1 topic]
    cases Bot.lastCount args topic <;> rfl
  refine ⟨newStreams,
    Bot.dispatch_streams tbl owner iter rdb rec args newStreams userID userEmail userName
      hget hsub hset hloop,
    hnd (by simp [GoMap.keys]), fun topic => ?_, hval,
    fun topic count hc => Bot.lastCount_parses _ args topic count hlen hparse hc⟩
  rw [GoMap.mem_keys_iff, hval, Bot.mem_topics_iff _ args topic hlen]
  cases Bot.lastCount args topic <;> simp

/-- C7 at the args `any 2 pairing 1` on a record whose streams were `math: 3`: the
hypotheses hold, and the streams handed to the store are `any: 2, pairing: 1`. -/
theorem C7_streams_rebuilt_from_args_witness :
    (∃ newStreams,
      Bot.dispatch (fun c => c) "the owner" GoMap.keys
          (Bot.constStore (Bot.sampleRecurser Bot.blankSchedule [("math", 3)]) none)
          "streams" ["any", "2", "pairing", "1"] "7" "al@example.org" "Al"
        = .ok { response := "Awesome, your topic's been set! You can check it with `status`.",
                err := none,
                call := .set "7"
                  { Bot.sampleRecurser Bot.blankSchedule [("math", 3)] with
                    streams := newStreams } }
      ∧ (GoMap.keys newStreams).Nodup
      ∧ (∀ topic, topic ∈ GoMap.keys newStreams
          ↔ topic ∈ Bot.topics ["any", "2", "pairing", "1"])
      ∧ (∀ topic, GoMap.get? newStreams topic
          = (Bot.lastCount ["any", "2", "pairing", "1"] topic).map (fun count => (Atoi count).1))
      ∧ (∀ topic count, Bot.lastCount ["any", "2", "pairing", "1"] topic = some count →
          (Atoi count).2 = none))
    ∧ Bot.storedRecord
        (Bot.dispatch (fun c => c) "the owner" GoMap.keys
          (Bot.constStore (Bot.sampleRecurser Bot.blankSchedule [("math", 3)]) none)
          "streams" ["any", "2", "pairing", "1"] "7" "al@example.org" "Al")
      = some (Bot.sampleRecurser Bot.blankSchedule [("any", 2), ("pairing", 1)]) :=
  ⟨C7_streams_rebuilt_from_args (fun c => c) "the owner" GoMap.keys
    (Bot.constStore (Bot.sampleRecurser Bot.blankSchedule [("math", 3)]) none)
    (Bot.sampleRecurser Bot.blankSchedule [("math", 3)])
    ["any", "2", "pairing", "1"] "7" "al@example.org" "Al" rfl rfl (fun _ => rfl) rfl
    (by decide), rfl⟩

/-- C8, the older variant as it is: the read of a missing document gives a not-found
error, and `dispatch` of `pairing-bot.go` returns that error with the not-subscribed
message for `status`; it has no `streams` case and answers that verb with an empty
response. -/
theorem C8_legacy_returns_read_error :
    Legacy.dispatch (fun c => c) (Legacy.constClient none none) "status" [] "7" "Al"
      = .ok { response := "You're not subscribed to Pairing Bot <3",
              err := some (.grpc 5 "document not found"), call := .none }
    ∧ Legacy.dispatch (fun c => c) (Legacy.constClient none none) "streams" ["any", "2"] "7"
        "Al"
      = .ok { response := "", err := some (.grpc 5 "document not found"), call := .none } :=
  ⟨rfl, rfl⟩

/-- C8, amended: when the read finds no record for the caller, `dispatch` of
`dispatch.go` returns for every verb among `unsubscribe`, `schedule`, `streams`,
`skip`, `unskip` and `status` and every args list the not-subscribed message and no
error and makes no call to the store; `dispatch` of `pairing-bot.go`, whose read then
gives a not-found error `e`, makes no call to the store either and returns `e`, with
the not-subscribed message for the five verbs it knows and an empty response for
`streams`. -/
theorem C8_not_subscribed_both_variants (tbl : Char → Char) (owner : String)
    (iter : GoMap Int → List String) (rdb : Bot.RecurserDB) (rec : Bot.Recurser)
    (client : Legacy.Client) (e : GoError) (cmd : String)
    (args : List String) (userID userEmail userName : String)
    (hcmd : cmd ∈ ["unsubscribe", "schedule", "streams", "skip", "unskip", "status"])
    (hget : rdb.GetByUserID userID userEmail userName = .ok rec)
    (hsub : rec.isSubscribed = false)
    (hcget : client.Get userID = { data := none, err := some e })
    (hcode : Legacy.grpcCode e = Legacy.codesNotFound) :
    Bot.dispatch tbl owner iter rdb cmd args userID userEmail userName
      = .ok { response := "You're not subscribed to Pairing Bot <3", err := none,
              call := .none }
    ∧ Legacy.dispatch tbl client cmd args userID userName
      = .ok { response :=
                if cmd = "streams" then "" else "You're not subscribed to Pairing Bot <3",
              err := some e, call := .none } := by
  refine ⟨Bot.dispatch_not_subscribed tbl owner iter rdb rec cmd args userID userEmail
    userName hcmd hget hsub, ?_⟩
  unfold Legacy.dispatch
  rw [hcget]
  simp only [hcode, ne_eq, not_true_eq_false, ↓reduceIte]
  simp only [List.mem_cons, List.mem_singleton, List.not_mem_nil, or_false] at hcmd
  rcases hcmd with h | h | h | h | h | h <;> subst h <;> rfl

/-- C8 for the verb `status` sent by a user without a record, in both variants. -/
theorem C8_not_subscribed_both_variants_witness :
    Bot.dispatch (fun c => c) "the owner" GoMap.keys
        (Bot.constStore
          { Bot.sampleRecurser Bot.blankSchedule [] with isSubscribed := false } none)
        "status" [] "7" "al@example.org" "Al"
      = .ok { response := "You're not subscribed to Pairing Bot <3", err := none,
              call := .none }
    ∧ Legacy.dispatch (fun c => c) (Legacy.constClient none none) "status" [] "7" "Al"
      = .ok { response :=
                if "status" = "streams" then "" else "You're not subscribed to Pairing Bot <3",
              err := some (.grpc 5 "document not found"), call := .none } :=
  C8_not_subscribed_both_variants (fun c => c) "the owner" GoMap.keys
    (Bot.constStore { Bot.sampleRecurser Bot.blankSchedule [] with isSubscribed := false } none)
    { Bot.sampleRecurser Bot.blankSchedule [] with isSubscribed := false }
    (Legacy.constClient none none) (.grpc 5 "document not found")
    "status" [] "7" "al@example.org" "Al" (by decide) rfl rfl rfl rfl

/-- C9: for the verb `subscribe` with the read and the write succeeding. In
`dispatch.go`, with the read of the store adapter as the specification describes it
(`getByUserID`): for a user without a record the record handed to `Set` has the id of
the caller, the default schedule, empty streams and isSkippingTomorrow false, and the
response is the subscribe confirmation; for a user with a record no call is made and
the response is the already-subscribed message. In `pairing-bot.go` the same holds
with the record literal of its `subscribe` case, which has no streams entry. -/
theorem C9_subscribe_creates_default_record (tbl : Char → Char) (owner : String)
    (iter : GoMap Int → List String) (rdb : Bot.RecurserDB) (client : Legacy.Client)
    (defaultSchedule : GoMap Bot.Iface) (stored : Option Bot.Recurser)
    (doc : Option Legacy.Doc) (args : List String) (userID userEmail userName : String)
    (hget : rdb.GetByUserID userID userEmail userName
      = Bot.getByUserID defaultSchedule stored userID userEmail userName)
    (hset : ∀ r, rdb.Set userID r = none)
    (hcget : client.Get userID = Legacy.firestoreGet doc)
    (hcset : ∀ d, client.Set userID d = none) :
    Bot.dispatch tbl owner iter rdb "subscribe" args userID userEmail userName
      = (if stored.isSome then
          .ok { response := "You're already subscribed! Use `schedule` to set your schedule.",
                err := none, call := .none }
        else
          .ok { response := Bot.subscribeMessage, err := none,
                call := .set userID
                  { id := userID, name := userName, isSkippingTomorrow := false,
                    schedule := defaultSchedule, streams := [], isSubscribed := false } })
    ∧ Legacy.dispatch tbl client "subscribe" args userID userName
      = (if doc.isSome then
          .ok { response := "You're already subscribed! Use `schedule` to set your schedule.",
                err := none, call := .none }
        else
          .ok { response := Legacy.subscribeMessage, err := none,
                call := .set userID
                  [("id", .val (.str userID)), ("name", .val (.str userName)),
                   ("isSkippingTomorrow", .val (.bool false)),
                   ("schedule", .map
                     [("monday", .bool true), ("tuesday", .bool true),
                      ("wednesday", .bool true), ("thursday", .bool true),
                      ("friday", .bool false), ("saturday", .bool false),
                      ("sunday", .bool false)])] }) := by
  constructor
  · cases stored with
    | none =>
      rw [Bot.dispatch_subscribe tbl owner iter rdb _ args userID userEmail userName hget hset]
      rfl
    | some r =>
      rw [Bot.dispatch_subscribe tbl owner iter rdb _ args userID userEmail userName hget hset]
      rfl
  · rw [Legacy.legacy_dispatch_subscribe tbl client doc args userID userName hcget hcset]
    cases doc <;> rfl

/-- C9 for a user without a record, with a default schedule of all seven days false
in the newer variant. -/
theorem C9_subscribe_creates_default_record_witness :
    Bot.dispatch (fun c => c) "the owner" GoMap.keys
        { GetByUserID := Bot.getByUserID Bot.blankSchedule none,
          Set := fun _ _ => none, Delete := fun _ => none }
        "subscribe" [] "7" "al@example.org" "Al"
      = .ok { response := Bot.subscribeMessage, err := none,
              call := .set "7"
                { id := "7", name := "Al", isSkippingTomorrow := false,
                  schedule := Bot.blankSchedule, streams := [], isSubscribed := false } }
    ∧ Legacy.dispatch (fun c => c)
        { Get := fun _ => Legacy.firestoreGet none, Set := fun _ _ => none,
          SetMergeAll := fun _ _ => none, Delete := fun _ => none }
        "subscribe" [] "7" "Al"
      = .ok { response := Legacy.subscribeMessage, err := none,
              call := .set "7"
                [("id", .val (.str "7")), ("name", .val (.str "Al")),
                 ("isSkippingTomorrow", .val (.bool false)),
                 ("schedule", .map
                   [("monday", .bool true), ("tuesday", .bool true),
                    ("wednesday", .bool true), ("thursday", .bool true),
                    ("friday", .bool false), ("saturday", .bool false),
                    ("sunday", .bool false)])] } :=
  C9_subscribe_creates_default_record (fun c => c) "the owner" GoMap.keys
    { GetByUserID := Bot.getByUserID Bot.blankSchedule none,
      Set := fun _ _ => none, Delete := fun _ => none }
    { Get := fun _ => Legacy.firestoreGet none, Set := fun _ _ => none,
      SetMergeAll := fun _ _ => none, Delete := fun _ => none }
    Bot.blankSchedule none none [] "7" "al@example.org" "Al" rfl (fun _ => rfl) rfl
    (fun _ => rfl)

/-- C10, the code as it is: when the write of `skip`, of `unskip` or the delete of
`unsubscribe` fails for a subscribed user, `dispatch` of `dispatch.go` returns the
write-failure message with a nil error: the error of the store is held by an `err`
declared in the `if` statement, not by the `err` that is returned. -/
theorem C10_write_error_not_returned (tbl : Char → Char) (owner : String)
    (iter : GoMap Int → List String) :
    Bot.dispatch tbl owner iter
        (Bot.constStore (Bot.sampleRecurser Bot.blankSchedule []) (some (.other "write failed")))
        "skip" ["tomorrow"] "7" "al@example.org" "Al"
      = .ok { response := Bot.writeErrorMessage owner, err := none,
              call := .set "7"
                { Bot.sampleRecurser Bot.blankSchedule [] with isSkippingTomorrow := true } }
    ∧ Bot.dispatch tbl owner iter
        (Bot.constStore (Bot.sampleRecurser Bot.blankSchedule []) (some (.other "write failed")))
        "unskip" ["tomorrow"] "7" "al@example.org" "Al"
      = .ok { response := Bot.writeErrorMessage owner, err := none,
              call := .set "7"
                { Bot.sampleRecurser Bot.blankSchedule [] with isSkippingTomorrow := false } }
    ∧ Bot.dispatch tbl owner iter
        (Bot.constStore (Bot.sampleRecurser Bot.blankSchedule []) (some (.other "write failed")))
        "unsubscribe" [] "7" "al@example.org" "Al"
      = .ok { response := Bot.writeErrorMessage owner, err := none, call := .delete "7" } :=
  ⟨rfl, rfl, rfl⟩

namespace Bot

/-! ## The read failure and the help text -/

/-- A failed read ends `dispatch` at once, whatever the verb. -/
theorem dispatch_read_error (tbl : Char → Char) (owner : String)
    (iter : GoMap Int → List String) (rdb : RecurserDB) (e : GoError) (cmd : String)
    (args : List String) (userID userEmail userName : String)
    (hget : rdb.GetByUserID userID userEmail userName = .error e) :
    dispatch tbl owner iter rdb cmd args userID userEmail userName
      = .ok { response := readErrorMessage owner, err := some e, call := .none } := by
  unfold dispatch
  rw [hget]

/-- The `help` case: the static help text, whether or not the user is subscribed. -/
theorem dispatch_help (tbl : Char → Char) (owner : String)
    (iter : GoMap Int → List String) (rdb : RecurserDB) (rec : Recurser)
    (args : List String) (userID userEmail userName : String)
    (hget : rdb.GetByUserID userID userEmail userName = .ok rec) :
    dispatch tbl owner iter rdb "help" args userID userEmail userName
      = .ok { response := helpMessage, err := none, call := .none } := by
  unfold dispatch
  rw [hget]
  rfl

/-- A command that `parseCmd` returns with an error has the verb `help` and no args. -/
theorem parseCmd_error_help (tbl : Char → Char) (s verb : String) (args : List String)
    (e : GoError) (h : parseCmd tbl s = .ok (verb, args, some e)) :
    verb = "help" ∧ args = [] := by
  unfold parseCmd at h
  rcases parseTokens_result (tokens tbl s) with ⟨v, a, hv, _⟩ | ⟨e1, he⟩
  · rw [hv] at h
    cases h
  · rw [he] at h
    cases h
    exact ⟨rfl, rfl⟩

end Bot

namespace Legacy

/-- A read error other than not-found ends the older `dispatch` at once. -/
theorem legacy_dispatch_read_error (tbl : Char → Char) (client : Client) (e : GoError)
    (cmd : String) (args : List String) (userID userName : String)
    (hget : (client.Get userID).err = some e) (hcode : grpcCode e ≠ codesNotFound) :
    dispatch tbl client cmd args userID userName
      = .ok { response := readErrorMessage, err := some e, call := .none } := by
  unfold dispatch
  simp only [hget, hcode, ne_eq, not_false_eq_true, ↓reduceIte]

end Legacy

/-! ## The claims about failures and the status text -/

/-- C11: for every verb, `help` included, and every args list, when the read of the
store fails (in `pairing-bot.go`: with an error whose code is not `NotFound`),
`dispatch` returns the read-failure message together with that error and makes no
call to the store. Proved for `dispatch.go` and for `pairing-bot.go`. -/
theorem C11_read_failure_message (tbl : Char → Char) (owner : String)
    (iter : GoMap Int → List String) (rdb : Bot.RecurserDB) (client : Legacy.Client)
    (e : GoError) (cmd : String) (args : List String) (userID userEmail userName : String)
    (hget : rdb.GetByUserID userID userEmail userName = .error e)
    (hcget : (client.Get userID).err = some e)
    (hcode : Legacy.grpcCode e ≠ Legacy.codesNotFound) :
    Bot.dispatch tbl owner iter rdb cmd args userID userEmail userName
      = .ok { response :=
                "Something went sideways while reading from the database. You should probably ping "
                  ++ owner,
              err := some e, call := .none }
    ∧ Legacy.dispatch tbl client cmd args userID userName
      = .ok { response :=
                "Something went sideways while reading from the database. You should probably ping "
                  ++ Legacy.maren,
              err := some e, call := .none } :=
  ⟨Bot.dispatch_read_error tbl owner iter rdb e cmd args userID userEmail userName hget,
   Legacy.legacy_dispatch_read_error tbl client e cmd args userID userName hcget hcode⟩

/-- C11 for the verb `help` when the read fails with an error of code 14
(unavailable). -/
theorem C11_read_failure_message_witness :
    Bot.dispatch (fun c => c) "the owner" GoMap.keys
        { GetByUserID := fun _ _ _ => .error (.grpc 14 "unavailable"),
          Set := fun _ _ => none, Delete := fun _ => none }
        "help" [] "7" "al@example.org" "Al"
      = .ok { response :=
                "Something went sideways while reading from the database. You should probably ping "
                  ++ "the owner",
              err := some (.grpc 14 "unavailable"), call := .none }
    ∧ Legacy.dispatch (fun c => c)
        { Get := fun _ => { data := none, err := some (.grpc 14 "unavailable") },
          Set := fun _ _ => none, SetMergeAll := fun _ _ => none, Delete := fun _ => none }
        "help" [] "7" "Al"
      = .ok { response :=
                "Something went sideways while reading from the database. You should probably ping "
                  ++ Legacy.maren,
              err := some (.grpc 14 "unavailable"), call := .none } :=
  C11_read_failure_message (fun c => c) "the owner" GoMap.keys
    { GetByUserID := fun _ _ _ => .error (.grpc 14 "unavailable"),
      Set := fun _ _ => none, Delete := fun _ => none }
    { Get := fun _ => { data := none, err := some (.grpc 14 "unavailable") },
      Set := fun _ _ => none, SetMergeAll := fun _ _ => none, Delete := fun _ => none }
    (.grpc 14 "unavailable") "help" [] "7" "al@example.org" "Al" rfl rfl (by decide)

/-- C12: for every raw input that `parseCmd` rejects (it returns a non-nil error),
and for every answer of a successful read, subscribed or not, `dispatch` applied to
the verb and args that `parseCmd` returned gives the static help text, no error and
no call to the store. -/
theorem C12_rejected_input_gets_help (tbl : Char → Char) (owner : String)
    (iter : GoMap Int → List String) (rdb : Bot.RecurserDB) (rec : Bot.Recurser)
    (s verb : String) (args : List String) (e : GoError)
    (userID userEmail userName : String)
    (hparse : Bot.parseCmd tbl s = .ok (verb, args, some e))
    (hget : rdb.GetByUserID userID userEmail userName = .ok rec) :
    Bot.dispatch tbl owner iter rdb verb args userID userEmail userName
      = .ok { response := Bot.helpMessage, err := none, call := .none } := by
  obtain ⟨hv, _⟩ := Bot.parseCmd_error_help tbl s verb args e hparse
  subst hv
  exact Bot.dispatch_help tbl owner iter rdb rec args userID userEmail userName hget

/-- C12 for a subscribed user who sends `skip now`. -/
theorem C12_rejected_input_gets_help_witness :
    Bot.parseCmd (fun c => c) "skip now"
        = .ok ("help", [], some (.parsingErr "the user issued SKIP with malformed arguments"))
    ∧ Bot.dispatch (fun c => c) "the owner" GoMap.keys
        (Bot.constStore (Bot.sampleRecurser Bot.blankSchedule []) none)
        "help" [] "7" "al@example.org" "Al"
      = .ok { response := Bot.helpMessage, err := none, call := .none } :=
  ⟨rfl, C12_rejected_input_gets_help (fun c => c) "the owner" GoMap.keys
    (Bot.constStore (Bot.sampleRecurser Bot.blankSchedule []) none)
    (Bot.sampleRecurser Bot.blankSchedule []) "skip now" "help" [] _ "7" "al@example.org" "Al"
    rfl rfl⟩

namespace Bot

/-! ## The day phrase of the status text -/

theorem calendar_lower (tbl : Char → Char) : ∀ day ∈ calendar, ToLower tbl day.2 = day.1 := by
  intro day h
  simp only [calendar, List.mem_cons, List.mem_singleton, List.not_mem_nil, or_false] at h
  rcases h with h | h | h | h | h | h | h <;> subst h <;> rfl

theorem calendar_typed (schedule : GoMap Iface) (h : scheduleTyped schedule) :
    ∀ day ∈ calendar, ∃ b, GoMap.get? schedule day.1 = some (.bool b) := by
  intro day hd
  apply h
  simp only [calendar, List.mem_cons, List.mem_singleton, List.not_mem_nil, or_false] at hd
  rcases hd with hd | hd | hd | hd | hd | hd | hd <;> subst hd <;> decide

/-- The loop that collects the active days, on any list of days given with their
keys: when every key holds a bool, it ends without a panic in the days whose key
holds true, in the order of the list. -/
theorem activeDays_pairs (tbl : Char → Char) (schedule : GoMap Iface) :
    ∀ days : List (String × String),
      (∀ day ∈ days, ToLower tbl day.2 = day.1) →
      (∀ day ∈ days, ∃ b, GoMap.get? schedule day.1 = some (.bool b)) →
      activeDays tbl schedule (days.map Prod.snd)
        = .ok ((days.filter
            (fun day => decide (GoMap.get? schedule day.1 = some (.bool true)))).map Prod.snd) := by
  intro days
  induction days with
  | nil => intro _ _; rfl
  | cons day rest ih =>
    intro hlow htyped
    obtain ⟨b, hb⟩ := htyped day (by simp)
    have ih1 := ih (fun d hd => hlow d (by simp [hd])) (fun d hd => htyped d (by simp [hd]))
    rw [List.map_cons, activeDays, hlow day (by simp), hb]
    simp only [ih1]
    cases b <;> simp [List.filter_cons, hb]

/-- The active days of the `status` case are the days flagged true, in calendar
order. -/
theorem activeDays_status (tbl : Char → Char) (schedule : GoMap Iface)
    (h : scheduleTyped schedule) :
    activeDays tbl schedule statusDaysList = .ok (trueDays schedule) :=
  activeDays_pairs tbl schedule calendar (calendar_lower tbl) (calendar_typed schedule h)

theorem scheduleStr_single (d : String) : scheduleStr [d] = .ok (d ++ "s") := by
  simp [scheduleStr, scheduleStrLoop, String.empty_append]

theorem scheduleStrLoop_append (x : String) : ∀ (days : List String) (acc : String),
    scheduleStrLoop acc days ++ x = acc ++ commaJoin (days.map plural ++ [x]) := by
  intro days
  induction days with
  | nil => intro acc; rfl
  | cons d rest ih =>
    intro acc
    rw [scheduleStrLoop, ih]
    have hs : ("s, " : String) = "s" ++ ", " := rfl
    cases rest with
    | nil =>
      simp only [List.map_nil, List.nil_append, List.map_cons, List.cons_append, commaJoin,
        plural, hs, String.append_assoc]
    | cons d2 rest2 =>
      simp only [List.map_cons, List.cons_append, commaJoin, plural, hs, String.append_assoc]
      rfl

/-- The schedule phrase for two or more days: every day but the last followed by
`s, `, then `and`, the last day and `s`; that is, the plurals comma-joined with `and`
before the last. -/
theorem scheduleStr_append (init : List String) (last : String) (h : init ≠ []) :
    scheduleStr (init ++ [last])
      = .ok (commaJoin (init.map plural ++ ["and " ++ plural last])) := by
  have hlen : (init ++ [last]).length = init.length + 1 := by simp
  have hpos : 0 < init.length := List.length_pos.mpr h
  unfold scheduleStr
  rw [if_neg (by omega)]
  simp only [hlen, Nat.add_sub_cancel, List.take_left', gt_iff_lt]
  rw [if_pos (by omega)]
  have hget : (init ++ [last]).getD init.length "" = last := by
    simp [List.getD_eq_getElem?_getD]
  rw [hget, String.append_assoc, String.append_assoc, ← plural,
    scheduleStrLoop_append, String.empty_append]

theorem statusResponse_eq (tbl : Char → Char) (keyOrder : List String) (rec : Recurser)
    (h : scheduleTyped rec.schedule) :
    statusResponse tbl keyOrder rec
      = match scheduleStr (trueDays rec.schedule) with
        | .error p => .error p
        | .ok schedStr =>
          .ok (statusText rec.name schedStr (streamsStr rec.streams keyOrder)
            (skipFragment rec.isSkippingTomorrow)) := by
  unfold statusResponse
  simp only [activeDays_status tbl rec.schedule h]
  rfl

/-- The `status` case on a subscribed record. -/
theorem dispatch_status (tbl : Char → Char) (owner : String) (iter : GoMap Int → List String)
    (rdb : RecurserDB) (rec : Recurser) (args : List String)
    (userID userEmail userName : String)
    (hget : rdb.GetByUserID userID userEmail userName = .ok rec)
    (hsub : rec.isSubscribed = true) :
    dispatch tbl owner iter rdb "status" args userID userEmail userName
      = match statusResponse tbl (iter rec.streams) rec with
        | .error p => .error p
        | .ok response => .ok { response := response, err := none, call := .none } := by
  unfold dispatch
  rw [hget]
  have hc : switchCase "status" = .status := rfl
  simp only [hc, hsub]
  rfl

end Bot

namespace Legacy

theorem legacy_activeDays_pairs (tbl : Char → Char) (recurser : Doc)
    (schedule : GoMap Bot.Iface)
    (hs : GoMap.get? recurser "schedule" = some (.map schedule)) :
    ∀ days : List (String × String),
      (∀ day ∈ days, Bot.ToLower tbl day.2 = day.1) →
      (∀ day ∈ days, ∃ b, GoMap.get? schedule day.1 = some (.bool b)) →
      activeDays tbl recurser (days.map Prod.snd)
        = .ok ((days.filter
            (fun day => decide (GoMap.get? schedule day.1 = some (.bool true)))).map Prod.snd) := by
  intro days
  induction days with
  | nil => intro _ _; rfl
  | cons day rest ih =>
    intro hlow htyped
    obtain ⟨b, hb⟩ := htyped day (by simp)
    have ih1 := ih (fun d hd => hlow d (by simp [hd])) (fun d hd => htyped d (by simp [hd]))
    rw [List.map_cons, activeDays, hs]
    simp only [hlow day (by simp), hb, ih1]
    cases b <;> simp [List.filter_cons, hb]

/-- The older `status` case on the document of a subscribed user whose schedule and
skip flag have the expected types. -/
theorem legacy_dispatch_status (tbl : Char → Char) (client : Client) (doc : Doc)
    (schedule : GoMap Bot.Iface) (skipping : Bool) (args : List String)
    (userID userName : String)
    (hget : client.Get userID = firestoreGet (some doc))
    (hsched : GoMap.get? doc "schedule" = some (.map schedule))
    (hskip : GoMap.get? doc "isSkippingTomorrow" = some (.val (.bool skipping)))
    (htyped : Bot.scheduleTyped schedule) :
    dispatch tbl client "status" args userID userName
      = match Bot.scheduleStr (Bot.trueDays schedule) with
        | .error p => .error p
        | .ok schedStr =>
          .ok { response := statusText userName schedStr (skipFragment skipping),
                err := none, call := .none } := by
  have hc : switchCase "status" = .status := rfl
  have h1 : GoMap.get? (GoMap.set doc "name" (.val (.str userName))) "schedule"
      = some (.map schedule) := by
    rw [GoMap.get?_set_ne _ _ _ _ (by decide), hsched]
  have h2 : GoMap.get? (GoMap.set doc "name" (.val (.str userName))) "isSkippingTomorrow"
      = some (.val (.bool skipping)) := by
    rw [GoMap.get?_set_ne _ _ _ _ (by decide), hskip]
  have h3 : GoMap.get? (GoMap.set doc "name" (.val (.str userName))) "name"
      = some (.val (.str userName)) := GoMap.get?_set_self _ _ _
  have hact := legacy_activeDays_pairs tbl (GoMap.set doc "name" (.val (.str userName)))
    schedule h1 Bot.calendar (Bot.calendar_lower tbl) (Bot.calendar_typed schedule htyped)
  have hstat : statusResponse tbl (GoMap.set doc "name" (.val (.str userName)))
      = match Bot.scheduleStr (Bot.trueDays schedule) with
        | .error p => .error p
        | .ok schedStr => .ok (statusText userName schedStr (skipFragment skipping)) := by
    unfold statusResponse
    simp only [h2, h3]
    have hact1 : activeDays tbl (GoMap.set doc "name" (.val (.str userName)))
        Bot.statusDaysList = .ok (Bot.trueDays schedule) := hact
    simp only [hact1]
    cases Bot.scheduleStr (Bot.trueDays schedule) <;> rfl
  unfold dispatch
  rw [hget]
  simp only [firestoreGet, dispatchBody, hc, Option.isSome_some, Bool.true_eq_false,
    ↓reduceIte, hstat]
  cases Bot.scheduleStr (Bot.trueDays schedule) <;> rfl

end Legacy

namespace Bot

/-- For every subscribed record whose seven weekday keys hold bools, none of them
true, the `status` case panics on the slice of the empty list of active days. -/
theorem dispatch_status_no_days (tbl : Char → Char) (owner : String)
    (iter : GoMap Int → List String) (rdb : RecurserDB) (rec : Recurser)
    (args : List String) (userID userEmail userName : String)
    (hget : rdb.GetByUserID userID userEmail userName = .ok rec)
    (hsub : rec.isSubscribed = true)
    (htyped : scheduleTyped rec.schedule)
    (hnone : trueDays rec.schedule = []) :
    dispatch tbl owner iter rdb "status" args userID userEmail userName
      = .error .sliceBounds := by
  rw [dispatch_status tbl owner iter rdb rec args userID userEmail userName hget hsub,
    statusResponse_eq tbl _ rec htyped, hnone]
  rfl

end Bot

/-- C13, the code as it is: for a subscribed record whose schedule has all seven days
false, `dispatch` with the verb `status` does not return a response: the slice
`schedule[:len(schedule)-1]` of the empty list of active days panics, in `dispatch.go`
and in `pairing-bot.go`. -/
theorem C13_status_without_days_panics :
    Bot.dispatch (fun c => c) "the owner" GoMap.keys
        (Bot.constStore (Bot.sampleRecurser Bot.blankSchedule []) none)
        "status" [] "7" "al@example.org" "Al"
      = .error .sliceBounds
    ∧ Legacy.dispatch (fun c => c)
        (Legacy.constClient (some (Legacy.sampleDoc Bot.blankSchedule false)) none)
        "status" [] "7" "Al"
      = .error .sliceBounds := by
  constructor
  · rw [Bot.dispatch_status (fun c => c) "the owner" GoMap.keys _
      (Bot.sampleRecurser Bot.blankSchedule []) [] "7" "al@example.org" "Al" rfl rfl,
      Bot.statusResponse_eq (fun c => c) _ _ (by decide)]
    rfl
  · rw [Legacy.legacy_dispatch_status (fun c => c) _ (Legacy.sampleDoc Bot.blankSchedule false)
      Bot.blankSchedule false [] "7" "Al" rfl rfl rfl (by decide)]
    rfl

namespace Bot

theorem trueDays_sublist (schedule : GoMap Iface) :
    (trueDays schedule).Sublist statusDaysList :=
  (List.filter_sublist calendar).map Prod.snd

theorem mem_trueDays (schedule : GoMap Iface) (day : String × String) (h : day ∈ calendar) :
    day.2 ∈ trueDays schedule ↔ GoMap.get? schedule day.1 = some (.bool true) := by
  simp only [calendar, List.mem_cons, List.mem_singleton, List.not_mem_nil, or_false] at h
  rcases h with h | h | h | h | h | h | h <;> subst h <;>
    simp [trueDays, calendar, List.mem_filter]

/-- The days flagged true after `schedule` depend only on which days are among the
args, not on their order or repetition. -/
theorem trueDays_populate (days : List String) :
    trueDays (populateSchedule blankSchedule days)
      = (calendar.filter (fun day => decide (day.1 ∈ days))).map Prod.snd := by
  unfold trueDays
  congr 1
  apply List.filter_congr
  intro day hd
  have hmem : day.1 ∈ daysList := by
    simp only [calendar, List.mem_cons, List.mem_singleton, List.not_mem_nil, or_false] at hd
    rcases hd with hd | hd | hd | hd | hd | hd | hd <;> subst hd <;> decide
  rw [(newSchedule_spec days).1 day.1 hmem]
  by_cases h : day.1 ∈ days <;> simp [h]

theorem scheduleStr_two (d1 d2 : String) :
    scheduleStr [d1, d2] = .ok (d1 ++ "s, and " ++ d2 ++ "s") := by
  have h := scheduleStr_append [d1] d2 (by simp)
  simp only [List.singleton_append, List.map_cons, List.map_nil, commaJoin, plural] at h
  rw [h]
  have hs : ("s, and " : String) = "s" ++ ", " ++ "and " := rfl
  simp only [hs, String.append_assoc]

end Bot

/-- C14, the code as it is: with Monday and Tuesday set true the day phrase of the
status response is `Mondays, and Tuesdays`, with a comma, and so the response is not
the one with `Mondays and Tuesdays`. -/
theorem C14_two_days_have_comma :
    Bot.dispatch (fun c => c) "the owner" GoMap.keys
        (Bot.constStore
          (Bot.sampleRecurser (Bot.populateSchedule Bot.blankSchedule ["monday", "tuesday"]) [])
          none)
        "status" [] "7" "al@example.org" "Al"
      = .ok { response := Bot.statusText "Al" "Mondays, and Tuesdays" "" " not ",
              err := none, call := .none }
    ∧ Bot.statusText "Al" "Mondays, and Tuesdays" "" " not "
      ≠ Bot.statusText "Al" ("Monday" ++ "s and " ++ "Tuesday" ++ "s") "" " not " := by
  constructor
  · rw [Bot.dispatch_status (fun c => c) "the owner" GoMap.keys _
      (Bot.sampleRecurser (Bot.populateSchedule Bot.blankSchedule ["monday", "tuesday"]) []) []
      "7" "al@example.org" "Al" rfl rfl,
      Bot.statusResponse_eq _ _ _ (by decide)]
    rfl
  · decide

/-- C14 as amended: for every subscribed record whose schedule has exactly two weekdays
set true, `d1` before `d2` in calendar order, the day phrase of the status response is
`<d1>s, and <d2>s`, with a comma after the first day. Proved for `dispatch.go` and for
`pairing-bot.go`. -/
theorem C14_two_days_phrase (tbl : Char → Char) (owner : String)
    (iter : GoMap Int → List String) (rdb : Bot.RecurserDB) (rec : Bot.Recurser)
    (client : Legacy.Client) (doc : Legacy.Doc) (schedule : GoMap Bot.Iface) (skipping : Bool)
    (args : List String) (userID userEmail userName d1 d2 : String)
    (hget : rdb.GetByUserID userID userEmail userName = .ok rec)
    (hsub : rec.isSubscribed = true)
    (htyped : Bot.scheduleTyped rec.schedule)
    (htwo : Bot.trueDays rec.schedule = [d1, d2])
    (hcget : client.Get userID = Legacy.firestoreGet (some doc))
    (hsched : GoMap.get? doc "schedule" = some (.map schedule))
    (hskip : GoMap.get? doc "isSkippingTomorrow" = some (.val (.bool skipping)))
    (hctyped : Bot.scheduleTyped schedule)
    (hctwo : Bot.trueDays schedule = [d1, d2]) :
    Bot.dispatch tbl owner iter rdb "status" args userID userEmail userName
      = .ok { response :=
                Bot.statusText rec.name (d1 ++ "s, and " ++ d2 ++ "s")
                  (Bot.streamsStr rec.streams (iter rec.streams))
                  (Bot.skipFragment rec.isSkippingTomorrow),
              err := none, call := .none }
    ∧ Legacy.dispatch tbl client "status" args userID userName
      = .ok { response :=
                Legacy.statusText userName (d1 ++ "s, and " ++ d2 ++ "s")
                  (Legacy.skipFragment skipping),
              err := none, call := .none }
    ∧ List.Sublist [d1, d2] Bot.statusDaysList := by
  refine ⟨?_, ?_, ?_⟩
  · rw [Bot.dispatch_status tbl owner iter rdb rec args userID userEmail userName hget hsub,
      Bot.statusResponse_eq tbl _ rec htyped, htwo, Bot.scheduleStr_two]
  · rw [Legacy.legacy_dispatch_status tbl client doc schedule skipping args userID userName
      hcget hsched hskip hctyped, hctwo, Bot.scheduleStr_two]
  · rw [← htwo]
    exact Bot.trueDays_sublist rec.schedule

/-- C14 as amended, for Monday and Tuesday. -/
theorem C14_two_days_phrase_witness :
    Bot.dispatch (fun c => c) "the owner" GoMap.keys
        (Bot.constStore
          (Bot.sampleRecurser (Bot.populateSchedule Bot.blankSchedule ["monday", "tuesday"]) [])
          none)
        "status" [] "7" "al@example.org" "Al"
      = .ok { response :=
                Bot.statusText "Al" ("Monday" ++ "s, and " ++ "Tuesday" ++ "s")
                  (Bot.streamsStr [] (GoMap.keys ([] : GoMap Int)))
                  (Bot.skipFragment false),
              err := none, call := .none }
    ∧ Legacy.dispatch (fun c => c)
        (Legacy.constClient
          (some (Legacy.sampleDoc
            (Bot.populateSchedule Bot.blankSchedule ["monday", "tuesday"]) false)) none)
        "status" [] "7" "Al"
      = .ok { response :=
                Legacy.statusText "Al" ("Monday" ++ "s, and " ++ "Tuesday" ++ "s")
                  (Legacy.skipFragment false),
              err := none, call := .none }
    ∧ List.Sublist ["Monday", "Tuesday"] Bot.statusDaysList :=
  C14_two_days_phrase (fun c => c) "the owner" GoMap.keys
    (Bot.constStore
      (Bot.sampleRecurser (Bot.populateSchedule Bot.blankSchedule ["monday", "tuesday"]) [])
      none)
    (Bot.sampleRecurser (Bot.populateSchedule Bot.blankSchedule ["monday", "tuesday"]) [])
    (Legacy.constClient
      (some (Legacy.sampleDoc
        (Bot.populateSchedule Bot.blankSchedule ["monday", "tuesday"]) false)) none)
    (Legacy.sampleDoc (Bot.populateSchedule Bot.blankSchedule ["monday", "tuesday"]) false)
    (Bot.populateSchedule Bot.blankSchedule ["monday", "tuesday"]) false
    [] "7" "al@example.org" "Al" "Monday" "Tuesday" rfl rfl (by decide) rfl rfl rfl rfl
    (by decide) rfl

/-- C15: for every subscribed record with at least one weekday set true, the day
phrase of the status response is made of the days flagged true (`trueDays`: each once,
by their capitalised names, in the order Monday to Sunday), each suffixed with `s`:
with one day it is `<Day>s`, with three or more days the plurals are joined by commas
with `and` before the last. The days flagged true after `schedule` do not depend on
the order of its args. -/
theorem C15_day_phrase_lists_true_days (tbl : Char → Char) (owner : String)
    (iter : GoMap Int → List String) (rdb : Bot.RecurserDB) (rec : Bot.Recurser)
    (args : List String) (userID userEmail userName : String)
    (hget : rdb.GetByUserID userID userEmail userName = .ok rec)
    (hsub : rec.isSubscribed = true)
    (htyped : Bot.scheduleTyped rec.schedule)
    (hne : Bot.trueDays rec.schedule ≠ []) :
    (∃ phrase,
      Bot.dispatch tbl owner iter rdb "status" args userID userEmail userName
        = .ok { response :=
                  Bot.statusText rec.name phrase
                    (Bot.streamsStr rec.streams (iter rec.streams))
                    (Bot.skipFragment rec.isSkippingTomorrow),
                err := none, call := .none }
      ∧ (∀ d, Bot.trueDays rec.schedule = [d] → phrase = d ++ "s")
      ∧ (∀ init last, Bot.trueDays rec.schedule = init ++ [last] → 2 ≤ init.length →
          phrase = Bot.commaJoin (init.map Bot.plural ++ ["and " ++ Bot.plural last])))
    ∧ (Bot.trueDays rec.schedule).Sublist Bot.statusDaysList
    ∧ (∀ day ∈ Bot.calendar,
        day.2 ∈ Bot.trueDays rec.schedule ↔ GoMap.get? rec.schedule day.1 = some (.bool true))
    ∧ (∀ B1 B2 : List String, B1.Perm B2 →
        Bot.trueDays (Bot.populateSchedule Bot.blankSchedule B1)
          = Bot.trueDays (Bot.populateSchedule Bot.blankSchedule B2)) := by
  refine ⟨?_, Bot.trueDays_sublist _, Bot.mem_trueDays _, ?_⟩
  · rw [Bot.dispatch_status tbl owner iter rdb rec args userID userEmail userName hget hsub,
      Bot.statusResponse_eq tbl _ rec htyped]
    obtain ⟨init, last, hl⟩ : ∃ init last, Bot.trueDays rec.schedule = init ++ [last] :=
      ⟨_, _, (List.dropLast_append_getLast hne).symm⟩
    by_cases hi : init = []
    · subst hi
      rw [hl, List.nil_append, Bot.scheduleStr_single]
      refine ⟨last ++ "s", rfl, ?_, ?_⟩
      · intro d hd
        cases hd
        rfl
      · intro init1 last1 h1 hlen
        have := congrArg List.length h1
        simp only [List.length_append, List.length_cons, List.length_nil] at this
        omega
    · rw [hl, Bot.scheduleStr_append init last hi]
      refine ⟨_, rfl, ?_, ?_⟩
      · intro d hd
        have := congrArg List.length hd
        have hpos := List.length_pos.mpr hi
        simp only [List.length_append, List.length_cons, List.length_nil] at this
        omega
      · intro init1 last1 h1 _
        obtain ⟨h2, h3⟩ := List.append_inj' h1 rfl
        cases h3
        rw [h2]
  · intro B1 B2 hperm
    rw [Bot.trueDays_populate, Bot.trueDays_populate]
    congr 1
    apply List.filter_congr
    intro day _
    simp [hperm.mem_iff]

/-- C15 for the schedule left by `schedule friday monday wednesday`: the hypotheses
hold, and the day phrase is `Mondays, Wednesdays, and Fridays`. -/
theorem C15_day_phrase_lists_true_days_witness :
    ((∃ phrase,
      Bot.dispatch (fun c => c) "the owner" GoMap.keys
          (Bot.constStore (Bot.sampleRecurser
            (Bot.populateSchedule Bot.blankSchedule ["friday", "monday", "wednesday"]) []) none)
          "status" [] "7" "al@example.org" "Al"
        = .ok { response :=
                  Bot.statusText "Al" phrase (Bot.streamsStr [] (GoMap.keys ([] : GoMap Int)))
                    (Bot.skipFragment false),
                err := none, call := .none }
      ∧ (∀ d, Bot.trueDays
            (Bot.populateSchedule Bot.blankSchedule ["friday", "monday", "wednesday"]) = [d] →
          phrase = d ++ "s")
      ∧ (∀ init last, Bot.trueDays
            (Bot.populateSchedule Bot.blankSchedule ["friday", "monday", "wednesday"])
              = init ++ [last] → 2 ≤ init.length →
          phrase = Bot.commaJoin (init.map Bot.plural ++ ["and " ++ Bot.plural last])))
    ∧ (Bot.trueDays
        (Bot.populateSchedule Bot.blankSchedule ["friday", "monday", "wednesday"])).Sublist
          Bot.statusDaysList
    ∧ (∀ day ∈ Bot.calendar,
        day.2 ∈ Bot.trueDays
            (Bot.populateSchedule Bot.blankSchedule ["friday", "monday", "wednesday"])
          ↔ GoMap.get?
              (Bot.populateSchedule Bot.blankSchedule ["friday", "monday", "wednesday"]) day.1
            = some (.bool true))
    ∧ (∀ B1 B2 : List String, B1.Perm B2 →
        Bot.trueDays (Bot.populateSchedule Bot.blankSchedule B1)
          = Bot.trueDays (Bot.populateSchedule Bot.blankSchedule B2)))
    ∧ Bot.dispatch (fun c => c) "the owner" GoMap.keys
        (Bot.constStore (Bot.sampleRecurser
          (Bot.populateSchedule Bot.blankSchedule ["friday", "monday", "wednesday"]) []) none)
        "status" [] "7" "al@example.org" "Al"
      = .ok { response := Bot.statusText "Al" "Mondays, Wednesdays, and Fridays" "" " not ",
              err := none, call := .none } :=
  ⟨C15_day_phrase_lists_true_days (fun c => c) "the owner" GoMap.keys
    (Bot.constStore (Bot.sampleRecurser
      (Bot.populateSchedule Bot.blankSchedule ["friday", "monday", "wednesday"]) []) none)
    (Bot.sampleRecurser
      (Bot.populateSchedule Bot.blankSchedule ["friday", "monday", "wednesday"]) [])
    [] "7" "al@example.org" "Al" rfl rfl (by decide) (by decide),
   by
    rw [Bot.dispatch_status (fun c => c) "the owner" GoMap.keys _
      (Bot.sampleRecurser
        (Bot.populateSchedule Bot.blankSchedule ["friday", "monday", "wednesday"]) []) []
      "7" "al@example.org" "Al" rfl rfl,
      Bot.statusResponse_eq _ _ _ (by decide)]
    rfl⟩

namespace Bot

/-! ## The streams phrase of the status text -/

/-- The loop that builds the streams phrase only appends to what it has built. -/
theorem streamsStrLoop_append (recStreams : GoMap Int) (n : Nat) :
    ∀ (streams : List String) (i : Nat) (acc : String),
      ∃ rest, streamsStrLoop recStreams n i streams acc = acc ++ rest := by
  intro streams
  induction streams with
  | nil => intro i acc; exact ⟨"", (String.append_empty acc).symm⟩
  | cons stream more ih =>
    intro i acc
    unfold streamsStrLoop
    by_cases hany : stream = "any"
    · rw [if_pos hany]
      obtain ⟨rest, hrest⟩ := ih (i + 1)
        (acc ++ fmtInt (streamCount recStreams stream) ++ " pairings with any recurser")
      exact ⟨_, by rw [hrest, String.append_assoc, String.append_assoc]⟩
    · rw [if_neg hany]
      simp only
      have hs2 : ∃ y,
          (if (i : Int) = (n : Int) - 1 then
            (if acc ≠ "" then acc ++ ", " else acc) ++ "and "
          else (if acc ≠ "" then acc ++ ", " else acc)) = acc ++ y := by
        have hs1 : ∃ x, (if acc ≠ "" then acc ++ ", " else acc) = acc ++ x := by
          split
          · exact ⟨", ", rfl⟩
          · exact ⟨"", (String.append_empty acc).symm⟩
        obtain ⟨x, hx⟩ := hs1
        rw [hx]
        split
        · exact ⟨x ++ "and ", by rw [String.append_assoc]⟩
        · exact ⟨x, rfl⟩
      obtain ⟨y, hy⟩ := hs2
      rw [hy]
      obtain ⟨rest, hrest⟩ := ih (i + 1)
        (acc ++ y ++ fmtInt (streamCount recStreams stream)
          ++ " pairings with a recurser from stream " ++ stream)
      rw [hrest]
      refine ⟨y ++ (fmtInt (streamCount recStreams stream)
        ++ (" pairings with a recurser from stream " ++ (stream ++ rest))), ?_⟩
      simp only [String.append_assoc]

/-- With a positive count for `any`, the streams phrase begins with the item of
`any`, whatever the order in which the keys are enumerated. -/
theorem streamsStr_any_first (recStreams : GoMap Int) (keyOrder : List String) (n : Int)
    (hany : GoMap.get? recStreams "any" = some n) (hpos : 0 < n) :
    ∃ rest, streamsStr recStreams keyOrder
      = fmtInt n ++ " pairings with any recurser" ++ rest := by
  have hcount : streamCount recStreams "any" = n := by simp [streamCount, hany]
  unfold streamsStr streamsList
  simp only [hcount, gt_iff_lt, hpos, ↓reduceIte, List.singleton_append]
  unfold streamsStrLoop
  rw [if_pos rfl, hcount, String.empty_append]
  exact streamsStrLoop_append _ _ _ _ _

/-- The list of streams to print depends on the enumeration of the keys only through
the order of the topics other than `any`; with at most one such topic it does not
depend on it at all. -/
theorem streamsList_perm (recStreams : GoMap Int) (k1 k2 : List String) (h : k1.Perm k2)
    (hone : (k2.filter (fun s => s ≠ "any")).length ≤ 1) :
    streamsList recStreams k1 = streamsList recStreams k2 := by
  unfold streamsList
  congr 1
  have hp := h.filter (fun s => decide (s ≠ "any"))
  match hk : k2.filter (fun s => decide (s ≠ "any")), hone with
  | [], _ =>
    rw [hk] at hp
    exact hp.eq_nil
  | [a], _ =>
    rw [hk] at hp
    exact List.perm_singleton.mp hp
  | a :: b :: rest, hone =>
    simp at hone

end Bot

/-- C16, the code as it is: with the streams `any: 0, pairing: 1`, which
`streams any 0 pairing 1` stores, the streams phrase of the status response is
`and 1 pairings with a recurser from stream pairing`; it does not begin with
`0 pairings with any recurser`. -/
theorem C16_any_with_zero_count_dropped :
    Bot.dispatch (fun c => c) "the owner" GoMap.keys
        (Bot.constStore
          (Bot.sampleRecurser (Bot.populateSchedule Bot.blankSchedule ["monday"])
            [("any", 0), ("pairing", 1)]) none)
        "status" [] "7" "al@example.org" "Al"
      = .ok { response :=
                Bot.statusText "Al" "Mondays" "and 1 pairings with a recurser from stream pairing"
                  " not ",
              err := none, call := .none }
    ∧ ¬ ∃ rest, ("and 1 pairings with a recurser from stream pairing" : String)
        = Bot.fmtInt 0 ++ " pairings with any recurser" ++ rest := by
  constructor
  · rw [Bot.dispatch_status (fun c => c) "the owner" GoMap.keys _
      (Bot.sampleRecurser (Bot.populateSchedule Bot.blankSchedule ["monday"])
        [("any", 0), ("pairing", 1)]) []
      "7" "al@example.org" "Al" rfl rfl,
      Bot.statusResponse_eq _ _ _ (by decide)]
    rfl
  · rintro ⟨rest, h⟩
    have h0 : Bot.fmtInt 0 = "0" := by decide
    rw [h0] at h
    have hd := congrArg (fun s : String => s.data.head?) h
    simp [String.data_append] at hd

/-- C16 as amended: for every subscribed record whose streams mapping has the topic
`any` with a positive count `n`, the streams phrase of the status response begins
with `<n> pairings with any recurser`, before every other topic. -/
theorem C16_any_first_when_positive (tbl : Char → Char) (owner : String)
    (iter : GoMap Int → List String) (rdb : Bot.RecurserDB) (rec : Bot.Recurser)
    (args : List String) (userID userEmail userName : String) (n : Int)
    (hget : rdb.GetByUserID userID userEmail userName = .ok rec)
    (hsub : rec.isSubscribed = true)
    (htyped : Bot.scheduleTyped rec.schedule)
    (hdays : Bot.trueDays rec.schedule ≠ [])
    (hany : GoMap.get? rec.streams "any" = some n) (hpos : 0 < n) :
    ∃ dayPhrase rest,
      Bot.dispatch tbl owner iter rdb "status" args userID userEmail userName
        = .ok { response :=
                  Bot.statusText rec.name dayPhrase
                    (Bot.fmtInt n ++ " pairings with any recurser" ++ rest)
                    (Bot.skipFragment rec.isSkippingTomorrow),
                err := none, call := .none } := by
  obtain ⟨rest, hrest⟩ := Bot.streamsStr_any_first rec.streams (iter rec.streams) n hany hpos
  rw [Bot.dispatch_status tbl owner iter rdb rec args userID userEmail userName hget hsub,
    Bot.statusResponse_eq tbl _ rec htyped, hrest]
  obtain ⟨init, last, hl⟩ : ∃ init last, Bot.trueDays rec.schedule = init ++ [last] :=
    ⟨_, _, (List.dropLast_append_getLast hdays).symm⟩
  by_cases hi : init = []
  · subst hi
    rw [hl, List.nil_append, Bot.scheduleStr_single]
    exact ⟨_, rest, rfl⟩
  · rw [hl, Bot.scheduleStr_append init last hi]
    exact ⟨_, rest, rfl⟩

/-- C16 as amended, after `streams any 2 pairing 1`: the status lists
`2 pairings with any recurser` before the topic `pairing`. -/
theorem C16_any_first_when_positive_witness :
    (∃ dayPhrase rest,
      Bot.dispatch (fun c => c) "the owner" GoMap.keys
          (Bot.constStore
            (Bot.sampleRecurser (Bot.populateSchedule Bot.blankSchedule ["monday"])
              [("any", 2), ("pairing", 1)]) none)
          "status" [] "7" "al@example.org" "Al"
        = .ok { response :=
                  Bot.statusText "Al" dayPhrase
                    (Bot.fmtInt 2 ++ " pairings with any recurser" ++ rest)
                    (Bot.skipFragment false),
                err := none, call := .none })
    ∧ Bot.dispatch (fun c => c) "the owner" GoMap.keys
        (Bot.constStore
          (Bot.sampleRecurser (Bot.populateSchedule Bot.blankSchedule ["monday"])
            [("any", 2), ("pairing", 1)]) none)
        "status" [] "7" "al@example.org" "Al"
      = .ok { response :=
                Bot.statusText "Al" "Mondays"
                  "2 pairings with any recurser, and 1 pairings with a recurser from stream pairing"
                  " not ",
              err := none, call := .none } :=
  ⟨C16_any_first_when_positive (fun c => c) "the owner" GoMap.keys
    (Bot.constStore
      (Bot.sampleRecurser (Bot.populateSchedule Bot.blankSchedule ["monday"])
        [("any", 2), ("pairing", 1)]) none)
    (Bot.sampleRecurser (Bot.populateSchedule Bot.blankSchedule ["monday"])
      [("any", 2), ("pairing", 1)])
    [] "7" "al@example.org" "Al" 2 rfl rfl (by decide) (by decide) rfl (by decide),
   by
    rw [Bot.dispatch_status (fun c => c) "the owner" GoMap.keys _
      (Bot.sampleRecurser (Bot.populateSchedule Bot.blankSchedule ["monday"])
        [("any", 2), ("pairing", 1)]) []
      "7" "al@example.org" "Al" rfl rfl,
      Bot.statusResponse_eq _ _ _ (by decide)]
    rfl⟩

/-- C17, the code as it is: for the streams `math: 1, pairing: 2` the status response
depends on the order in which `range rec.streams` enumerates the two keys: the two
enumerations give two different response texts. -/
theorem C17_status_depends_on_key_order :
    Bot.dispatch (fun c => c) "the owner" (fun _ => ["math", "pairing"])
        (Bot.constStore
          (Bot.sampleRecurser (Bot.populateSchedule Bot.blankSchedule ["monday"])
            [("math", 1), ("pairing", 2)]) none)
        "status" [] "7" "al@example.org" "Al"
      = .ok { response :=
                Bot.statusText "Al" "Mondays"
                  "1 pairings with a recurser from stream math, and 2 pairings with a recurser from stream pairing"
                  " not ",
              err := none, call := .none }
    ∧ Bot.dispatch (fun c => c) "the owner" (fun _ => ["pairing", "math"])
        (Bot.constStore
          (Bot.sampleRecurser (Bot.populateSchedule Bot.blankSchedule ["monday"])
            [("math", 1), ("pairing", 2)]) none)
        "status" [] "7" "al@example.org" "Al"
      = .ok { response :=
                Bot.statusText "Al" "Mondays"
                  "2 pairings with a recurser from stream pairing, and 1 pairings with a recurser from stream math"
                  " not ",
              err := none, call := .none }
    ∧ Bot.statusText "Al" "Mondays"
        "1 pairings with a recurser from stream math, and 2 pairings with a recurser from stream pairing"
        " not "
      ≠ Bot.statusText "Al" "Mondays"
        "2 pairings with a recurser from stream pairing, and 1 pairings with a recurser from stream math"
        " not " := by
  refine ⟨?_, ?_, by decide⟩
  · rw [Bot.dispatch_status (fun c => c) "the owner" _ _
      (Bot.sampleRecurser (Bot.populateSchedule Bot.blankSchedule ["monday"])
        [("math", 1), ("pairing", 2)]) []
      "7" "al@example.org" "Al" rfl rfl,
      Bot.statusResponse_eq _ _ _ (by decide)]
    rfl
  · rw [Bot.dispatch_status (fun c => c) "the owner" _ _
      (Bot.sampleRecurser (Bot.populateSchedule Bot.blankSchedule ["monday"])
        [("math", 1), ("pairing", 2)]) []
      "7" "al@example.org" "Al" rfl rfl,
      Bot.statusResponse_eq _ _ _ (by decide)]
    rfl

/-- C17 as amended: for every subscribed record whose streams mapping has at most one
topic other than `any`, two status renderings that enumerate the keys of the mapping
in different orders give the same result. -/
theorem C17_status_same_with_one_topic (tbl : Char → Char) (owner : String)
    (iter1 iter2 : GoMap Int → List String) (rdb : Bot.RecurserDB) (rec : Bot.Recurser)
    (args : List String) (userID userEmail userName : String)
    (hget : rdb.GetByUserID userID userEmail userName = .ok rec)
    (hsub : rec.isSubscribed = true)
    (h1 : (iter1 rec.streams).Perm (GoMap.keys rec.streams))
    (h2 : (iter2 rec.streams).Perm (GoMap.keys rec.streams))
    (hone : ((GoMap.keys rec.streams).filter (fun s => s ≠ "any")).length ≤ 1) :
    Bot.dispatch tbl owner iter1 rdb "status" args userID userEmail userName
      = Bot.dispatch tbl owner iter2 rdb "status" args userID userEmail userName := by
  have hl1 := Bot.streamsList_perm rec.streams _ _ h1 hone
  have hl2 := Bot.streamsList_perm rec.streams _ _ h2 hone
  have hstr : Bot.streamsStr rec.streams (iter1 rec.streams)
      = Bot.streamsStr rec.streams (iter2 rec.streams) := by
    unfold Bot.streamsStr
    simp only [hl1, hl2]
  rw [Bot.dispatch_status tbl owner iter1 rdb rec args userID userEmail userName hget hsub,
    Bot.dispatch_status tbl owner iter2 rdb rec args userID userEmail userName hget hsub]
  unfold Bot.statusResponse
  simp only [hstr]

/-- C17 as amended, for the streams `any: 2, pairing: 1` enumerated in the two
possible orders. -/
theorem C17_status_same_with_one_topic_witness :
    Bot.dispatch (fun c => c) "the owner" (fun _ => ["any", "pairing"])
        (Bot.constStore
          (Bot.sampleRecurser (Bot.populateSchedule Bot.blankSchedule ["monday"])
            [("any", 2), ("pairing", 1)]) none)
        "status" [] "7" "al@example.org" "Al"
      = Bot.dispatch (fun c => c) "the owner" (fun _ => ["pairing", "any"])
        (Bot.constStore
          (Bot.sampleRecurser (Bot.populateSchedule Bot.blankSchedule ["monday"])
            [("any", 2), ("pairing", 1)]) none)
        "status" [] "7" "al@example.org" "Al" :=
  C17_status_same_with_one_topic (fun c => c) "the owner" (fun _ => ["any", "pairing"])
    (fun _ => ["pairing", "any"])
    (Bot.constStore
      (Bot.sampleRecurser (Bot.populateSchedule Bot.blankSchedule ["monday"])
        [("any", 2), ("pairing", 1)]) none)
    (Bot.sampleRecurser (Bot.populateSchedule Bot.blankSchedule ["monday"])
      [("any", 2), ("pairing", 1)])
    [] "7" "al@example.org" "Al" rfl rfl (List.Perm.refl _) (List.Perm.swap _ _ _) (by decide)

namespace Legacy

/-! ## The daily selection -/

/-- A document whose skip flag is true is selected by no run of `cron`, on any
weekday. -/
theorem cron_skipping (tbl : Char → Char) (weekday : String) (doc : Doc)
    (h : GoMap.get? doc "isSkippingTomorrow" = some (.val (.bool true))) :
    cron tbl "true" weekday [doc] = some [] := by
  simp [cron, matchQuery, h]

end Legacy

/-- C18, the code as it is: a subscribed user with Tuesday and Wednesday scheduled
sends `skip tomorrow`; the stored document then has the skip flag true. `cron`, which
only queries, selects the user neither on Tuesday nor on Wednesday, although Wednesday
is scheduled and the user was selected on Wednesdays before the skip: nothing in the
sources sets the flag back to false but the command `unskip`. -/
theorem C18_skip_is_never_cleared :
    Legacy.parseCmd (fun c => c) "skip tomorrow" = .ok ("skip", ["tomorrow"], none)
    ∧ Legacy.applyCall
        (Legacy.callOf (Legacy.dispatch (fun c => c)
          (Legacy.constClient
            (some (Legacy.sampleDoc
              (Bot.populateSchedule Bot.blankSchedule ["tuesday", "wednesday"]) false)) none)
          "skip" ["tomorrow"] "7" "Al"))
        (some (Legacy.sampleDoc
          (Bot.populateSchedule Bot.blankSchedule ["tuesday", "wednesday"]) false))
      = some (Legacy.sampleDoc
          (Bot.populateSchedule Bot.blankSchedule ["tuesday", "wednesday"]) true)
    ∧ Legacy.cron (fun c => c) "true" "Wednesday"
        [Legacy.sampleDoc (Bot.populateSchedule Bot.blankSchedule ["tuesday", "wednesday"]) false]
      = some [Legacy.sampleDoc
          (Bot.populateSchedule Bot.blankSchedule ["tuesday", "wednesday"]) false]
    ∧ Legacy.cron (fun c => c) "true" "Tuesday"
        [Legacy.sampleDoc (Bot.populateSchedule Bot.blankSchedule ["tuesday", "wednesday"]) true]
      = some []
    ∧ Legacy.cron (fun c => c) "true" "Wednesday"
        [Legacy.sampleDoc (Bot.populateSchedule Bot.blankSchedule ["tuesday", "wednesday"]) true]
      = some [] := by
  refine ⟨rfl, by decide, by decide, by decide, by decide⟩

namespace Bot

/-! ## The tokens of a command are not empty -/

theorem replaceAllSpaceAux_spec : ∀ (s : List Char) (inRun : Bool),
    noDoubleSpace (replaceAllSpaceAux inRun s)
    ∧ (inRun = true → (replaceAllSpaceAux inRun s).head? ≠ some ' ') := by
  intro s
  induction s with
  | nil => intro inRun; simp [replaceAllSpaceAux, noDoubleSpace]
  | cons c cs ih =>
    intro inRun
    unfold replaceAllSpaceAux
    by_cases hc : isReSpace c = true
    · rw [if_pos hc]
      cases inRun with
      | true => simpa using ih true
      | false =>
        simp only [Bool.false_eq_true, ↓reduceIte, noDoubleSpace, false_implies, and_true]
        exact ⟨fun _ => (ih true).2 rfl, (ih true).1⟩
    · rw [if_neg hc]
      have hne : c ≠ ' ' := by
        rintro rfl
        exact hc (by decide)
      simp only [noDoubleSpace, hne, false_implies, true_and, List.head?_cons, ne_eq,
        Option.some.injEq, not_false_eq_true, implies_true, and_true]
      exact (ih false).1

theorem noDoubleSpace_dropWhile (p : Char → Bool) : ∀ l : List Char,
    noDoubleSpace l → noDoubleSpace (l.dropWhile p) := by
  intro l
  induction l with
  | nil => intro h; exact h
  | cons a rest ih =>
    intro h
    rw [List.dropWhile_cons]
    split
    · exact ih h.2
    · exact h

theorem noDoubleSpace_of_append : ∀ l1 l2 : List Char,
    noDoubleSpace (l1 ++ l2) → noDoubleSpace l1 := by
  intro l1
  induction l1 with
  | nil => intro _ _; trivial
  | cons a rest ih =>
    intro l2 h
    refine ⟨fun ha => ?_, ih l2 h.2⟩
    have h1 := h.1 ha
    cases rest with
    | nil => simp
    | cons b more => simpa using h1

theorem noDoubleSpace_map (f : Char → Char) (hf : ∀ c, f c = ' ' ↔ c = ' ') :
    ∀ l : List Char, noDoubleSpace l → noDoubleSpace (l.map f) := by
  intro l
  induction l with
  | nil => intro _; trivial
  | cons a rest ih =>
    intro h
    refine ⟨fun ha => ?_, ih h.2⟩
    have h1 := h.1 ((hf a).mp ha)
    cases rest with
    | nil => simp
    | cons b more =>
      simp only [List.head?_cons, ne_eq, Option.some.injEq, List.map_cons] at h1 ⊢
      exact fun hb => h1 ((hf b).mp hb)

theorem trimSpace_spec (s : List Char) (h : noDoubleSpace s) :
    noDoubleSpace (trimSpace s) ∧ (trimSpace s).head? ≠ some ' '
      ∧ (trimSpace s).getLast? ≠ some ' ' := by
  have heq : trimSpace s = List.rdropWhile isSpace (s.dropWhile isSpace) := rfl
  have hpre := List.rdropWhile_prefix isSpace (s.dropWhile isSpace)
  rw [heq]
  refine ⟨?_, ?_, ?_⟩
  · obtain ⟨t, ht⟩ := hpre
    apply noDoubleSpace_of_append _ t
    rw [ht]
    exact noDoubleSpace_dropWhile isSpace s h
  · intro hhead
    have hne : List.rdropWhile isSpace (s.dropWhile isSpace) ≠ [] := by
      intro h0
      rw [h0] at hhead
      simp at hhead
    have hne2 : s.dropWhile isSpace ≠ [] := by
      intro h0
      rw [h0] at hne
      simp [List.rdropWhile] at hne
    have h1 := hpre.head hne
    have h2 := List.head?_dropWhile_not isSpace s
    rw [List.head?_eq_head hne2] at h2
    rw [List.head?_eq_head hne, h1] at hhead
    simp only [Option.some.injEq] at hhead
    simp only at h2
    rw [hhead] at h2
    exact absurd h2 (by decide)
  · intro hlast
    have hne : List.rdropWhile isSpace (s.dropWhile isSpace) ≠ [] := by
      intro h0
      rw [h0] at hlast
      simp at hlast
    have h1 := List.rdropWhile_last_not isSpace (s.dropWhile isSpace) hne
    rw [List.getLast?_eq_getLast _ hne] at hlast
    simp only [Option.some.injEq] at hlast
    rw [hlast] at h1
    exact h1 (by decide)

theorem toLowerRune_space (tbl : Char → Char) (htbl : ∀ c, 128 ≤ c.toNat → tbl c ≠ ' ')
    (c : Char) : toLowerRune tbl c = ' ' ↔ c = ' ' := by
  unfold toLowerRune
  constructor
  · intro h
    by_cases h128 : c.toNat < 128
    · rw [if_pos h128] at h
      by_cases hup : 'A'.toNat ≤ c.toNat ∧ c.toNat ≤ 'Z'.toNat
      · rw [if_pos hup] at h
        exfalso
        have hA : 'A'.toNat = 65 := rfl
        have hZ : 'Z'.toNat = 90 := rfl
        rw [hA, hZ] at hup
        have : ∀ n, 97 ≤ n → n ≤ 122 → Char.ofNat n ≠ ' ' := by
          intro n h1 h2
          interval_cases n <;> decide
        exact this (c.toNat + 32) (by omega) (by omega) h
      · rw [if_neg hup] at h
        exact h
    · rw [if_neg h128] at h
      exact absurd h (htbl c (by omega))
  · rintro rfl
    rfl

theorem splitSpace_ne_nil (l : List Char) : splitSpace l ≠ [] := by
  cases l with
  | nil => simp [splitSpace]
  | cons c cs =>
    unfold splitSpace
    split
    · simp
    · split <;> simp

theorem splitSpace_pieces : ∀ l : List Char, noDoubleSpace l → l.getLast? ≠ some ' ' →
    (∀ w ∈ (splitSpace l).tail, w ≠ [])
    ∧ (l ≠ [] → l.head? ≠ some ' ' → ∀ w ∈ splitSpace l, w ≠ []) := by
  intro l
  induction l with
  | nil =>
    intro _ _
    exact ⟨by simp [splitSpace], fun h => absurd rfl h⟩
  | cons c cs ih =>
    intro hnd hlast
    have hlast_cs : cs ≠ [] → cs.getLast? ≠ some ' ' := by
      intro hcs
      cases cs with
      | nil => exact absurd rfl hcs
      | cons d ds => simpa [List.getLast?_cons_cons] using hlast
    by_cases hc : c = ' '
    · subst hc
      have hcs : cs ≠ [] := by
        rintro rfl
        simp at hlast
      have hhead : cs.head? ≠ some ' ' := hnd.1 rfl
      have hall := (ih hnd.2 (hlast_cs hcs)).2 hcs hhead
      have hsplit : splitSpace (' ' :: cs) = [] :: splitSpace cs := by
        simp [splitSpace]
      rw [hsplit]
      refine ⟨by simpa using hall, fun _ hh => ?_⟩
      simp at hh
    · have htail : ∀ w ∈ (splitSpace cs).tail, w ≠ [] := by
        by_cases hcs : cs = []
        · subst hcs
          simp [splitSpace]
        · exact (ih hnd.2 (hlast_cs hcs)).1
      obtain ⟨w, ws, hw⟩ : ∃ w ws, splitSpace cs = w :: ws := by
        cases hs : splitSpace cs with
        | nil => exact absurd hs (splitSpace_ne_nil cs)
        | cons w ws => exact ⟨w, ws, rfl⟩
      have hsplit : splitSpace (c :: cs) = (c :: w) :: ws := by
        simp [splitSpace, hc, hw]
      rw [hsplit]
      rw [hw] at htail
      refine ⟨by simpa using htail, fun _ _ x hx => ?_⟩
      simp only [List.mem_cons] at hx
      rcases hx with hx | hx
      · rw [hx]
        simp
      · exact htail x (by simpa using hx)

/-- Every token of a command other than the empty command is a non-empty string,
provided that no rune outside ASCII has the space as its lower case. -/
theorem tokens_nonempty (tbl : Char → Char) (htbl : ∀ c, 128 ≤ c.toNat → tbl c ≠ ' ')
    (s : String) (h : tokens tbl s ≠ [""]) : ∀ t ∈ tokens tbl s, t ≠ "" := by
  have h1 := (replaceAllSpaceAux_spec s.data false).1
  obtain ⟨h2, h3, h4⟩ := trimSpace_spec (replaceAllSpace s.data) h1
  have hf := toLowerRune_space tbl htbl
  have h5 : noDoubleSpace (toLower tbl (trimSpace (replaceAllSpace s.data))) :=
    noDoubleSpace_map _ hf _ h2
  have h6 : (toLower tbl (trimSpace (replaceAllSpace s.data))).head? ≠ some ' ' := by
    unfold toLower
    rw [List.head?_map]
    intro hh
    cases hx : (trimSpace (replaceAllSpace s.data)).head? with
    | none => rw [hx] at hh; simp at hh
    | some x =>
      rw [hx] at hh
      simp only [Option.map_some', Option.some.injEq] at hh
      exact h3 (by rw [hx, (hf x).mp hh])
  have h7 : (toLower tbl (trimSpace (replaceAllSpace s.data))).getLast? ≠ some ' ' := by
    unfold toLower
    rw [List.getLast?_map]
    intro hh
    cases hx : (trimSpace (replaceAllSpace s.data)).getLast? with
    | none => rw [hx] at hh; simp at hh
    | some x =>
      rw [hx] at hh
      simp only [Option.map_some', Option.some.injEq] at hh
      exact h4 (by rw [hx, (hf x).mp hh])
  have hne : toLower tbl (trimSpace (replaceAllSpace s.data)) ≠ [] := by
    intro h0
    apply h
    unfold tokens
    rw [h0]
    rfl
  have hall := (splitSpace_pieces _ h5 h7).2 hne h6
  intro t ht
  unfold tokens at ht
  obtain ⟨w, hw, rfl⟩ := List.mem_map.mp ht
  intro hempty
  exact hall w hw (congrArg String.data hempty)

end Bot

namespace Bot

/-- A command that `parseCmd` returns without error is the token list itself: the
first token as the verb, the others as the args. -/
theorem parseTokens_ok_eq (cmd : List String) (verb : String) (args : List String)
    (h : parseTokens cmd = .ok (verb, args, none)) : cmd = verb :: args := by
  match cmd, h with
  | [], h => cases h
  | c0 :: rest, h =>
    by_cases hc : contains cmdList c0 = true
    · have hmem := (contains_iff _ _).mp hc
      simp only [cmdList, List.mem_cons, List.mem_singleton, List.not_mem_nil, or_false] at hmem
      have hno : c0 = "subscribe" ∨ c0 = "unsubscribe" ∨ c0 = "help" ∨ c0 = "status" →
          c0 :: rest = verb :: args := by
        intro hv
        by_cases ha : rest = []
        · subst ha
          rw [(parseTokens_noargs c0 hv []).1 rfl] at h
          cases h
          rfl
        · obtain ⟨e, he⟩ := (parseTokens_noargs c0 hv rest).2 ha
          rw [he] at h
          cases h
      have hsk : c0 = "skip" ∨ c0 = "unskip" → c0 :: rest = verb :: args := by
        intro hv
        by_cases ha : rest = ["tomorrow"]
        · subst ha
          rw [(parseTokens_skip c0 hv ["tomorrow"]).1 rfl] at h
          cases h
          rfl
        · obtain ⟨e, he⟩ := (parseTokens_skip c0 hv rest).2 ha
          rw [he] at h
          cases h
      rcases hmem with h1 | h1 | h1 | h1 | h1 | h1 | h1 | h1
      · exact hno (Or.inl h1)
      · exact hno (Or.inr (Or.inl h1))
      · exact hno (Or.inr (Or.inr (Or.inl h1)))
      · subst h1
        obtain ⟨e, he⟩ := parseTokens_schedule rest
        rw [he] at h
        cases h
      · subst h1
        by_cases ha : streamsArgsOk rest
        · rw [(parseTokens_streams rest).1 ha] at h
          cases h
          rfl
        · obtain ⟨e, he⟩ := (parseTokens_streams rest).2 ha
          rw [he] at h
          cases h
      · exact hsk (Or.inl h1)
      · exact hsk (Or.inr h1)
      · exact hno (Or.inr (Or.inr (Or.inr h1)))
    · rw [parseTokens_cons, if_neg (fun hh => hc hh.1), if_neg (fun hh => hc hh.1)] at h
      cases h

/-- A token accepted by `strconv.Atoi` has a value in the range of a 64-bit `int`. -/
theorem Atoi_range (s : String) (h : (Atoi s).2 = none) :
    -(2 : Int) ^ 63 ≤ (Atoi s).1 ∧ (Atoi s).1 ≤ (2 : Int) ^ 63 - 1 := by
  have key : ∀ (neg : Bool) (ds : List Char) (r : Int × Option GoError),
      (match ds with
        | [] => ((0 : Int), some (GoError.other "strconv.Atoi: invalid syntax"))
        | _ :: _ =>
          match digitsValue 0 ds with
          | .syntaxErr => ((0 : Int), some (GoError.other "strconv.Atoi: invalid syntax"))
          | .rangeErr =>
            (if neg then - (2 : Int) ^ (intSize - 1) else (2 : Int) ^ (intSize - 1) - 1,
              some (.other "strconv.Atoi: value out of range"))
          | .value n =>
            if (if neg then - (n : Int) else (n : Int)) < - (2 : Int) ^ (intSize - 1) then
              (- (2 : Int) ^ (intSize - 1), some (.other "strconv.Atoi: value out of range"))
            else if (2 : Int) ^ (intSize - 1) - 1 < (if neg then - (n : Int) else (n : Int)) then
              ((2 : Int) ^ (intSize - 1) - 1, some (.other "strconv.Atoi: value out of range"))
            else ((if neg then - (n : Int) else (n : Int)), none)) = r →
      r.2 = none → -(2 : Int) ^ 63 ≤ r.1 ∧ r.1 ≤ (2 : Int) ^ 63 - 1 := by
    intro neg ds r hr hnone
    subst hr
    have h63 : intSize - 1 = 63 := rfl
    rw [h63] at hnone ⊢
    cases ds with
    | nil => cases hnone
    | cons d ds1 =>
      simp only at hnone ⊢
      cases hd : digitsValue 0 (d :: ds1) with
      | syntaxErr =>
        rw [hd] at hnone
        cases hnone
      | rangeErr =>
        rw [hd] at hnone
        cases hnone
      | value n =>
        rw [hd] at hnone
        simp only at hnone ⊢
        generalize (if neg = true then - (n : Int) else (n : Int)) = v at hnone ⊢
        by_cases h1 : v < - (2 : Int) ^ 63
        · rw [if_pos h1] at hnone
          cases hnone
        · rw [if_neg h1] at hnone ⊢
          by_cases h2 : (2 : Int) ^ 63 - 1 < v
          · rw [if_pos h2] at hnone
            cases hnone
          · rw [if_neg h2]
            exact ⟨not_lt.mp h1, not_lt.mp h2⟩
  unfold Atoi at h ⊢
  simp only at h ⊢
  split
  · rename_i heq
    rw [heq] at h
    cases h
  · rename_i c cs heq
    rw [heq] at h
    simp only at h
    split
    · rename_i hc
      rw [if_pos hc] at h
      exact key true cs _ rfl h
    · rename_i hc
      rw [if_neg hc] at h
      split
      · rename_i hp
        rw [if_pos hp] at h
        exact key false cs _ rfl h
      · rename_i hp
        rw [if_neg hp] at h
        exact key false (c :: cs) _ rfl h

theorem lastCount_mem : ∀ (n : Nat) (l : List String) (t count : String),
    l.length = 2 * n → lastCount l t = some count → t ∈ l ∧ count ∈ l
  | 0, l, t, count, h, hc => by
    have hl : l = [] := List.length_eq_zero.mp (by omega)
    subst hl
    simp [lastCount] at hc
  | n + 1, l, t, count, h, hc => by
    match l, h, hc with
    | a :: b :: more, h, hc =>
      have hmore : more.length = 2 * n := by simp at h; omega
      rw [lastCount_cons2] at hc
      cases hl : lastCount more t with
      | some later =>
        rw [hl] at hc
        simp only [Option.some.injEq] at hc
        subst hc
        obtain ⟨h1, h2⟩ := lastCount_mem n more t later hmore hl
        exact ⟨by simp [h1], by simp [h2]⟩
      | none =>
        rw [hl] at hc
        by_cases hat : a = t
        · simp only [hat, ↓reduceIte, Option.some.injEq] at hc
          subst hc
          subst hat
          exact ⟨by simp, by simp⟩
        · simp [hat] at hc

end Bot

/-- C19, the code as it is: `streams any -1` is accepted by `parseCmd`, and
dispatching it for a subscribed user stores the streams `any: -1`, whose count is not
positive. -/
theorem C19_negative_count_stored :
    Bot.parseCmd (fun c => c) "streams any -1" = .ok ("streams", ["any", "-1"], none)
    ∧ Bot.storedRecord
        (Bot.dispatch (fun c => c) "the owner" GoMap.keys
          (Bot.constStore (Bot.sampleRecurser Bot.blankSchedule []) none)
          "streams" ["any", "-1"] "7" "al@example.org" "Al")
      = some (Bot.sampleRecurser Bot.blankSchedule [("any", -1)])
    ∧ ¬ ∀ topic n, GoMap.get? ([("any", -1)] : GoMap Int) topic = some n → 0 < n := by
  refine ⟨rfl, rfl, fun h => ?_⟩
  exact absurd (h "any" (-1) rfl) (by decide)

/-- C19 as amended: for every raw input that `parseCmd` accepts with the verb
`streams`, dispatching it for a subscribed user with the write succeeding stores a
streams mapping in which every topic name is a non-empty token and every count is the
value that `strconv.Atoi` gives to a count token of the input, an integer in the range
of `int` that may be zero or negative. The table of lower-case runes is assumed not to
map a rune outside ASCII to the space. -/
theorem C19_stored_streams_are_tokens_and_ints (tbl : Char → Char) (owner : String)
    (iter : GoMap Int → List String) (rdb : Bot.RecurserDB) (rec : Bot.Recurser)
    (s : String) (args : List String) (userID userEmail userName : String)
    (htbl : ∀ c, 128 ≤ c.toNat → tbl c ≠ ' ')
    (hparse : Bot.parseCmd tbl s = .ok ("streams", args, none))
    (hget : rdb.GetByUserID userID userEmail userName = .ok rec)
    (hsub : rec.isSubscribed = true)
    (hset : ∀ r, rdb.Set userID r = none) :
    ∃ newStreams,
      Bot.dispatch tbl owner iter rdb "streams" args userID userEmail userName
        = .ok { response := "Awesome, your topic's been set! You can check it with `status`.",
                err := none,
                call := .set userID { rec with streams := newStreams } }
      ∧ (∀ topic ∈ GoMap.keys newStreams, topic ≠ "")
      ∧ (∀ topic n, GoMap.get? newStreams topic = some n →
          -(2 : Int) ^ 63 ≤ n ∧ n ≤ (2 : Int) ^ 63 - 1
          ∧ ∃ count ∈ args, Atoi count = (n, none)) := by
  have htok : Bot.tokens tbl s = "streams" :: args := Bot.parseTokens_ok_eq _ _ _ hparse
  have hok : Bot.streamsArgsOk args := by
    by_contra hn
    obtain ⟨e, he⟩ := (Bot.parseTokens_streams args).2 hn
    unfold Bot.parseCmd at hparse
    rw [htok, he] at hparse
    simp at hparse
  obtain ⟨_, hev, hcounts⟩ := hok
  have hlen : args.length = 2 * (args.length / 2) := by omega
  have hnonempty : ∀ t ∈ args, t ≠ "" := by
    intro t ht
    apply Bot.tokens_nonempty tbl htbl s
    · rw [htok]
      simp
    · rw [htok]
      simp [ht]
  obtain ⟨newStreams, hloop, hget1, _⟩ := Bot.populateStreams_spec _ args [] hlen
  refine ⟨newStreams,
    Bot.dispatch_streams tbl owner iter rdb rec args newStreams userID userEmail userName
      hget hsub hset hloop, ?_, ?_⟩
  · intro topic hk
    have hne := (GoMap.mem_keys_iff newStreams topic).mp hk
    rw [hget1 topic] at hne
    cases hl : Bot.lastCount args topic with
    | none =>
      rw [hl] at hne
      exact absurd rfl hne
    | some count => exact hnonempty topic (Bot.lastCount_mem _ args topic count hlen hl).1
  · intro topic n hn
    rw [hget1 topic] at hn
    cases hl : Bot.lastCount args topic with
    | none =>
      rw [hl] at hn
      cases hn
    | some count =>
      rw [hl] at hn
      simp only [Option.some.injEq] at hn
      have hp := Bot.lastCount_parses _ args topic count hlen hcounts hl
      have hr := Bot.Atoi_range count hp
      rw [hn] at hr
      refine ⟨hr.1, hr.2, count, (Bot.lastCount_mem _ args topic count hlen hl).2, ?_⟩
      rw [← hn]
      exact Prod.ext rfl hp

/-- C19 as amended, for the input `streams any -1 Pairing 0`. -/
theorem C19_stored_streams_are_tokens_and_ints_witness :
    ∃ newStreams,
      Bot.dispatch (fun c => c) "the owner" GoMap.keys
          (Bot.constStore (Bot.sampleRecurser Bot.blankSchedule []) none)
          "streams" ["any", "-1", "pairing", "0"] "7" "al@example.org" "Al"
        = .ok { response := "Awesome, your topic's been set! You can check it with `status`.",
                err := none,
                call := .set "7"
                  { Bot.sampleRecurser Bot.blankSchedule [] with streams := newStreams } }
      ∧ (∀ topic ∈ GoMap.keys newStreams, topic ≠ "")
      ∧ (∀ topic n, GoMap.get? newStreams topic = some n →
          -(2 : Int) ^ 63 ≤ n ∧ n ≤ (2 : Int) ^ 63 - 1
          ∧ ∃ count ∈ ["any", "-1", "pairing", "0"], Atoi count = (n, none)) :=
  C19_stored_streams_are_tokens_and_ints (fun c => c) "the owner" GoMap.keys
    (Bot.constStore (Bot.sampleRecurser Bot.blankSchedule []) none)
    (Bot.sampleRecurser Bot.blankSchedule [])
    "streams any -1 Pairing 0" ["any", "-1", "pairing", "0"] "7" "al@example.org" "Al"
    (by
      intro c hc h
      have h1 : c = ' ' := h
      rw [h1] at hc
      exact absurd hc (by decide))
    rfl rfl rfl (fun _ => rfl)

namespace Bot

/-! ## The keys of the schedule that `dispatch` hands to the store -/

theorem switchCase_schedule (cmd : String) (h : switchCase cmd = .schedule) :
    cmd = "schedule" := by
  unfold switchCase at h
  by_cases h1 : cmd = "schedule"
  · exact h1
  · rw [if_neg h1] at h
    repeat' split at h
    all_goals cases h

/-- Every record that `dispatch` hands to `Set` has a schedule with exactly the seven
weekday keys, when the record read has them and the args of `schedule` are weekday
names. -/
theorem dispatch_set_keys (tbl : Char → Char) (owner : String)
    (iter : GoMap Int → List String) (rdb : RecurserDB) (rec : Recurser) (cmd : String)
    (args : List String) (userID userEmail userName : String)
    (hget : rdb.GetByUserID userID userEmail userName = .ok rec)
    (hkeys : GoMap.keys rec.schedule = daysList)
    (hargs : cmd = "schedule" → ∀ a ∈ args, a ∈ daysList)
    (id : String) (r : Recurser)
    (h : callOf (dispatch tbl owner iter rdb cmd args userID userEmail userName) = .set id r) :
    GoMap.keys r.schedule = daysList := by
  unfold dispatch at h
  rw [hget] at h
  simp only at h
  split at h
  · rename_i hcase
    have hsched := (newSchedule_spec args).2 (hargs (switchCase_schedule cmd hcase))
    split at h
    · cases h
    · split at h <;> (simp only [callOf, StoreCall.set.injEq] at h; rw [← h.2]; exact hsched)
  · split at h
    · cases h
    · split at h
      · cases h
      · split at h <;> (simp only [callOf, StoreCall.set.injEq] at h; rw [← h.2]; exact hkeys)
  · split at h
    · cases h
    · split at h <;> (simp only [callOf, StoreCall.set.injEq] at h; rw [← h.2]; exact hkeys)
  · split at h
    · cases h
    · split at h <;> cases h
  · split at h
    · cases h
    · split at h <;> (simp only [callOf, StoreCall.set.injEq] at h; rw [← h.2]; exact hkeys)
  · split at h
    · cases h
    · split at h <;> (simp only [callOf, StoreCall.set.injEq] at h; rw [← h.2]; exact hkeys)
  · split at h
    · cases h
    · split at h <;> cases h
  · cases h
  · cases h

/-- A record that `dispatch` hands to `Set` is stored under the id of the caller and
keeps the subscription flag of the record read. -/
theorem dispatch_set_id (tbl : Char → Char) (owner : String)
    (iter : GoMap Int → List String) (rdb : RecurserDB) (rec : Recurser) (cmd : String)
    (args : List String) (userID userEmail userName : String)
    (hget : rdb.GetByUserID userID userEmail userName = .ok rec)
    (id : String) (r : Recurser)
    (h : callOf (dispatch tbl owner iter rdb cmd args userID userEmail userName) = .set id r) :
    id = userID ∧ r.isSubscribed = rec.isSubscribed := by
  unfold dispatch at h
  rw [hget] at h
  simp only at h
  split at h
  · split at h
    · cases h
    · split at h <;>
        (simp only [callOf, StoreCall.set.injEq] at h; exact ⟨h.1.symm, by rw [← h.2]⟩)
  · split at h
    · cases h
    · split at h
      · cases h
      · split at h <;>
          (simp only [callOf, StoreCall.set.injEq] at h; exact ⟨h.1.symm, by rw [← h.2]⟩)
  · split at h
    · cases h
    · split at h <;>
        (simp only [callOf, StoreCall.set.injEq] at h; exact ⟨h.1.symm, by rw [← h.2]⟩)
  · split at h
    · cases h
    · split at h <;> cases h
  · split at h
    · cases h
    · split at h <;>
        (simp only [callOf, StoreCall.set.injEq] at h; exact ⟨h.1.symm, by rw [← h.2]⟩)
  · split at h
    · cases h
    · split at h <;>
        (simp only [callOf, StoreCall.set.injEq] at h; exact ⟨h.1.symm, by rw [← h.2]⟩)
  · split at h
    · cases h
    · split at h <;> cases h
  · cases h
  · cases h

end Bot

/-- C20: for every existing record of a subscribed user whose schedule has exactly the
seven weekday names as keys: whatever well-shaped `(verb, args)` is dispatched, a
record that `dispatch` hands to `Set` is stored under the id of the caller and has a
schedule with exactly those seven keys; the verb `schedule` with one or more weekday
args does hand such a record to `Set`, with the schedule rebuilt from the args; and so
for every raw input string, whose parse is well shaped, the record of the user after
`parseCmd` and `dispatch` is the existing one, is deleted, or is a record with exactly
the seven keys. -/
theorem C20_stored_schedule_has_seven_keys (tbl : Char → Char) (owner : String)
    (iter : GoMap Int → List String) (rdb : Bot.RecurserDB) (rec : Bot.Recurser)
    (userID userEmail userName : String)
    (hget : rdb.GetByUserID userID userEmail userName = .ok rec)
    (hsub : rec.isSubscribed = true)
    (hkeys : GoMap.keys rec.schedule = Bot.daysList) :
    (∀ verb args, Bot.wellShaped verb args → ∀ id r,
        Bot.callOf (Bot.dispatch tbl owner iter rdb verb args userID userEmail userName)
          = .set id r →
        id = userID ∧ r.isSubscribed = true ∧ GoMap.keys r.schedule = Bot.daysList)
    ∧ (∀ days, days ≠ [] → (∀ a ∈ days, a ∈ Bot.daysList) →
        Bot.wellShaped "schedule" days
        ∧ ∃ r, Bot.callOf
              (Bot.dispatch tbl owner iter rdb "schedule" days userID userEmail userName)
            = .set userID r
          ∧ r.schedule = Bot.populateSchedule Bot.blankSchedule days
          ∧ GoMap.keys r.schedule = Bot.daysList)
    ∧ (∀ s : String, ∃ verb args err, Bot.parseCmd tbl s = .ok (verb, args, err)
        ∧ ∀ id r,
            Bot.callOf (Bot.dispatch tbl owner iter rdb verb args userID userEmail userName)
              = .set id r →
            id = userID ∧ r.isSubscribed = true ∧ GoMap.keys r.schedule = Bot.daysList) := by
  have key : ∀ verb args, Bot.wellShaped verb args → ∀ id r,
      Bot.callOf (Bot.dispatch tbl owner iter rdb verb args userID userEmail userName)
        = .set id r →
      id = userID ∧ r.isSubscribed = true ∧ GoMap.keys r.schedule = Bot.daysList := by
    intro verb args hw id r h
    refine ⟨?_, ?_, Bot.dispatch_set_keys tbl owner iter rdb rec verb args userID userEmail
      userName hget hkeys (fun hv => (hw.2.2.2.1 hv).2) id r h⟩
    · exact Bot.dispatch_set_id tbl owner iter rdb rec verb args userID userEmail userName
        hget id r h |>.1
    · rw [← hsub]
      exact Bot.dispatch_set_id tbl owner iter rdb rec verb args userID userEmail userName
        hget id r h |>.2
  refine ⟨key, ?_, ?_⟩
  · intro days hne hdays
    have hw : Bot.wellShaped "schedule" days :=
      ⟨by decide, fun h => absurd h (by decide), fun h => absurd h (by decide),
        fun _ => ⟨hne, hdays⟩, fun h => absurd h (by decide)⟩
    have hcall : ∃ r, Bot.callOf
          (Bot.dispatch tbl owner iter rdb "schedule" days userID userEmail userName)
        = .set userID r ∧ r.schedule = Bot.populateSchedule Bot.blankSchedule days := by
      have hc : Bot.switchCase "schedule" = .schedule := rfl
      unfold Bot.dispatch
      rw [hget]
      simp only [hc, hsub, Bool.not_true, Bool.false_eq_true, ↓reduceIte]
      split <;> exact ⟨_, rfl, rfl⟩
    obtain ⟨r, hr, hsched⟩ := hcall
    exact ⟨hw, r, hr, hsched, (key "schedule" days hw userID r hr).2.2⟩
  · intro s
    unfold Bot.parseCmd
    rcases Bot.parseTokens_result (Bot.tokens tbl s) with ⟨v, a, h, hw⟩ | ⟨e, h⟩
    · exact ⟨v, a, none, h, key v a hw⟩
    · exact ⟨"help", [], some e, h, key _ _ Bot.wellShaped_help⟩

/-- C20 for the verb `schedule` with the args `monday friday`, dispatched for a
subscribed user whose schedule has the seven weekday keys: the record handed to `Set`
has the rebuilt schedule, with the seven keys. -/
theorem C20_stored_schedule_has_seven_keys_witness :
    Bot.wellShaped "schedule" ["monday", "friday"]
    ∧ ∃ r, Bot.callOf
          (Bot.dispatch (fun c => c) "the owner" GoMap.keys
            (Bot.constStore (Bot.sampleRecurser Bot.blankSchedule []) none)
            "schedule" ["monday", "friday"] "7" "al@example.org" "Al")
        = .set "7" r
      ∧ r.schedule = Bot.populateSchedule Bot.blankSchedule ["monday", "friday"]
      ∧ GoMap.keys r.schedule = Bot.daysList :=
  (C20_stored_schedule_has_seven_keys (fun c => c) "the owner" GoMap.keys
    (Bot.constStore (Bot.sampleRecurser Bot.blankSchedule []) none)
    (Bot.sampleRecurser Bot.blankSchedule []) "7" "al@example.org" "Al"
    rfl rfl rfl).2.1 ["monday", "friday"] (by decide) (by decide)

namespace Bot

/-! ## Blank commands -/

theorem replaceAllSpaceAux_allSpace : ∀ (s : List Char) (inRun : Bool),
    (∀ c ∈ s, isSpace c = true) → ∀ c ∈ replaceAllSpaceAux inRun s, isSpace c = true := by
  intro s
  induction s with
  | nil => intro inRun _ c hc; simp [replaceAllSpaceAux] at hc
  | cons a rest ih =>
    intro inRun h c hc
    have hrest : ∀ c ∈ rest, isSpace c = true := fun c hc => h c (by simp [hc])
    unfold replaceAllSpaceAux at hc
    split at hc
    · split at hc
      · exact ih true hrest c hc
      · simp only [List.mem_cons] at hc
        rcases hc with hc | hc
        · rw [hc]
          decide
        · exact ih true hrest c hc
    · simp only [List.mem_cons] at hc
      rcases hc with hc | hc
      · rw [hc]
        exact h a (by simp)
      · exact ih false hrest c hc

/-- The tokens of a string made of whitespace only (in the sense of `unicode.IsSpace`,
which contains the class `\s`) are the single empty token. -/
theorem tokens_blank (tbl : Char → Char) (s : String) (h : ∀ c ∈ s.data, isSpace c = true) :
    tokens tbl s = [""] := by
  have h1 : ∀ c ∈ replaceAllSpace s.data, isSpace c = true :=
    replaceAllSpaceAux_allSpace s.data false h
  have h2 : (replaceAllSpace s.data).dropWhile isSpace = [] :=
    List.dropWhile_eq_nil_iff.mpr h1
  have h3 : trimSpace (replaceAllSpace s.data) = [] := by
    unfold trimSpace
    rw [h2]
    rfl
  unfold tokens
  rw [h3]
  rfl

/-- The `skip` and `unskip` cases on a subscribed record when the write succeeds. -/
theorem dispatch_skip (tbl : Char → Char) (owner : String) (iter : GoMap Int → List String)
    (rdb : RecurserDB) (rec : Recurser) (args : List String) (userID userEmail userName : String)
    (hget : rdb.GetByUserID userID userEmail userName = .ok rec)
    (hsub : rec.isSubscribed = true) (hset : ∀ r, rdb.Set userID r = none) :
    dispatch tbl owner iter rdb "skip" args userID userEmail userName
      = .ok { response :=
                "Tomorrow: cancelled. I feel you. **I will not match you** for pairing tomorrow <3",
              err := none,
              call := .set userID { rec with isSkippingTomorrow := true } }
    ∧ dispatch tbl owner iter rdb "unskip" args userID userEmail userName
      = .ok { response :=
                "Tomorrow: uncancelled! Heckin *yes*! **I will match you** for pairing tomorrow :)",
              err := none,
              call := .set userID { rec with isSkippingTomorrow := false } } := by
  constructor
  · unfold dispatch
    rw [hget]
    have hc : switchCase "skip" = .skip := rfl
    simp only [hc, hsub, hset]
    rfl
  · unfold dispatch
    rw [hget]
    have hc : switchCase "unskip" = .unskip := rfl
    simp only [hc, hsub, hset]
    rfl

end Bot

/-- C21: for every string made of whitespace only (every character satisfies
`unicode.IsSpace`), the empty string included, `parseCmd` returns the verb `help`, no
args and a non-nil error. -/
theorem C21_blank_input_rejected (tbl : Char → Char) (s : String)
    (h : ∀ c ∈ s.data, isSpace c = true) :
    Bot.parseCmd tbl s
      = .ok ("help", [], some (.parsingErr "the user-issued command wasn't valid")) := by
  unfold Bot.parseCmd
  rw [Bot.tokens_blank tbl s h]
  rfl

/-- C21 for the empty string and for a string of a space, a tab, a newline, a vertical
tab and a no-break space. -/
theorem C21_blank_input_rejected_witness :
    Bot.parseCmd (fun c => c) ""
        = .ok ("help", [], some (.parsingErr "the user-issued command wasn't valid"))
    ∧ Bot.parseCmd (fun c => c) " \t\n\x0b "
        = .ok ("help", [], some (.parsingErr "the user-issued command wasn't valid")) :=
  ⟨C21_blank_input_rejected (fun c => c) "" (by decide),
   C21_blank_input_rejected (fun c => c) " \t\n\x0b " (by decide)⟩

/-- C23: for every subscribed record `rec` read from the store, when the write
succeeds, the record that `dispatch` hands to `Set` under the id of the caller is `rec`
with one field replaced: `isSkippingTomorrow` set true by `skip` and false by `unskip`,
the schedule by `schedule`, the streams by `streams` (for args in pairs); every other
field, the id included, is as in `rec`. -/
theorem C23_only_own_field_replaced (tbl : Char → Char) (owner : String)
    (iter : GoMap Int → List String) (rdb : Bot.RecurserDB) (rec : Bot.Recurser)
    (args days pairs : List String) (userID userEmail userName : String)
    (hget : rdb.GetByUserID userID userEmail userName = .ok rec)
    (hsub : rec.isSubscribed = true)
    (hset : ∀ r, rdb.Set userID r = none)
    (hpairs : pairs.length % 2 = 0) :
    Bot.callOf (Bot.dispatch tbl owner iter rdb "skip" args userID userEmail userName)
      = .set userID
          { id := rec.id, name := rec.name, isSkippingTomorrow := true,
            schedule := rec.schedule, streams := rec.streams, isSubscribed := rec.isSubscribed }
    ∧ Bot.callOf (Bot.dispatch tbl owner iter rdb "unskip" args userID userEmail userName)
      = .set userID
          { id := rec.id, name := rec.name, isSkippingTomorrow := false,
            schedule := rec.schedule, streams := rec.streams, isSubscribed := rec.isSubscribed }
    ∧ (∃ newSchedule,
        Bot.callOf (Bot.dispatch tbl owner iter rdb "schedule" days userID userEmail userName)
          = .set userID
              { id := rec.id, name := rec.name, isSkippingTomorrow := rec.isSkippingTomorrow,
                schedule := newSchedule, streams := rec.streams,
                isSubscribed := rec.isSubscribed })
    ∧ (∃ newStreams,
        Bot.callOf (Bot.dispatch tbl owner iter rdb "streams" pairs userID userEmail userName)
          = .set userID
              { id := rec.id, name := rec.name, isSkippingTomorrow := rec.isSkippingTomorrow,
                schedule := rec.schedule, streams := newStreams,
                isSubscribed := rec.isSubscribed }) := by
  obtain ⟨hskip, hunskip⟩ :=
    Bot.dispatch_skip tbl owner iter rdb rec args userID userEmail userName hget hsub hset
  obtain ⟨newStreams, hloop⟩ := Bot.populateStreams_even (pairs.length / 2) pairs [] (by omega)
  refine ⟨by rw [hskip]; rfl, by rw [hunskip]; rfl,
    ⟨Bot.populateSchedule Bot.blankSchedule days, ?_⟩, ⟨newStreams, ?_⟩⟩
  · rw [Bot.dispatch_schedule tbl owner iter rdb rec days userID userEmail userName
      hget hsub hset]
    rfl
  · rw [Bot.dispatch_streams tbl owner iter rdb rec pairs newStreams userID userEmail userName
      hget hsub hset hloop]
    rfl

/-- C23 for a record with the streams `math: 3` and the schedule of
`schedule tuesday`. -/
theorem C23_only_own_field_replaced_witness :
    Bot.callOf (Bot.dispatch (fun c => c) "the owner" GoMap.keys
        (Bot.constStore
          (Bot.sampleRecurser (Bot.populateSchedule Bot.blankSchedule ["tuesday"])
            [("math", 3)]) none)
        "skip" ["tomorrow"] "7" "al@example.org" "Al")
      = .set "7"
          { id := "7", name := "Al", isSkippingTomorrow := true,
            schedule := Bot.populateSchedule Bot.blankSchedule ["tuesday"],
            streams := [("math", 3)], isSubscribed := true }
    ∧ Bot.callOf (Bot.dispatch (fun c => c) "the owner" GoMap.keys
        (Bot.constStore
          (Bot.sampleRecurser (Bot.populateSchedule Bot.blankSchedule ["tuesday"])
            [("math", 3)]) none)
        "unskip" ["tomorrow"] "7" "al@example.org" "Al")
      = .set "7"
          { id := "7", name := "Al", isSkippingTomorrow := false,
            schedule := Bot.populateSchedule Bot.blankSchedule ["tuesday"],
            streams := [("math", 3)], isSubscribed := true }
    ∧ (∃ newSchedule,
        Bot.callOf (Bot.dispatch (fun c => c) "the owner" GoMap.keys
            (Bot.constStore
              (Bot.sampleRecurser (Bot.populateSchedule Bot.blankSchedule ["tuesday"])
                [("math", 3)]) none)
            "schedule" ["monday"] "7" "al@example.org" "Al")
          = .set "7"
              { id := "7", name := "Al", isSkippingTomorrow := false,
                schedule := newSchedule, streams := [("math", 3)], isSubscribed := true })
    ∧ (∃ newStreams,
        Bot.callOf (Bot.dispatch (fun c => c) "the owner" GoMap.keys
            (Bot.constStore
              (Bot.sampleRecurser (Bot.populateSchedule Bot.blankSchedule ["tuesday"])
                [("math", 3)]) none)
            "streams" ["any", "2"] "7" "al@example.org" "Al")
          = .set "7"
              { id := "7", name := "Al", isSkippingTomorrow := false,
                schedule := Bot.populateSchedule Bot.blankSchedule ["tuesday"],
                streams := newStreams, isSubscribed := true }) :=
  C23_only_own_field_replaced (fun c => c) "the owner" GoMap.keys
    (Bot.constStore
      (Bot.sampleRecurser (Bot.populateSchedule Bot.blankSchedule ["tuesday"])
        [("math", 3)]) none)
    (Bot.sampleRecurser (Bot.populateSchedule Bot.blankSchedule ["tuesday"]) [("math", 3)])
    ["tomorrow"] ["monday"] ["any", "2"] "7" "al@example.org" "Al" rfl rfl (fun _ => rfl) rfl

namespace Bot

/-! ## The cleaned command string -/

theorem replaceAllSpaceAux_clean : ∀ (s : List Char) (inRun : Bool),
    ∀ c ∈ replaceAllSpaceAux inRun s, isReSpace c = true → c = ' ' := by
  intro s
  induction s with
  | nil => intro inRun c hc; simp [replaceAllSpaceAux] at hc
  | cons a rest ih =>
    intro inRun c hc hre
    unfold replaceAllSpaceAux at hc
    split at hc
    · split at hc
      · exact ih true c hc hre
      · simp only [List.mem_cons] at hc
        rcases hc with hc | hc
        · exact hc
        · exact ih true c hc hre
    · rename_i hna
      simp only [List.mem_cons] at hc
      rcases hc with hc | hc
      · rw [hc] at hre
        exact absurd hre hna
      · exact ih false c hc hre

theorem mem_of_mem_trimSpace (s : List Char) (c : Char) (h : c ∈ trimSpace s) : c ∈ s := by
  have heq : trimSpace s = List.rdropWhile isSpace (s.dropWhile isSpace) := rfl
  rw [heq] at h
  have h1 := (List.rdropWhile_prefix isSpace (s.dropWhile isSpace)).subset h
  exact (List.dropWhile_suffix isSpace).subset h1

theorem trimSpace_ends (s : List Char) :
    (∀ a, (trimSpace s).head? = some a → isSpace a = false)
    ∧ (∀ z, (trimSpace s).getLast? = some z → isSpace z = false) := by
  have heq : trimSpace s = List.rdropWhile isSpace (s.dropWhile isSpace) := rfl
  have hpre := List.rdropWhile_prefix isSpace (s.dropWhile isSpace)
  rw [heq]
  constructor
  · intro a hhead
    have hne : List.rdropWhile isSpace (s.dropWhile isSpace) ≠ [] := by
      intro h0
      rw [h0] at hhead
      simp at hhead
    have hne2 : s.dropWhile isSpace ≠ [] := by
      intro h0
      rw [h0] at hne
      simp [List.rdropWhile] at hne
    have h1 := hpre.head hne
    have h2 := List.head?_dropWhile_not isSpace s
    rw [List.head?_eq_head hne2] at h2
    rw [List.head?_eq_head hne, h1] at hhead
    simp only [Option.some.injEq] at hhead
    simp only at h2
    rw [hhead] at h2
    exact h2
  · intro z hlast
    have hne : List.rdropWhile isSpace (s.dropWhile isSpace) ≠ [] := by
      intro h0
      rw [h0] at hlast
      simp at hlast
    have h1 := List.rdropWhile_last_not isSpace (s.dropWhile isSpace) hne
    rw [List.getLast?_eq_getLast _ hne] at hlast
    simp only [Option.some.injEq] at hlast
    rw [hlast] at h1
    simpa using h1

/-- A string whose only characters of the class `\s` are single spaces is left as it is
by the replacement of the runs of `\s`. -/
theorem replaceAllSpaceAux_id : ∀ (y : List Char) (inRun : Bool),
    (∀ c ∈ y, isReSpace c = true → c = ' ') → noDoubleSpace y →
    (inRun = true → y.head? ≠ some ' ') → replaceAllSpaceAux inRun y = y := by
  intro y
  induction y with
  | nil => intro _ _ _ _; rfl
  | cons a rest ih =>
    intro inRun hclean hnd hrun
    have hrest : ∀ c ∈ rest, isReSpace c = true → c = ' ' :=
      fun c hc => hclean c (by simp [hc])
    unfold replaceAllSpaceAux
    by_cases ha : isReSpace a = true
    · have hsp : a = ' ' := hclean a (by simp) ha
      have hfalse : inRun = false := by
        cases inRun with
        | false => rfl
        | true => exact absurd (by rw [hsp]; rfl) (hrun rfl)
      rw [if_pos ha, hfalse]
      simp only [Bool.false_eq_true, ↓reduceIte]
      rw [ih true hrest hnd.2 (fun _ => hnd.1 hsp), hsp]
    · rw [if_neg ha, ih false hrest hnd.2 (fun h => absurd h (by decide))]

theorem dropWhile_id (p : Char → Bool) (y : List Char)
    (h : ∀ a, y.head? = some a → p a = false) : y.dropWhile p = y := by
  cases y with
  | nil => rfl
  | cons a rest =>
    rw [List.dropWhile_cons, h a rfl]
    rfl

theorem trimSpace_id (y : List Char)
    (hhead : ∀ a, y.head? = some a → isSpace a = false)
    (hlast : ∀ z, y.getLast? = some z → isSpace z = false) : trimSpace y = y := by
  unfold trimSpace
  rw [dropWhile_id isSpace y hhead,
    dropWhile_id isSpace y.reverse (by rw [List.head?_reverse]; exact hlast),
    List.reverse_reverse]

/-- What ASCII lower-casing makes of an upper-case letter: an ASCII character that is
neither upper-case nor whitespace. -/
theorem lowered_upper (n : Nat) (h1 : 65 ≤ n) (h2 : n ≤ 90) :
    (Char.ofNat (n + 32)).toNat < 128
    ∧ ¬ ('A'.toNat ≤ (Char.ofNat (n + 32)).toNat ∧ (Char.ofNat (n + 32)).toNat ≤ 'Z'.toNat)
    ∧ isSpace (Char.ofNat (n + 32)) = false
    ∧ isReSpace (Char.ofNat (n + 32)) = false := by
  interval_cases n <;> decide

theorem isReSpace_ascii (c : Char) (h : isReSpace c = true) : c.toNat < 128 := by
  simp only [isReSpace, Bool.or_eq_true, beq_iff_eq] at h
  rcases h with (((h | h) | h) | h) | h <;> subst h <;> decide

theorem isSpace_of_isReSpace (c : Char) (h : isReSpace c = true) : isSpace c = true := by
  simp only [isReSpace, Bool.or_eq_true, beq_iff_eq] at h
  rcases h with (((h | h) | h) | h) | h <;> subst h <;> decide

/-- Lower-casing yields a whitespace rune only by leaving a whitespace rune as it
is, when the table does so outside ASCII. -/
theorem toLowerRune_isSpace (tbl : Char → Char)
    (hspace : ∀ c, 128 ≤ c.toNat → isSpace (tbl c) = true → tbl c = c)
    (c : Char) (h : isSpace (toLowerRune tbl c) = true) : toLowerRune tbl c = c := by
  unfold toLowerRune at h ⊢
  by_cases h128 : c.toNat < 128
  · rw [if_pos h128] at h ⊢
    by_cases hup : 'A'.toNat ≤ c.toNat ∧ c.toNat ≤ 'Z'.toNat
    · rw [if_pos hup] at h
      have := (lowered_upper c.toNat hup.1 hup.2).2.2.1
      rw [this] at h
      cases h
    · rw [if_neg hup]
  · rw [if_neg h128] at h ⊢
    exact hspace c (by omega) h

theorem toLowerRune_idem (tbl : Char → Char)
    (hidem : ∀ c, 128 ≤ c.toNat → toLowerRune tbl (tbl c) = tbl c) (c : Char) :
    toLowerRune tbl (toLowerRune tbl c) = toLowerRune tbl c := by
  by_cases h128 : c.toNat < 128
  · by_cases hup : 'A'.toNat ≤ c.toNat ∧ c.toNat ≤ 'Z'.toNat
    · have hl := lowered_upper c.toNat hup.1 hup.2
      have h1 : toLowerRune tbl c = Char.ofNat (c.toNat + 32) := by
        unfold toLowerRune
        rw [if_pos h128, if_pos hup]
      rw [h1]
      unfold toLowerRune
      rw [if_pos hl.1, if_neg hl.2.1]
    · have h1 : toLowerRune tbl c = c := by
        unfold toLowerRune
        rw [if_pos h128, if_neg hup]
      rw [h1, h1]
  · have h1 : toLowerRune tbl c = tbl c := by
      unfold toLowerRune
      rw [if_neg h128]
    rw [h1]
    exact hidem c (by omega)

end Bot

namespace Bot

/-- The three clean-up steps leave a cleaned command string as it is, when the table
of lower-case runes is idempotent and yields whitespace only for whitespace it leaves
unchanged. -/
theorem cleanCmdStr_fixed (tbl : Char → Char)
    (hidem : ∀ c, 128 ≤ c.toNat → toLowerRune tbl (tbl c) = tbl c)
    (hspace : ∀ c, 128 ≤ c.toNat → isSpace (tbl c) = true → tbl c = c)
    (s : String) :
    toLower tbl (trimSpace (replaceAllSpace (cleanCmdStr tbl s).data)) = (cleanCmdStr tbl s).data := by
  have hdata : (cleanCmdStr tbl s).data = toLower tbl (trimSpace (replaceAllSpace s.data)) := rfl
  rw [hdata]
  have hcleanx : ∀ c ∈ trimSpace (replaceAllSpace s.data), isReSpace c = true → c = ' ' :=
    fun c hc => replaceAllSpaceAux_clean s.data false c (mem_of_mem_trimSpace _ c hc)
  have hndx := (trimSpace_spec (replaceAllSpace s.data) (replaceAllSpaceAux_spec s.data false).1).1
  obtain ⟨hheadx, hlastx⟩ := trimSpace_ends (replaceAllSpace s.data)
  have hsp : ∀ c, isSpace (toLowerRune tbl c) = true → toLowerRune tbl c = c :=
    toLowerRune_isSpace tbl hspace
  have hf : ∀ c, toLowerRune tbl c = ' ' ↔ c = ' ' := by
    intro c
    constructor
    · intro h
      have h1 := hsp c (by rw [h]; decide)
      rw [← h1, h]
    · rintro rfl
      rfl
  have hcleany : ∀ c ∈ toLower tbl (trimSpace (replaceAllSpace s.data)),
      isReSpace c = true → c = ' ' := by
    intro c hc hre
    unfold toLower at hc
    obtain ⟨c0, hc0, rfl⟩ := List.mem_map.mp hc
    have h1 := hsp c0 (isSpace_of_isReSpace _ hre)
    rw [h1] at hre ⊢
    exact hcleanx c0 hc0 hre
  have hndy : noDoubleSpace (toLower tbl (trimSpace (replaceAllSpace s.data))) :=
    noDoubleSpace_map _ hf _ hndx
  have hheady : ∀ a, (toLower tbl (trimSpace (replaceAllSpace s.data))).head? = some a →
      isSpace a = false := by
    intro a ha
    unfold toLower at ha
    rw [List.head?_map] at ha
    cases hx : (trimSpace (replaceAllSpace s.data)).head? with
    | none => rw [hx] at ha; simp at ha
    | some x =>
      rw [hx] at ha
      simp only [Option.map_some', Option.some.injEq] at ha
      subst ha
      cases hs : isSpace (toLowerRune tbl x) with
      | false => rfl
      | true =>
        have h1 := hsp x hs
        rw [h1] at hs
        rw [hheadx x hx] at hs
        cases hs
  have hlasty : ∀ z, (toLower tbl (trimSpace (replaceAllSpace s.data))).getLast? = some z →
      isSpace z = false := by
    intro z hz
    unfold toLower at hz
    rw [List.getLast?_map] at hz
    cases hx : (trimSpace (replaceAllSpace s.data)).getLast? with
    | none => rw [hx] at hz; simp at hz
    | some x =>
      rw [hx] at hz
      simp only [Option.map_some', Option.some.injEq] at hz
      subst hz
      cases hs : isSpace (toLowerRune tbl x) with
      | false => rfl
      | true =>
        have h1 := hsp x hs
        rw [h1] at hs
        rw [hlastx x hx] at hs
        cases hs
  have h5 : replaceAllSpace (toLower tbl (trimSpace (replaceAllSpace s.data)))
      = toLower tbl (trimSpace (replaceAllSpace s.data)) :=
    replaceAllSpaceAux_id _ false hcleany hndy (fun h => absurd h (by decide))
  rw [h5, trimSpace_id _ hheady hlasty]
  unfold toLower
  rw [List.map_map]
  apply List.map_congr_left
  intro c _
  exact toLowerRune_idem tbl hidem c

/-- The tokens of the cleaned command string are the tokens of the input. -/
theorem tokens_cleanCmdStr (tbl : Char → Char)
    (hidem : ∀ c, 128 ≤ c.toNat → toLowerRune tbl (tbl c) = tbl c)
    (hspace : ∀ c, 128 ≤ c.toNat → isSpace (tbl c) = true → tbl c = c)
    (s : String) : tokens tbl (cleanCmdStr tbl s) = tokens tbl s := by
  unfold tokens
  rw [cleanCmdStr_fixed tbl hidem hspace s]
  rfl

/-- Parsing the cleaned command string gives what parsing the input gives. -/
theorem parseCmd_cleanCmdStr (tbl : Char → Char) (s : String)
    (hidem : ∀ c, 128 ≤ c.toNat → toLowerRune tbl (tbl c) = tbl c)
    (hspace : ∀ c, 128 ≤ c.toNat → isSpace (tbl c) = true → tbl c = c) :
    parseCmd tbl (cleanCmdStr tbl s) = parseCmd tbl s := by
  unfold parseCmd
  rw [tokens_cleanCmdStr tbl hidem hspace s]

end Bot

namespace Legacy

/-! ## The documents that the older variant can reach -/

theorem mergeFields_get? : ∀ (new old : GoMap Bot.Iface) (d : String),
    (GoMap.keys new).Nodup →
    GoMap.get? (mergeFields old new) d
      = match GoMap.get? new d with
        | some v => some v
        | none => GoMap.get? old d := by
  intro new
  induction new with
  | nil => intro old d _; rfl
  | cons kv rest ih =>
    intro old d hnd
    obtain ⟨k, v⟩ := kv
    have hcons : k ∉ GoMap.keys rest ∧ (GoMap.keys rest).Nodup := by
      simpa [GoMap.keys] using hnd
    have hstep : mergeFields old ((k, v) :: rest) = mergeFields (GoMap.set old k v) rest := rfl
    rw [hstep, ih _ d hcons.2]
    by_cases hk : k = d
    · subst hk
      have hnone : GoMap.get? rest k = none := by
        by_contra hne
        exact hcons.1 ((GoMap.mem_keys_iff rest k).mpr hne)
      simp [hnone, GoMap.get?, GoMap.get?_set_self]
    · simp only [GoMap.get?, hk, ↓reduceIte, GoMap.get?_set_ne _ _ _ _ hk]

theorem mergeFields_keys : ∀ (new old : GoMap Bot.Iface),
    (∀ k ∈ GoMap.keys new, k ∈ GoMap.keys old) →
    GoMap.keys (mergeFields old new) = GoMap.keys old := by
  intro new
  induction new with
  | nil => intro old _; rfl
  | cons kv rest ih =>
    intro old h
    obtain ⟨k, v⟩ := kv
    have hk : k ∈ GoMap.keys old := h k (by simp [GoMap.keys])
    have hkeys := GoMap.keys_set_of_mem old k v hk
    have hstep : mergeFields old ((k, v) :: rest) = mergeFields (GoMap.set old k v) rest := rfl
    rw [hstep, ih, hkeys]
    intro k2 hk2
    rw [hkeys]
    exact h k2 (by simp only [GoMap.keys, List.map_cons, List.mem_cons] at hk2 ⊢; exact Or.inr hk2)

theorem mergeAll_cons (old : Doc) (k : String) (f : Field) (rest : Doc) :
    mergeAll old ((k, f) :: rest)
      = mergeAll (GoMap.set old k (mergeField f (GoMap.get? old k))) rest := by
  have hstep : mergeAll old ((k, f) :: rest)
      = mergeAll
          (match f, GoMap.get? old k with
            | .map newMap, some (.map oldMap) =>
              GoMap.set old k (.map (mergeFields oldMap newMap))
            | field, _ => GoMap.set old k field) rest := rfl
  rw [hstep]
  congr 1
  unfold mergeField
  split <;> rfl

/-- What the document holds under a key after `Set` with `MergeAll`. -/
theorem mergeAll_get? : ∀ (data old : Doc) (k : String), (GoMap.keys data).Nodup →
    GoMap.get? (mergeAll old data) k
      = match GoMap.get? data k with
        | some f => some (mergeField f (GoMap.get? old k))
        | none => GoMap.get? old k := by
  intro data
  induction data with
  | nil => intro old k _; rfl
  | cons kv rest ih =>
    intro old k hnd
    obtain ⟨k1, f1⟩ := kv
    have hcons : k1 ∉ GoMap.keys rest ∧ (GoMap.keys rest).Nodup := by
      simpa [GoMap.keys] using hnd
    rw [mergeAll_cons, ih _ k hcons.2]
    by_cases hk : k1 = k
    · subst hk
      have hnone : GoMap.get? rest k1 = none := by
        by_contra hne
        exact hcons.1 ((GoMap.mem_keys_iff rest k1).mpr hne)
      simp [hnone, GoMap.get?, GoMap.get?_set_self]
    · simp only [GoMap.get?, hk, ↓reduceIte, GoMap.get?_set_ne _ _ _ _ hk]

theorem mergeAll_nodup : ∀ (data old : Doc), (GoMap.keys old).Nodup →
    (GoMap.keys (mergeAll old data)).Nodup := by
  intro data
  induction data with
  | nil => intro old h; exact h
  | cons kv rest ih =>
    intro old h
    obtain ⟨k1, f1⟩ := kv
    rw [mergeAll_cons]
    exact ih _ (GoMap.keys_set_nodup old k1 _ h)

end Legacy

namespace Legacy

theorem legacy_contains_mem (v : String) : ∀ (list : List String),
    contains list v = true → v ∈ list := by
  intro list
  induction list with
  | nil => intro h; simp [contains] at h
  | cons x rest ih =>
    intro h
    unfold contains at h
    by_cases hx : x = v
    · simp [hx]
    · rw [if_neg hx] at h
      exact List.mem_cons_of_mem _ (ih h)

/-- The older validation switch always returns, and a `schedule` that it lets through
carries one or more args, each of them a weekday. -/
theorem legacy_parseTokens_shape (cmd : List String) :
    ∃ verb args err, parseTokens cmd = .ok (verb, args, err)
      ∧ (verb = "schedule" → args ≠ [] ∧ ∀ a ∈ args, a ∈ Bot.daysList) := by
  have hfail : ∀ msg, ∃ verb args err,
      (Except.ok (failWith msg) : Except Panic Bot.Parsed) = .ok (verb, args, err)
        ∧ (verb = "schedule" → args ≠ [] ∧ ∀ a ∈ args, a ∈ Bot.daysList) :=
    fun msg => ⟨"help", [], _, rfl, fun h => absurd h (by decide)⟩
  cases cmd with
  | nil => exact hfail _
  | cons c0 rest =>
    unfold parseTokens
    simp only []
    split
    · rename_i h1
      split
      · exact hfail _
      · rename_i h2
        exact ⟨c0, [], none, rfl, fun h => absurd (Or.inl h) h2⟩
    · split
      · rename_i h1 h2
        split
        · exact hfail _
        · split
          · exact hfail _
          · split
            · exact hfail _
            · split
              · rename_i hs
                split
                · exact hfail _
                · rename_i hany
                  refine ⟨c0, rest, none, rfl, fun _ => ⟨?_, ?_⟩⟩
                  · intro hnil
                    subst hnil
                    simp at h2
                  · intro a ha
                    have hall : ∀ v ∈ rest, contains daysList v = true := by
                      simpa using hany
                    exact legacy_contains_mem a daysList (hall a ha)
              · rename_i hs
                exact ⟨c0, rest, none, rfl, fun h => absurd h hs⟩
      · exact hfail _

theorem docOk_newRecurser (userID userName : String) : docOk (newRecurser userID userName) := by
  refine ⟨by simp [newRecurser, GoMap.keys], _, false, rfl, rfl, rfl, by decide, ?_⟩
  exact ⟨"monday", by decide, rfl⟩

/-- A write with `MergeAll` of data whose schedule and skip flag are well formed keeps
the invariant of the stored document. -/
theorem docOk_mergeAll (doc data : Doc) (newS : GoMap Bot.Iface) (b : Bool)
    (hok : docOk doc) (hnd : (GoMap.keys data).Nodup)
    (hs : GoMap.get? data "schedule" = some (.map newS))
    (hb : GoMap.get? data "isSkippingTomorrow" = some (.val (.bool b)))
    (hkeys : GoMap.keys newS = Bot.daysList) (htyped : Bot.scheduleTyped newS)
    (htrue : someDayTrue newS) : docOk (mergeAll doc data) := by
  obtain ⟨hdoc, s, b0, hs0, hb0, hk0, _, _⟩ := hok
  have hndS : (GoMap.keys newS).Nodup := by rw [hkeys]; decide
  have hlook : ∀ d v, GoMap.get? newS d = some v →
      GoMap.get? (mergeFields s newS) d = some v := by
    intro d v hv
    rw [mergeFields_get? newS s d hndS, hv]
  refine ⟨mergeAll_nodup data doc hdoc, mergeFields s newS, b, ?_, ?_, ?_, ?_, ?_⟩
  · rw [mergeAll_get? data doc _ hnd, hs, hs0]
    rfl
  · rw [mergeAll_get? data doc _ hnd, hb]
    rfl
  · rw [mergeFields_keys newS s (by rw [hkeys, hk0]; exact fun k hk => hk), hk0]
  · intro d hd
    obtain ⟨b1, hb1⟩ := htyped d hd
    exact ⟨b1, hlook d _ hb1⟩
  · obtain ⟨d, hd, hdt⟩ := htrue
    exact ⟨d, hd, hlook d _ hdt⟩

theorem legacy_switchCase_schedule (verb : String) (h : switchCase verb = .schedule) :
    verb = "schedule" := by
  unfold switchCase at h
  by_contra hne
  rw [if_neg hne] at h
  repeat (first | split at h | cases h)

end Legacy

namespace Legacy

/-- Whatever the older `dispatch` writes for a subscribed user leaves a document
that satisfies the invariant, or none. -/
theorem legacy_call_preserves (tbl : Char → Char) (userID userName verb : String)
    (args : List String) (doc doc2 : Doc) (hok : docOk doc)
    (hargs : verb = "schedule" → args ≠ [] ∧ ∀ a ∈ args, a ∈ Bot.daysList)
    (h : applyCall (callOf (dispatch tbl (constClient (some doc) none) verb args userID
        userName)) (some doc) = some doc2) : docOk doc2 := by
  have hnd : (GoMap.keys (GoMap.set doc "name" (.val (.str userName)))).Nodup :=
    GoMap.keys_set_nodup _ _ _ hok.1
  obtain ⟨s, b0, hs0, hb0, hk0, ht0, htrue0⟩ := hok.2
  have hs1 : GoMap.get? (GoMap.set doc "name" (.val (.str userName))) "schedule"
      = some (.map s) := by
    rw [GoMap.get?_set_ne _ _ _ _ (by decide), hs0]
  have hb1 : GoMap.get? (GoMap.set doc "name" (.val (.str userName))) "isSkippingTomorrow"
      = some (.val (.bool b0)) := by
    rw [GoMap.get?_set_ne _ _ _ _ (by decide), hb0]
  have hflag : ∀ b : Bool, docOk (mergeAll doc
      (GoMap.set (GoMap.set doc "name" (.val (.str userName))) "isSkippingTomorrow"
        (.val (.bool b)))) := by
    intro b
    refine docOk_mergeAll doc _ s b hok (GoMap.keys_set_nodup _ _ _ hnd) ?_
      (GoMap.get?_set_self _ _ _) hk0 ht0 htrue0
    rw [GoMap.get?_set_ne _ _ _ _ (by decide), hs1]
  unfold dispatch at h
  simp only [constClient, firestoreGet, dispatchBody, Option.isSome_some,
    Bool.true_eq_false, ↓reduceIte] at h
  cases hc : switchCase verb <;> simp only [hc, callOf, applyCall] at h
  case schedule =>
    obtain ⟨hne, hdays⟩ := hargs (legacy_switchCase_schedule verb hc)
    have hspec := Bot.newSchedule_spec args
    have hdoc2 : mergeAll doc
        (GoMap.set (GoMap.set doc "name" (.val (.str userName))) "schedule"
          (.map (Bot.populateSchedule Bot.blankSchedule args))) = doc2 := by
      simpa using h
    rw [← hdoc2]
    refine docOk_mergeAll doc _ (Bot.populateSchedule Bot.blankSchedule args) b0 hok
      (GoMap.keys_set_nodup _ _ _ hnd) (GoMap.get?_set_self _ _ _) ?_ (hspec.2 hdays) ?_ ?_
    · rw [GoMap.get?_set_ne _ _ _ _ (by decide), hb1]
    · intro d hd
      exact ⟨_, hspec.1 d hd⟩
    · obtain ⟨a, rest, rfl⟩ := List.exists_cons_of_ne_nil hne
      refine ⟨a, hdays a (by simp), ?_⟩
      rw [hspec.1 a (hdays a (by simp))]
      simp
  case unsubscribe => simp at h
  case skip =>
    have hdoc2 : mergeAll doc
        (GoMap.set (GoMap.set doc "name" (.val (.str userName))) "isSkippingTomorrow"
          (.val (.bool true))) = doc2 := by
      simpa using h
    rw [← hdoc2]
    exact hflag true
  case unskip =>
    have hdoc2 : mergeAll doc
        (GoMap.set (GoMap.set doc "name" (.val (.str userName))) "isSkippingTomorrow"
          (.val (.bool false))) = doc2 := by
      simpa using h
    rw [← hdoc2]
    exact hflag false
  case status =>
    have hdoc2 : doc = doc2 := by
      cases hstat : statusResponse tbl (GoMap.set doc "name" (.val (.str userName))) <;>
        simpa [hstat, callOf, applyCall] using h
    rw [← hdoc2]
    exact hok
  all_goals
    have hdoc2 : doc = doc2 := by simpa using h
    rw [← hdoc2]
    exact hok

/-- For a user without a document the older `dispatch` writes the default record of
`subscribe` or nothing. -/
theorem legacy_call_unsubscribed (tbl : Char → Char) (userID userName verb : String)
    (args : List String) (doc2 : Doc)
    (h : applyCall (callOf (dispatch tbl (constClient none none) verb args userID
        userName)) none = some doc2) : docOk doc2 := by
  unfold dispatch at h
  simp only [constClient, firestoreGet, grpcCode, codesNotFound, dispatchBody,
    Option.isSome_none, ne_eq, not_true_eq_false, ↓reduceIte] at h
  cases hc : switchCase verb <;> simp [hc, callOf, applyCall] at h
  rw [← h]
  exact docOk_newRecurser userID userName

/-- One request keeps the invariant of the stored document. -/
theorem legacy_step_ok (tbl : Char → Char) (userID : String) (stored : Option Doc)
    (request : String × String) (hstored : ∀ doc, stored = some doc → docOk doc) :
    ∀ doc2, step tbl userID stored request = some doc2 → docOk doc2 := by
  intro doc2 h
  obtain ⟨verb, args, err, hparse, hshape⟩ :=
    legacy_parseTokens_shape (Bot.tokens tbl request.1)
  unfold step parseCmd at h
  rw [hparse] at h
  simp only [] at h
  cases stored with
  | none => exact legacy_call_unsubscribed tbl userID request.2 verb args doc2 h
  | some doc =>
    exact legacy_call_preserves tbl userID request.2 verb args doc doc2 (hstored doc rfl)
      hshape h

/-- Any finite sequence of requests keeps the invariant of the stored document. -/
theorem legacy_run_ok (tbl : Char → Char) (userID : String) :
    ∀ (requests : List (String × String)) (stored : Option Doc),
      (∀ doc, stored = some doc → docOk doc) →
      ∀ doc2, run tbl userID stored requests = some doc2 → docOk doc2 := by
  intro requests
  induction requests with
  | nil =>
    intro stored hstored doc2 h
    exact hstored doc2 h
  | cons request rest ih =>
    intro stored hstored doc2 h
    exact ih (step tbl userID stored request)
      (legacy_step_ok tbl userID stored request hstored) doc2 h

theorem trueDays_ne_nil (schedule : GoMap Bot.Iface) (h : someDayTrue schedule) :
    Bot.trueDays schedule ≠ [] := by
  obtain ⟨d, hd, hdt⟩ := h
  have hcal : ∃ name, (d, name) ∈ Bot.calendar := by
    simp only [Bot.daysList, List.mem_cons, List.mem_singleton, List.not_mem_nil,
      or_false] at hd
    rcases hd with hd | hd | hd | hd | hd | hd | hd <;> subst hd <;>
      simp [Bot.calendar]
  obtain ⟨name, hname⟩ := hcal
  have hmem := (Bot.mem_trueDays schedule (d, name) hname).mpr hdt
  intro hnil
  rw [hnil] at hmem
  simp at hmem

theorem scheduleStr_ok (days : List String) (h : days ≠ []) :
    ∃ schedStr, Bot.scheduleStr days = .ok schedStr := by
  obtain ⟨init, last, hdays⟩ := List.eq_nil_or_concat days |>.resolve_left h
  rw [hdays, List.concat_eq_append]
  by_cases hinit : init = []
  · subst hinit
    exact ⟨_, Bot.scheduleStr_single last⟩
  · exact ⟨_, Bot.scheduleStr_append init last hinit⟩

end Legacy

/-- Claim C24: in the older variant, from a store without a document for the user and
with every store operation succeeding, after any finite sequence of requests handled
by `parseCmd` and then `dispatch`, a document present for the user has a schedule
with one or more weekdays set true, and the `status` case on it returns a reply: it
does not slice the empty list of active days. -/
theorem C24_legacy_reachable_has_true_day (tbl : Char → Char) (userID : String)
    (requests : List (String × String)) (doc : Legacy.Doc)
    (h : Legacy.run tbl userID none requests = some doc) :
    (∃ schedule, GoMap.get? doc "schedule" = some (.map schedule)
        ∧ ∃ d ∈ Bot.daysList, GoMap.get? schedule d = some (.bool true))
    ∧ ∀ (args : List String) (userName : String), ∃ reply,
        Legacy.dispatch tbl (Legacy.constClient (some doc) none) "status" args userID userName
          = .ok reply := by
  have hok := Legacy.legacy_run_ok tbl userID requests none
    (fun _ hnone => absurd hnone (by simp)) doc h
  obtain ⟨_, schedule, skipping, hs, hb, _, htyped, htrue⟩ := hok
  refine ⟨⟨schedule, hs, htrue⟩, ?_⟩
  intro args userName
  obtain ⟨schedStr, hstr⟩ :=
    Legacy.scheduleStr_ok (Bot.trueDays schedule) (Legacy.trueDays_ne_nil schedule htrue)
  rw [Legacy.legacy_dispatch_status tbl (Legacy.constClient (some doc) none) doc schedule
    skipping args userID userName rfl hs hb htyped, hstr]
  exact ⟨_, rfl⟩

theorem C24_legacy_reachable_has_true_day_witness :
    Legacy.run (fun c => c) "7" none
        [("status", "Al"), ("subscribe", "Al"), ("schedule Friday", "Al"), ("skip now", "Al B")]
      = some
          [("id", .val (.str "7")), ("name", .val (.str "Al B")),
           ("isSkippingTomorrow", .val (.bool true)),
           ("schedule", .map
             [("monday", .bool false), ("tuesday", .bool false), ("wednesday", .bool false),
              ("thursday", .bool false), ("friday", .bool true), ("saturday", .bool false),
              ("sunday", .bool false)])]
    ∧ ((∃ schedule,
          GoMap.get?
              ([("id", .val (.str "7")), ("name", .val (.str "Al B")),
                ("isSkippingTomorrow", .val (.bool true)),
                ("schedule", .map
                  [("monday", .bool false), ("tuesday", .bool false),
                   ("wednesday", .bool false), ("thursday", .bool false),
                   ("friday", .bool true), ("saturday", .bool false),
                   ("sunday", .bool false)])] : Legacy.Doc) "schedule"
            = some (.map schedule)
          ∧ ∃ d ∈ Bot.daysList, GoMap.get? schedule d = some (.bool true))
      ∧ ∀ (args : List String) (userName : String), ∃ reply,
          Legacy.dispatch (fun c => c)
              (Legacy.constClient
                (some
                  [("id", .val (.str "7")), ("name", .val (.str "Al B")),
                   ("isSkippingTomorrow", .val (.bool true)),
                   ("schedule", .map
                     [("monday", .bool false), ("tuesday", .bool false),
                      ("wednesday", .bool false), ("thursday", .bool false),
                      ("friday", .bool true), ("saturday", .bool false),
                      ("sunday", .bool false)])]) none) "status" args "7" userName
            = .ok reply) :=
  ⟨rfl,
   C24_legacy_reachable_has_true_day (fun c => c) "7"
     [("status", "Al"), ("subscribe", "Al"), ("schedule Friday", "Al"), ("skip now", "Al B")]
     _ rfl⟩

namespace Bot

/-! ## The `status` case and the days set true -/

theorem trueDays_eq_nil (schedule : GoMap Iface)
    (h : ¬ ∃ d ∈ daysList, GoMap.get? schedule d = some (.bool true)) :
    trueDays schedule = [] := by
  unfold trueDays
  rw [List.map_eq_nil_iff, List.filter_eq_nil_iff]
  intro day hday
  have hmem : day.1 ∈ daysList := by
    simp only [calendar, List.mem_cons, List.mem_singleton, List.not_mem_nil, or_false] at hday
    rcases hday with hd | hd | hd | hd | hd | hd | hd <;> subst hd <;> decide
  intro htrue
  exact h ⟨day.1, hmem, by simpa using htrue⟩

end Bot

/-- C13, amended: for every subscribed record whose seven weekday keys hold bools,
`dispatch` with the verb `status` returns a response exactly when one or more
weekdays are set true; with none set true the slice `schedule[:len(schedule)-1]`
panics and there is no phrase for an empty schedule. In `dispatch.go` and in
`pairing-bot.go` alike. -/
theorem C13_status_returns_iff_day_true (tbl : Char → Char) (owner : String)
    (iter : GoMap Int → List String) (rdb : Bot.RecurserDB) (rec : Bot.Recurser)
    (client : Legacy.Client) (doc : Legacy.Doc) (schedule : GoMap Bot.Iface)
    (skipping : Bool) (args : List String) (userID userEmail userName : String)
    (hget : rdb.GetByUserID userID userEmail userName = .ok rec)
    (hsub : rec.isSubscribed = true)
    (htyped : Bot.scheduleTyped rec.schedule)
    (hcget : client.Get userID = Legacy.firestoreGet (some doc))
    (hsched : GoMap.get? doc "schedule" = some (.map schedule))
    (hskip : GoMap.get? doc "isSkippingTomorrow" = some (.val (.bool skipping)))
    (hctyped : Bot.scheduleTyped schedule) :
    ((∃ d ∈ Bot.daysList, GoMap.get? rec.schedule d = some (.bool true)) →
        ∃ reply, Bot.dispatch tbl owner iter rdb "status" args userID userEmail userName
          = .ok reply)
    ∧ ((¬ ∃ d ∈ Bot.daysList, GoMap.get? rec.schedule d = some (.bool true)) →
        Bot.dispatch tbl owner iter rdb "status" args userID userEmail userName
          = .error .sliceBounds)
    ∧ ((∃ d ∈ Bot.daysList, GoMap.get? schedule d = some (.bool true)) →
        ∃ reply, Legacy.dispatch tbl client "status" args userID userName = .ok reply)
    ∧ ((¬ ∃ d ∈ Bot.daysList, GoMap.get? schedule d = some (.bool true)) →
        Legacy.dispatch tbl client "status" args userID userName = .error .sliceBounds) := by
  refine ⟨?_, ?_, ?_, ?_⟩
  · intro hday
    obtain ⟨schedStr, hstr⟩ :=
      Legacy.scheduleStr_ok (Bot.trueDays rec.schedule) (Legacy.trueDays_ne_nil _ hday)
    rw [Bot.dispatch_status tbl owner iter rdb rec args userID userEmail userName hget hsub,
      Bot.statusResponse_eq tbl _ rec htyped, hstr]
    exact ⟨_, rfl⟩
  · intro hnone
    exact Bot.dispatch_status_no_days tbl owner iter rdb rec args userID userEmail userName
      hget hsub htyped (Bot.trueDays_eq_nil _ hnone)
  · intro hday
    obtain ⟨schedStr, hstr⟩ :=
      Legacy.scheduleStr_ok (Bot.trueDays schedule) (Legacy.trueDays_ne_nil _ hday)
    rw [Legacy.legacy_dispatch_status tbl client doc schedule skipping args userID userName
      hcget hsched hskip hctyped, hstr]
    exact ⟨_, rfl⟩
  · intro hnone
    rw [Legacy.legacy_dispatch_status tbl client doc schedule skipping args userID userName
      hcget hsched hskip hctyped, Bot.trueDays_eq_nil _ hnone]
    rfl

/-- C13 for a record and a document with the schedule of `schedule tuesday`: `status`
returns a response in both variants. -/
theorem C13_status_returns_iff_day_true_witness :
    (∃ reply, Bot.dispatch (fun c => c) "the owner" GoMap.keys
        (Bot.constStore
          (Bot.sampleRecurser (Bot.populateSchedule Bot.blankSchedule ["tuesday"]) []) none)
        "status" [] "7" "al@example.org" "Al" = .ok reply)
    ∧ (∃ reply, Legacy.dispatch (fun c => c)
        (Legacy.constClient
          (some (Legacy.sampleDoc (Bot.populateSchedule Bot.blankSchedule ["tuesday"]) false))
          none)
        "status" [] "7" "Al" = .ok reply) :=
  have h := C13_status_returns_iff_day_true (fun c => c) "the owner" GoMap.keys
    (Bot.constStore
      (Bot.sampleRecurser (Bot.populateSchedule Bot.blankSchedule ["tuesday"]) []) none)
    (Bot.sampleRecurser (Bot.populateSchedule Bot.blankSchedule ["tuesday"]) [])
    (Legacy.constClient
      (some (Legacy.sampleDoc (Bot.populateSchedule Bot.blankSchedule ["tuesday"]) false))
      none)
    (Legacy.sampleDoc (Bot.populateSchedule Bot.blankSchedule ["tuesday"]) false)
    (Bot.populateSchedule Bot.blankSchedule ["tuesday"]) false [] "7" "al@example.org" "Al"
    rfl rfl (by decide) rfl rfl rfl (by decide)
  ⟨h.1 ⟨"tuesday", by decide, rfl⟩, h.2.2.1 ⟨"tuesday", by decide, rfl⟩⟩

namespace Bot

/-! ## The normal form of the specification -/

theorem collapseWhitespace_cons_not (d : Char) (r : List Char) (h : isSpace d = false) :
    collapseWhitespace (d :: r) = d :: collapseWhitespace r := by
  cases r with
  | nil => simp [collapseWhitespace, h]
  | cons e r2 => simp [collapseWhitespace, h]

/-- Where every whitespace rune is of the class `\s`, collapsing the runs of
whitespace is what the replacement of the runs of `\s` does. -/
theorem collapseWhitespace_eq_replace : ∀ (l : List Char),
    (∀ c ∈ l, isSpace c = true → isReSpace c = true) →
    collapseWhitespace l = replaceAllSpaceAux false l
    ∧ ∀ c, isSpace c = true → collapseWhitespace (c :: l) = ' ' :: replaceAllSpaceAux true l := by
  intro l
  induction l with
  | nil =>
    intro _
    refine ⟨rfl, ?_⟩
    intro c hc
    simp [collapseWhitespace, hc, replaceAllSpaceAux]
  | cons d r ih =>
    intro h
    obtain ⟨ih1, ih2⟩ := ih (fun c hc => h c (by simp [hc]))
    by_cases hd : isSpace d = true
    · have hre : isReSpace d = true := h d (by simp) hd
      refine ⟨?_, ?_⟩
      · rw [ih2 d hd]
        simp [replaceAllSpaceAux, hre]
      · intro c hc
        have h1 : collapseWhitespace (c :: d :: r) = collapseWhitespace (d :: r) := by
          simp [collapseWhitespace, hc, hd]
        rw [h1, ih2 d hd]
        simp [replaceAllSpaceAux, hre]
    · have hd2 : isSpace d = false := by simpa using hd
      have hre : ¬ isReSpace d = true := fun hre => hd (isSpace_of_isReSpace d hre)
      refine ⟨?_, ?_⟩
      · rw [collapseWhitespace_cons_not d r hd2, ih1]
        simp [replaceAllSpaceAux, hre]
      · intro c hc
        have h1 : collapseWhitespace (c :: d :: r) = ' ' :: collapseWhitespace (d :: r) := by
          simp [collapseWhitespace, hc, hd2]
        rw [h1, collapseWhitespace_cons_not d r hd2, ih1]
        simp [replaceAllSpaceAux, hre]

theorem dropWhile_all (p : Char → Bool) : ∀ (a b : List Char), (∀ c ∈ a, p c = true) →
    (a ++ b).dropWhile p = b.dropWhile p := by
  intro a
  induction a with
  | nil => intro b _; rfl
  | cons x rest ih =>
    intro b h
    rw [List.cons_append, List.dropWhile_cons, h x (by simp)]
    exact ih b (fun c hc => h c (by simp [hc]))

theorem dropWhile_append_of_not (p : Char → Bool) : ∀ (a b : List Char),
    (∃ c ∈ a, p c = false) → (a ++ b).dropWhile p = a.dropWhile p ++ b := by
  intro a
  induction a with
  | nil => intro b h; obtain ⟨c, hc, _⟩ := h; simp at hc
  | cons x rest ih =>
    intro b h
    by_cases hx : p x = true
    · rw [List.cons_append, List.dropWhile_cons, List.dropWhile_cons, hx]
      obtain ⟨c, hc, hpc⟩ := h
      simp only [List.mem_cons] at hc
      rcases hc with hc | hc
      · rw [hc, hx] at hpc
        cases hpc
      · exact ih b ⟨c, hc, hpc⟩
    · have hx2 : p x = false := by simpa using hx
      rw [List.cons_append, List.dropWhile_cons, List.dropWhile_cons, hx2]
      rfl

theorem rdropWhile_append_all (p : Char → Bool) (x t : List Char)
    (h : ∀ c ∈ t, p c = true) : List.rdropWhile p (x ++ t) = List.rdropWhile p x := by
  unfold List.rdropWhile
  rw [List.reverse_append, dropWhile_all p t.reverse x.reverse (by simpa using h)]

/-- Whitespace at the end of a text does not change what trimming leaves. -/
theorem stripWhitespace_append (x t : List Char) (h : ∀ c ∈ t, isSpace c = true) :
    stripWhitespace (x ++ t) = stripWhitespace x := by
  unfold stripWhitespace
  by_cases hx : ∀ c ∈ x, isSpace c = true
  · have h1 : (x ++ t).dropWhile isSpace = [] := by
      rw [List.dropWhile_eq_nil_iff]
      intro c hc
      rcases List.mem_append.mp hc with hc | hc
      · exact hx c hc
      · exact h c hc
    have h2 : x.dropWhile isSpace = [] := by
      rw [List.dropWhile_eq_nil_iff]
      exact hx
    rw [h1, h2]
  · have hex : ∃ c ∈ x, isSpace c = false := by
      by_contra hno
      apply hx
      intro c hc
      by_contra hcs
      exact hno ⟨c, hc, by simpa using hcs⟩
    rw [dropWhile_append_of_not isSpace x t hex, rdropWhile_append_all isSpace _ t h]

theorem stripWhitespace_cons (c : Char) (x : List Char) (h : isSpace c = true) :
    stripWhitespace (c :: x) = stripWhitespace x := by
  unfold stripWhitespace
  rw [List.dropWhile_cons, h]
  rfl

end Bot

namespace Bot

theorem stripWhitespace_replace_run (l : List Char) :
    stripWhitespace (replaceAllSpaceAux true l) = stripWhitespace (replaceAllSpaceAux false l) := by
  cases l with
  | nil => rfl
  | cons d r =>
    by_cases hd : isReSpace d = true
    · have h1 : replaceAllSpaceAux true (d :: r) = replaceAllSpaceAux true r := by
        simp [replaceAllSpaceAux, hd]
      have h2 : replaceAllSpaceAux false (d :: r) = ' ' :: replaceAllSpaceAux true r := by
        simp [replaceAllSpaceAux, hd]
      rw [h1, h2, stripWhitespace_cons ' ' _ (by decide)]
    · have h1 : replaceAllSpaceAux true (d :: r) = d :: replaceAllSpaceAux false r := by
        simp [replaceAllSpaceAux, hd]
      have h2 : replaceAllSpaceAux false (d :: r) = d :: replaceAllSpaceAux false r := by
        simp [replaceAllSpaceAux, hd]
      rw [h1, h2]

theorem stripWhitespace_replace_cons (c : Char) (l : List Char) (h : isSpace c = true) :
    stripWhitespace (replaceAllSpace (c :: l)) = stripWhitespace (replaceAllSpace l) := by
  unfold replaceAllSpace
  by_cases hc : isReSpace c = true
  · have h1 : replaceAllSpaceAux false (c :: l) = ' ' :: replaceAllSpaceAux true l := by
      simp [replaceAllSpaceAux, hc]
    rw [h1, stripWhitespace_cons ' ' _ (by decide), stripWhitespace_replace_run]
  · have h1 : replaceAllSpaceAux false (c :: l) = c :: replaceAllSpaceAux false l := by
      simp [replaceAllSpaceAux, hc]
    rw [h1, stripWhitespace_cons c _ h]

theorem stripWhitespace_collapse_cons (c : Char) (l : List Char) (h : isSpace c = true) :
    stripWhitespace (collapseWhitespace (c :: l)) = stripWhitespace (collapseWhitespace l) := by
  cases l with
  | nil =>
    have h1 : collapseWhitespace [c] = [' '] := by simp [collapseWhitespace, h]
    rw [h1]
    rfl
  | cons d r =>
    by_cases hd : isSpace d = true
    · have h1 : collapseWhitespace (c :: d :: r) = collapseWhitespace (d :: r) := by
        simp [collapseWhitespace, h, hd]
      rw [h1]
    · have h1 : collapseWhitespace (c :: d :: r) = ' ' :: collapseWhitespace (d :: r) := by
        simp [collapseWhitespace, h, hd]
      rw [h1, stripWhitespace_cons ' ' _ (by decide)]

theorem replaceAllSpaceAux_concat (c : Char) (h : isSpace c = true) :
    ∀ (l : List Char) (b : Bool), ∃ t, (∀ x ∈ t, isSpace x = true)
      ∧ replaceAllSpaceAux b (l ++ [c]) = replaceAllSpaceAux b l ++ t := by
  intro l
  induction l with
  | nil =>
    intro b
    by_cases hc : isReSpace c = true
    · cases b with
      | true => exact ⟨[], by simp, by simp [replaceAllSpaceAux, hc]⟩
      | false =>
        exact ⟨[' '], by simp; decide, by simp [replaceAllSpaceAux, hc]⟩
    · exact ⟨[c], by simpa using h, by simp [replaceAllSpaceAux, hc]⟩
  | cons d r ih =>
    intro b
    by_cases hd : isReSpace d = true
    · obtain ⟨t, ht, heq⟩ := ih true
      cases b with
      | true => exact ⟨t, ht, by simp [replaceAllSpaceAux, hd, heq]⟩
      | false => exact ⟨t, ht, by simp [replaceAllSpaceAux, hd, heq]⟩
    · obtain ⟨t, ht, heq⟩ := ih false
      exact ⟨t, ht, by simp [replaceAllSpaceAux, hd, heq]⟩

theorem collapseWhitespace_run (c d : Char) (r : List Char) (hc : isSpace c = true)
    (hd : isSpace d = true) :
    collapseWhitespace (c :: d :: r) = collapseWhitespace (d :: r) := by
  simp [collapseWhitespace, hc, hd]

theorem collapseWhitespace_run_end (c d : Char) (r : List Char) (hc : isSpace c = true)
    (hd : isSpace d = false) :
    collapseWhitespace (c :: d :: r) = ' ' :: collapseWhitespace (d :: r) := by
  simp [collapseWhitespace, hc, hd]

theorem collapseWhitespace_concat (c : Char) (h : isSpace c = true) :
    ∀ (l : List Char), ∃ t, (∀ x ∈ t, isSpace x = true)
      ∧ collapseWhitespace (l ++ [c]) = collapseWhitespace l ++ t := by
  intro l
  induction l with
  | nil => exact ⟨[' '], by simp; decide, by simp [collapseWhitespace, h]⟩
  | cons d r ih =>
    obtain ⟨t, ht, heq⟩ := ih
    cases r with
    | nil =>
      by_cases hd : isSpace d = true
      · exact ⟨[], by simp, by simp [collapseWhitespace, h, hd]⟩
      · exact ⟨[' '], by simp; decide, by simp [collapseWhitespace, h, hd]⟩
    | cons e r2 =>
      rw [List.cons_append] at heq
      refine ⟨t, ht, ?_⟩
      rw [List.cons_append, List.cons_append]
      by_cases hd : isSpace d = true
      · by_cases he : isSpace e = true
        · rw [collapseWhitespace_run d e _ hd he, collapseWhitespace_run d e _ hd he, heq]
        · have he2 : isSpace e = false := by simpa using he
          rw [collapseWhitespace_run_end d e _ hd he2, collapseWhitespace_run_end d e _ hd he2,
            heq]
          rfl
      · have hd2 : isSpace d = false := by simpa using hd
        rw [collapseWhitespace_cons_not d _ hd2, collapseWhitespace_cons_not d _ hd2, heq]
        rfl

/-- A step that is blind to one more whitespace rune at either end, once the result
is trimmed, gives on a text what it gives on the trimmed text. -/
theorem stripWhitespace_absorb (F : List Char → List Char)
    (hcons : ∀ c l, isSpace c = true → stripWhitespace (F (c :: l)) = stripWhitespace (F l))
    (hconcat : ∀ c l, isSpace c = true →
      stripWhitespace (F (l ++ [c])) = stripWhitespace (F l)) (l : List Char) :
    stripWhitespace (F l) = stripWhitespace (F (stripWhitespace l)) := by
  have hlead : ∀ l : List Char,
      stripWhitespace (F l) = stripWhitespace (F (l.dropWhile isSpace)) := by
    intro l
    induction l with
    | nil => rfl
    | cons c r ih =>
      by_cases hc : isSpace c = true
      · rw [hcons c r hc, ih, List.dropWhile_cons, hc]
        rfl
      · have hc2 : isSpace c = false := by simpa using hc
        rw [List.dropWhile_cons, hc2]
        rfl
  have htrail : ∀ m : List Char,
      stripWhitespace (F m) = stripWhitespace (F (List.rdropWhile isSpace m)) := by
    intro m
    induction m using List.reverseRecOn with
    | nil => rfl
    | append_singleton r c ih =>
      by_cases hc : isSpace c = true
      · rw [hconcat c r hc, ih, List.rdropWhile_concat, hc]
        rfl
      · have hc2 : isSpace c = false := by simpa using hc
        rw [List.rdropWhile_concat, hc2]
        rfl
  rw [hlead l, htrail (l.dropWhile isSpace)]
  rfl

/-- The normal form of the specification is the cleaned command string of the code when
every whitespace rune of the input, the leading and trailing ones apart, is of the
class `\s`. -/
theorem specNormalForm_eq (tbl : Char → Char) (s : String)
    (hinner : ∀ c ∈ stripWhitespace s.data, isSpace c = true → isReSpace c = true) :
    specNormalForm tbl s = cleanCmdStr tbl s := by
  have h1 := stripWhitespace_absorb collapseWhitespace stripWhitespace_collapse_cons
    (fun c l hc => by
      obtain ⟨t, ht, heq⟩ := collapseWhitespace_concat c hc l
      rw [heq, stripWhitespace_append _ t ht]) s.data
  have h2 := stripWhitespace_absorb replaceAllSpace stripWhitespace_replace_cons
    (fun c l hc => by
      obtain ⟨t, ht, heq⟩ := replaceAllSpaceAux_concat c hc l false
      unfold replaceAllSpace
      rw [heq, stripWhitespace_append _ t ht]) s.data
  have h3 : collapseWhitespace (stripWhitespace s.data)
      = replaceAllSpace (stripWhitespace s.data) :=
    (collapseWhitespace_eq_replace _ hinner).1
  have h4 : stripWhitespace (collapseWhitespace s.data)
      = trimSpace (replaceAllSpace s.data) := by
    rw [h1, h3, ← h2]
    rfl
  unfold specNormalForm cleanCmdStr
  rw [h4]
  rfl

end Bot

/-- C22, the code as it is: a vertical tab is whitespace but not of the class `\s` of
the regexp, so inside a command it is not collapsed: `skip`, vertical tab, `tomorrow`
is one token and is rejected, while its normal form `skip tomorrow` is accepted. -/
theorem C22_inner_vertical_tab_rejected :
    Bot.specNormalForm (fun c => c) "skip\x0btomorrow" = "skip tomorrow"
    ∧ Bot.parseCmd (fun c => c) "skip\x0btomorrow"
      = .ok ("help", [], some (.parsingErr "the user-issued command wasn't valid"))
    ∧ Bot.parseCmd (fun c => c) (Bot.specNormalForm (fun c => c) "skip\x0btomorrow")
      = .ok ("skip", ["tomorrow"], none) :=
  ⟨by decide, rfl, rfl⟩

/-- C22, amended: for every input string `s` whose whitespace runes, the leading and
trailing ones apart, are all among space, tab, newline, form feed and carriage return,
`parseCmd` returns for `s` what it returns for the normal form of `s`: every run of
whitespace collapsed to a single space, leading and trailing whitespace removed, every
letter lower-cased (`specNormalForm`). The table of lower-case runes is assumed
idempotent and to yield a whitespace rune only for a whitespace rune that it leaves
unchanged, as the Unicode tables do. -/
theorem C22_invariance_for_regexp_whitespace (tbl : Char → Char) (s : String)
    (hidem : ∀ c, 128 ≤ c.toNat → toLowerRune tbl (tbl c) = tbl c)
    (hspace : ∀ c, 128 ≤ c.toNat → isSpace (tbl c) = true → tbl c = c)
    (hinner : ∀ c ∈ Bot.stripWhitespace s.data, isSpace c = true → isReSpace c = true) :
    Bot.parseCmd tbl (Bot.specNormalForm tbl s) = Bot.parseCmd tbl s := by
  rw [Bot.specNormalForm_eq tbl s hinner]
  exact Bot.parseCmd_cleanCmdStr tbl s hidem hspace

/-- C22 for the input `  SUBSCRIBE  `, whose normal form is `subscribe`, and for an
input with a run of a space, a tab and a newline inside and a vertical tab at the
end, whose normal form is `skip tomorrow`. -/
theorem C22_invariance_for_regexp_whitespace_witness :
    Bot.specNormalForm (fun c => c) "  SUBSCRIBE  " = "subscribe"
    ∧ Bot.parseCmd (fun c => c) "subscribe" = .ok ("subscribe", [], none)
    ∧ Bot.parseCmd (fun c => c) (Bot.specNormalForm (fun c => c) "  SUBSCRIBE  ")
      = Bot.parseCmd (fun c => c) "  SUBSCRIBE  "
    ∧ Bot.specNormalForm (fun c => c) "Skip \t\nTOMORROW\x0b" = "skip tomorrow"
    ∧ Bot.parseCmd (fun c => c) (Bot.specNormalForm (fun c => c) "Skip \t\nTOMORROW\x0b")
      = Bot.parseCmd (fun c => c) "Skip \t\nTOMORROW\x0b" :=
  ⟨by decide, rfl,
   C22_invariance_for_regexp_whitespace (fun c => c) "  SUBSCRIBE  "
    (by
      intro c hc
      show toLowerRune (fun c => c) c = c
      unfold toLowerRune
      rw [if_neg (by omega)])
    (fun _ _ _ => rfl) (by decide),
   by decide,
   C22_invariance_for_regexp_whitespace (fun c => c) "Skip \t\nTOMORROW\x0b"
    (by
      intro c hc
      show toLowerRune (fun c => c) c = c
      unfold toLowerRune
      rw [if_neg (by omega)])
    (fun _ _ _ => rfl) (by decide)⟩
